import Mathlib

/-!
Verification development for the loop-optimization predicate subsystem
(loop unswitching, predicate blocks, Template Assertion Predicate cloning)
and the G1 survivor-rate group bookkeeping.

The definitions below are shallow embeddings of:
  - src/hotspot/share/opto/loopUnswitch.cpp
  - src/hotspot/share/opto/predicates.cpp / predicates.hpp
  - src/hotspot/share/gc/g1/g1SurvRateGroup.cpp
External collaborators (dominator queries, invariance tests, the node-budget
accounting, the uncommon-trap query) are modelled as explicit data carried by
the state, mirroring the interfaces described in the specification.
-/

/- ===================== Definitions ===================== -/

namespace Unswitch

/-- A node of the loop body as seen by `find_unswitching_candidate`:
only the capabilities the walk inspects are recorded. `invariant` is the
external `loop->is_invariant(bol)` analysis result for a Bool node and
`isLoopExit` the external `loop->is_loop_exit(iff)` result for an If node. -/
structure LNode where
  isRegion : Bool := false
  isIf : Bool := false
  isBool : Bool := false
  isCmp : Bool := false
  invariant : Bool := false
  isLoopExit : Bool := false
  in1 : Option Nat := none
  deriving DecidableEq

/-- The loop as consumed by `find_unswitching_candidate`: its head node, the
back-edge control input `head->in(LoopNode::LoopBackControl)`, the external
immediate-dominator query `idom`, and the node table. -/
structure LGraph where
  head : Nat
  backControl : Nat
  idom : Nat → Nat
  node : Nat → LNode

/-- The candidate test applied at walk position `n` in
`PhaseIdealLoop::find_unswitching_candidate`: `n` must be a Region, its
immediate dominator an If whose condition is a Bool of a Cmp, the Bool
loop-invariant, and the If not a loop exit. -/
def qualifies (g : LGraph) (n : Nat) : Bool :=
  let nd := g.idom n
  (g.node n).isRegion &&
  ((g.node nd).isIf &&
    (match (g.node nd).in1 with
     | some b =>
         (g.node b).isBool &&
         (match (g.node b).in1 with
          | some c =>
              (g.node c).isCmp &&
              ((g.node b).invariant && !(g.node nd).isLoopExit)
          | none => false)
     | none => false))

/-- The while loop of `PhaseIdealLoop::find_unswitching_candidate`: walk the
immediate-dominator chain from the back-edge control up to the loop head,
overwriting `cand` on each match. `fuel` bounds the walk (the C++ loop relies
on the dominator chain reaching the head). -/
def find_unswitching_candidate_loop (g : LGraph) : Nat → Nat → Option Nat → Option Nat
  | 0, _, cand => cand
  | fuel+1, n, cand =>
    if n = g.head then cand
    else
      let nd := g.idom n
      let cand' := if qualifies g n then some nd else cand
      find_unswitching_candidate_loop g fuel nd cand'

/-- `PhaseIdealLoop::find_unswitching_candidate`. -/
def find_unswitching_candidate (g : LGraph) (fuel : Nat) : Option Nat :=
  find_unswitching_candidate_loop g fuel g.backControl none

/-- The If nodes assigned to `unswitch_iff` during the walk, in assignment
order (used to state that the last assignment wins). -/
def candidate_matches (g : LGraph) : Nat → Nat → List Nat
  | 0, _ => []
  | fuel+1, n =>
    if n = g.head then []
    else
      let nd := g.idom n
      (if qualifies g n then [nd] else []) ++ candidate_matches g fuel nd

/-- The structural part of the candidate test without the loop-exit test:
an invariant branch (Region dominated by an If on an invariant Bool of a Cmp). -/
def invariant_branch_at (g : LGraph) (n : Nat) : Bool :=
  let nd := g.idom n
  (g.node n).isRegion &&
  ((g.node nd).isIf &&
    (match (g.node nd).in1 with
     | some b =>
         (g.node b).isBool &&
         (match (g.node b).in1 with
          | some c => (g.node c).isCmp && (g.node b).invariant
          | none => false)
     | none => false))

/-- Modelled from the spec: `PhaseIdealLoop::may_require_nodes` (not under
src/) is the node-budget backpressure check — a transformation may go ahead
exactly when the estimated node requirement still fits in the remaining
node-count budget. -/
def may_require_nodes (remaining request : Nat) : Bool :=
  decide (request ≤ remaining)

/-- The inputs consumed by `IdealLoopTree::policy_unswitching`: the
LoopUnswitching flag, the head-node classification, the unswitch counter and
its cap, the loop graph for the candidate search, and the budget numbers
(`estLoopCloneSz` is the value of `est_loop_clone_sz(2)`). -/
structure UnswitchPolicyInput where
  loopUnswitching : Bool
  headIsLoop : Bool
  headIsCountedLoop : Bool
  isUnrollOnly : Bool
  unswitch_count : Nat
  unswitch_max : Nat
  g : LGraph
  fuel : Nat
  nodeBudgetRemaining : Nat
  estLoopCloneSz : Nat

/-- `IdealLoopTree::policy_unswitching`, check for check in source order. -/
def policy_unswitching (s : UnswitchPolicyInput) : Bool :=
  if !s.loopUnswitching then false
  else if !s.headIsLoop then false
  else if s.headIsCountedLoop && s.isUnrollOnly then false
  else if s.unswitch_count + 1 > s.unswitch_max then false
  else if (find_unswitching_candidate s.g s.fuel).isNone then false
  else may_require_nodes s.nodeBudgetRemaining s.estLoopCloneSz

/-- The unswitch-count update of `PhaseIdealLoop::do_unswitching`
(lines 142-146): `nct = head->unswitch_count() + 1` is stored into both the
original head and its clone. `counts` maps a loop-head node id to its
unswitch count. -/
def set_unswitch_count (counts : Nat → Nat) (head headClone : Nat) : Nat → Nat :=
  let nct := counts head + 1
  Function.update (Function.update counts head nct) headClone nct

/-- One unswitching transformation as performed by the optimizer: the caller
invokes `do_unswitching` only for a loop on which `policy_unswitching`
returned true, which in particular requires `counts head + 1 ≤ maxU`
(the guard below records exactly that admitted consequence of the policy). -/
inductive UnswitchStep (maxU : Nat) : (Nat → Nat) → (Nat → Nat) → Prop
  | unswitch (counts : Nat → Nat) (head headClone : Nat)
      (hpolicy : counts head + 1 ≤ maxU) :
      UnswitchStep maxU counts (set_unswitch_count counts head headClone)

/-- `UnswitchedParsePredicates::count_slow_loop_nodes`: the number of output
nodes of the original loop entry whose node index is at or above the first
index allocated for the slow (cloned) loop. `outs` lists the node indices of
the entry's outputs. -/
def count_slow_loop_nodes (outs : List Nat) (firstSlowIdx : Nat) : Nat :=
  (outs.filter (fun i => decide (firstSlowIdx ≤ i))).length

/-- `UnswitchedParsePredicates::can_clone`. -/
def can_clone (hasParsePredicates : Bool) (outs : List Nat) (firstSlowIdx : Nat) : Bool :=
  let entryOutcnt := outs.length
  if 3 < entryOutcnt && hasParsePredicates then
    decide (count_slow_loop_nodes outs firstSlowIdx * 2 = entryOutcnt - 1)
  else
    hasParsePredicates

/-- `UnswitchedLoop::create_parse_predicates`: the fast/slow loop entries are
replaced by the cloned Parse Predicate chains only when `can_clone` holds;
otherwise they stay at the unswitch-If projections they were initialized to. -/
def create_parse_predicates (canClonePP : Bool) (fastEntry slowEntry : Nat)
    (cloneFast cloneSlow : Nat → Nat) : Nat × Nat :=
  if canClonePP then (cloneFast fastEntry, cloneSlow slowEntry)
  else (fastEntry, slowEntry)

end Unswitch

namespace SurvRate

/-- A `TruncatedSeq` as used by `G1SurvRateGroup`: only `add` and `last` are
exercised by the embedded code. Values of C++ `double` are modelled as
rationals (the claim under study is a frame property that does not depend on
rounding). -/
structure TruncatedSeq where
  vals : List Rat
  deriving DecidableEq

/-- `TruncatedSeq::add` with the capacity (10) used at the creation sites in
`stop_adding_regions`. -/
def TruncatedSeq.add (s : TruncatedSeq) (v : Rat) : TruncatedSeq :=
  let l := s.vals ++ [v]
  ⟨l.drop (l.length - 10)⟩

/-- `TruncatedSeq::last` — the most recently added value. -/
def TruncatedSeq.lastVal (s : TruncatedSeq) : Rat :=
  (s.vals.getLast?).getD 0

/-- `G1SurvRateGroup`'s fields touched by `stop_adding_regions`. -/
structure G1SurvRateGroup where
  statsArraysLength : Nat
  numAddedRegions : Nat
  accumSurvRatePred : List Rat
  lastPred : Rat
  survRatePredictors : List TruncatedSeq
  deriving DecidableEq

/-- The constant `InitialSurvivorRate` lives in g1SurvRateGroup.hpp (not under
src/); the claim under study does not depend on its value. -/
def InitialSurvivorRate : Rat := 2/5

/-- `REALLOC_C_HEAP_ARRAY` semantics on the list model: keep the existing
contents (up to the new size) and extend with unspecified slots (written
before being read by the loop in `stop_adding_regions`). -/
def reallocList {α : Type} (l : List α) (n : Nat) (dflt : α) : List α :=
  l.take n ++ List.replicate (n - l.length) dflt

/-- The initialization loop of `G1SurvRateGroup::stop_adding_regions`
(`for (uint i = _stats_arrays_length; i < _num_added_regions; ++i)`). -/
def growLoop (accum : List Rat) (preds : List TruncatedSeq) (i num : Nat) :
    List Rat × List TruncatedSeq :=
  if h : i < num then
    let seq0 : TruncatedSeq := ⟨[]⟩
    if i = 0 then
      let seq := seq0.add InitialSurvivorRate
      growLoop (accum.set 0 InitialSurvivorRate) (preds.set 0 seq) (i+1) num
    else
      let nextPred := (((preds.get? (i-1)).getD ⟨[]⟩)).lastVal
      let seq := seq0.add nextPred
      let accumPrev := (accum.get? (i-1)).getD 0
      growLoop (accum.set i (accumPrev + nextPred)) (preds.set i seq) (i+1) num
  else
    (accum, preds)
  termination_by num - i

/-- `G1SurvRateGroup::stop_adding_regions`. -/
def stop_adding_regions (g : G1SurvRateGroup) : G1SurvRateGroup :=
  if g.statsArraysLength < g.numAddedRegions then
    let accum1 := reallocList g.accumSurvRatePred g.numAddedRegions 0
    let preds1 := reallocList g.survRatePredictors g.numAddedRegions ⟨[]⟩
    let grown := growLoop accum1 preds1 g.statsArraysLength g.numAddedRegions
    { statsArraysLength := g.numAddedRegions
      numAddedRegions := g.numAddedRegions
      accumSurvRatePred := grown.1
      lastPred := ((grown.2.get? (g.numAddedRegions - 1)).getD ⟨[]⟩).lastVal
      survRatePredictors := grown.2 }
  else
    g

end SurvRate

namespace PredChain

/-- Opcodes of the control nodes inspected by the predicate classifiers and
the `Predicates` walk. `Cmp` sub-opcodes and data opcodes irrelevant to the
walk are collapsed into `other`. -/
inductive COp where
  | ifN
  | rangeCheck
  | parsePredicateN
  | templateAssertionPredicateN
  | ifTrueN
  | ifFalseN
  | conI
  | opaqueAssertionPredicateN
  | haltN
  | other
  deriving DecidableEq

/-- The deoptimization reasons consumed from the deoptimization subsystem. -/
inductive DeoptReason where
  | loop_limit_check
  | predicate
  | profile_predicate
  | reason_none
  deriving DecidableEq

/-- A control node: opcode, ordered inputs (slot 0 is the control input), the
zero-trip-guard flag of an If, and — modelled from the spec's external
interface to the deoptimization subsystem — the deopt reason of the uncommon
trap reached from the failure projection of this success projection
(`reason_none`/`none` when the node heads no uncommon-trap pattern). -/
structure CNode where
  op : COp
  ins : List (Option Nat)
  zeroTripGuard : Bool := false
  uctReason : Option DeoptReason := none
  deriving DecidableEq

/-- A control graph: node ids are positions in the list. -/
abbrev CGraph := List CNode

/-- Node lookup (out-of-range ids behave as inert `other` nodes). -/
def cnode (g : CGraph) (i : Nat) : CNode :=
  (g.get? i).getD ⟨.other, [], false, none⟩

/-- `node->in(k)`. -/
def cin (g : CGraph) (i k : Nat) : Option Nat :=
  ((cnode g i).ins.get? k).join

/-- `node->outcnt()`: number of input edges of other nodes pointing at `i`. -/
def outEdges (g : CGraph) (i : Nat) : Nat :=
  (g.map (fun nd => nd.ins.count (some i))).sum

/-- `node->unique_out()` when `outcnt() == 1`: the single user node. -/
def unique_out (g : CGraph) (i : Nat) : Option Nat :=
  (((List.range g.length)).filter
    (fun j => decide (0 < (cnode g j).ins.count (some i)))).head?

/-- `Node::is_IfProj()`. -/
def isIfProjOp (o : COp) : Bool :=
  o = .ifTrueN || o = .ifFalseN

/-- `Node::is_If()` — the IfNode class covers If, RangeCheck and
ParsePredicate nodes. -/
def isIfClassOp (o : COp) : Bool :=
  o = .ifN || o = .rangeCheck || o = .parsePredicateN

namespace RuntimePredicate

/-- `RuntimePredicate::may_be_runtime_predicate_if`. -/
def may_be_runtime_predicate_if (g : CGraph) (n : Nat) : Bool :=
  isIfProjOp (cnode g n).op &&
  (match cin g n 0 with
   | some i0 =>
       ((cnode g i0).op = COp.ifN && !(cnode g i0).zeroTripGuard) ||
       (cnode g i0).op = COp.rangeCheck
   | none => false)

/-- `RuntimePredicate::is_being_folded_without_uncommon_proj`: the If has a
constant bool input and only the success projection left. -/
def is_being_folded_without_uncommon_proj (g : CGraph) (proj : Nat) : Bool :=
  match cin g proj 0 with
  | some ifn =>
      (match cin g ifn 1 with
       | some b => (cnode g b).op = COp.conI
       | none => false) && decide (outEdges g ifn = 1)
  | none => false

/-- `RuntimePredicate::uncommon_trap_reason` — reads the external
uncommon-trap query recorded on the projection. -/
def uncommon_trap_reason (g : CGraph) (proj : Nat) : DeoptReason :=
  ((cnode g proj).uctReason).getD .reason_none

/-- `RuntimePredicate::is_success_proj(Node*)`. -/
def is_success_proj (g : CGraph) (n : Nat) : Bool :=
  if may_be_runtime_predicate_if g n then
    if is_being_folded_without_uncommon_proj g n then true
    else
      let r := uncommon_trap_reason g n
      r = .loop_limit_check || r = .predicate || r = .profile_predicate
  else false

/-- `RuntimePredicate::is_success_proj(Node*, DeoptReason)`. -/
def is_success_proj_reason (g : CGraph) (n : Nat) (reason : DeoptReason) : Bool :=
  if may_be_runtime_predicate_if g n then
    is_being_folded_without_uncommon_proj g n ||
    decide (reason = uncommon_trap_reason g n)
  else false

end RuntimePredicate

namespace InitializedAssertionPredicate

/-- `InitializedAssertionPredicate::has_opaque_or_con`. -/
def has_opaque_or_con (g : CGraph) (ifn : Nat) : Bool :=
  match cin g ifn 1 with
  | some b =>
      (cnode g b).op = COp.conI ||
      (cnode g b).op = COp.opaqueAssertionPredicateN
  | none => false

/-- `IfProjNode::other_if_proj`: the projection of the same If with the
opposite constant. -/
def other_if_proj (g : CGraph) (proj : Nat) : Option Nat :=
  match cin g proj 0 with
  | some ifn =>
      let wanted : COp := if (cnode g proj).op = COp.ifTrueN then .ifFalseN else .ifTrueN
      (((List.range g.length)).filter
        (fun j => (cnode g j).op = wanted && cin g j 0 = some ifn)).head?
  | none => none

/-- `InitializedAssertionPredicate::has_halt`: the other projection has a
single output which is a Halt node. -/
def has_halt (g : CGraph) (proj : Nat) : Bool :=
  match other_if_proj g proj with
  | some o =>
      decide (outEdges g o = 1) &&
      (match unique_out g o with
       | some h => (cnode g h).op = COp.haltN
       | none => false)
  | none => false

/-- `InitializedAssertionPredicate::is_success_proj`. -/
def is_success_proj (g : CGraph) (n : Nat) : Bool :=
  if (cnode g n).op = COp.ifTrueN then
    match cin g n 0 with
    | some ifn =>
        if isIfClassOp (cnode g ifn).op && decide (outEdges g ifn = 2) then
          has_opaque_or_con g ifn && has_halt g n
        else false
    | none => false
  else false

end InitializedAssertionPredicate

/-- `ParsePredicateNode::is_success_proj` (declared outside src/; mirrors the
shape test of `ParsePredicate::init_parse_predicate` in predicates.cpp:
an IfTrue projection whose input is a ParsePredicate node). -/
def parse_predicate_is_success_proj (g : CGraph) (n : Nat) : Bool :=
  (cnode g n).op = COp.ifTrueN &&
  (match cin g n 0 with
   | some p => (cnode g p).op = COp.parsePredicateN
   | none => false)

/-- `ParsePredicate::entry()` per the constructor in predicates.hpp: the
control input of the ParsePredicate node when the projection is a valid
Parse Predicate success projection, otherwise the node itself. -/
def parse_predicate_entry (g : CGraph) (n : Nat) : Nat :=
  if parse_predicate_is_success_proj g n then
    ((cin g n 0).bind (fun p => cin g p 0)).getD n
  else n

/-- `RuntimePredicateBlock::find_entry`: skip Runtime Predicates of the given
deopt reason upwards (`entry = entry->in(0)->in(0)`). -/
def runtime_predicate_block_entry (g : CGraph) (reason : DeoptReason) :
    Nat → Nat → Nat
  | 0, n => n
  | fuel+1, n =>
    if RuntimePredicate.is_success_proj_reason g n reason then
      runtime_predicate_block_entry g reason fuel
        (((cin g n 0).bind (fun i => cin g i 0)).getD n)
    else n

/-- `RegularPredicateBlock` constructor: skip the (at most one) Parse
Predicate, then the Runtime Predicate block of the same reason. -/
def regular_predicate_block_entry (g : CGraph) (reason : DeoptReason)
    (fuel n : Nat) : Nat :=
  runtime_predicate_block_entry g reason fuel (parse_predicate_entry g n)

/-- Modelled from the spec: the `TemplateAssertionPredicateBlock` constructor
(not under src/) finds the entry above the consecutive chain of Template
Assertion Predicate nodes sitting directly above the loop head (each skipped
via its control input). -/
def template_assertion_predicate_block_entry (g : CGraph) : Nat → Nat → Nat
  | 0, n => n
  | fuel+1, n =>
    if (cnode g n).op = COp.templateAssertionPredicateN then
      template_assertion_predicate_block_entry g fuel ((cin g n 0).getD n)
    else n

/-- Modelled from the spec: the `InitializedAssertionPredicateBlock`
constructor (not under src/) finds the entry above the consecutive chain of
Initialized Assertion Predicates (recognized with
`InitializedAssertionPredicate::is_success_proj`, each skipped via
`in(0)->in(0)`). -/
def initialized_assertion_predicate_block_entry (g : CGraph) : Nat → Nat → Nat
  | 0, n => n
  | fuel+1, n =>
    if InitializedAssertionPredicate.is_success_proj g n then
      initialized_assertion_predicate_block_entry g fuel
        (((cin g n 0).bind (fun i => cin g i 0)).getD n)
    else n

/-- `AssertionPredicateBlock` constructor (predicates.hpp): the Template
Assertion Predicate block is built from the loop entry, then the Initialized
Assertion Predicate block from the template block's entry. -/
def assertion_predicate_block_entry (g : CGraph) (fuel n : Nat) : Nat :=
  initialized_assertion_predicate_block_entry g fuel
    (template_assertion_predicate_block_entry g fuel n)

/-- `Predicates` constructor (predicates.hpp): from the loop entry, first the
Assertion Predicate block, then the Loop-Limit-Check, Profiled-Loop and Loop
Regular Predicate blocks; `_entry` is the entry of the Loop block. -/
def predicates_entry (g : CGraph) (fuel n : Nat) : Nat :=
  regular_predicate_block_entry g .predicate fuel
    (regular_predicate_block_entry g .profile_predicate fuel
      (regular_predicate_block_entry g .loop_limit_check fuel
        (assertion_predicate_block_entry g fuel n)))

/-- Modelled from the claim's words (for refinement comparison only): a walk
that partitions in the order the claim states — Loop-Limit-Check block first
from the loop entry, then Profiled-Loop, then Loop, with the Assertion block
above the three Regular Predicate blocks. -/
def predicates_entry_claim_order (g : CGraph) (fuel n : Nat) : Nat :=
  assertion_predicate_block_entry g fuel
    (regular_predicate_block_entry g .predicate fuel
      (regular_predicate_block_entry g .profile_predicate fuel
        (regular_predicate_block_entry g .loop_limit_check fuel n)))

/-- `PredicateEntryIterator::has_next` (predicates.cpp): is the current node
a predicate tail? -/
def predicate_entry_iterator_has_next (g : CGraph) (n : Nat) : Bool :=
  if (cnode g n).op = COp.templateAssertionPredicateN then true
  else if isIfProjOp (cnode g n).op then
    (match cin g n 0 with
     | some i0 => (cnode g i0).op = COp.parsePredicateN
     | none => false) ||
    RuntimePredicate.is_success_proj g n ||
    InitializedAssertionPredicate.is_success_proj g n
  else false

/-- Concrete graph for the C2 counterexample: a Template Assertion Predicate
(node 3, the loop entry) directly above a Loop Parse Predicate projection
(node 2 over node 1) above a non-predicate node 0. -/
def cg2 : CGraph :=
  [ ⟨.other, [], false, none⟩,
    ⟨.parsePredicateN, [some 0], false, none⟩,
    ⟨.ifTrueN, [some 1], false, none⟩,
    ⟨.templateAssertionPredicateN, [some 2], false, none⟩ ]

/-- Concrete graph for the C3 counterexample: an If (node 1) whose bool input
collapsed to the constant node 0 and whose uncommon projection was already
folded away, leaving the single success projection node 2. -/
def cg3 : CGraph :=
  [ ⟨.conI, [], false, none⟩,
    ⟨.ifN, [none, some 0], false, none⟩,
    ⟨.ifTrueN, [some 1], false, none⟩ ]

end PredChain

namespace Unswitch

/-- The properties the claim attributes to a returned unswitching candidate:
an If on an invariant Bool of a Cmp that does not exit the loop. -/
def cand_props (g : LGraph) (c : Nat) : Prop :=
  (g.node c).isIf = true ∧
  (∃ b k, (g.node c).in1 = some b ∧ (g.node b).isBool = true ∧
          (g.node b).in1 = some k ∧ (g.node k).isCmp = true ∧
          (g.node b).invariant = true) ∧
  (g.node c).isLoopExit = false

/-- A trivial loop graph (single inert node) for witnesses. -/
def lgTrivial : LGraph :=
  ⟨0, 0, fun _ => 0, fun _ => {}⟩

/-- A loop whose only invariant branch exits the loop: Region 1 is dominated
by If 2 (on invariant Bool 3 of Cmp 4) and If 2 is a loop exit. -/
def lgExitOnly : LGraph where
  head := 0
  backControl := 1
  idom := fun n =>
    match n with
    | 1 => 2
    | _ => 0
  node := fun n =>
    match n with
    | 1 => { isRegion := true }
    | 2 => { isIf := true, isLoopExit := true, in1 := some 3 }
    | 3 => { isBool := true, invariant := true, in1 := some 4 }
    | 4 => { isCmp := true }
    | _ => {}

/-- A loop with two qualifying (invariant, non-exiting) branches: the walk
visits Region 1 (If 2) then Region 5 (If 6); If 6 is nearer the loop head. -/
def lgTwoCandidates : LGraph where
  head := 0
  backControl := 1
  idom := fun n =>
    match n with
    | 1 => 2
    | 2 => 5
    | 5 => 6
    | 6 => 0
    | _ => 0
  node := fun n =>
    match n with
    | 1 => { isRegion := true }
    | 2 => { isIf := true, in1 := some 3 }
    | 3 => { isBool := true, invariant := true, in1 := some 4 }
    | 4 => { isCmp := true }
    | 5 => { isRegion := true }
    | 6 => { isIf := true, in1 := some 7 }
    | 7 => { isBool := true, invariant := true, in1 := some 8 }
    | 8 => { isCmp := true }
    | _ => {}

/-- Concrete policy input at the unswitch-count cap (for the C4 witness). -/
def policyAtCap : UnswitchPolicyInput :=
  ⟨true, true, false, false, 2, 2, lgTrivial, 5, 100, 10⟩

/-- Concrete policy input over `lgExitOnly` (for the C5 witness). -/
def policyExitOnly : UnswitchPolicyInput :=
  ⟨true, true, false, false, 0, 2, lgExitOnly, 6, 100, 10⟩

end Unswitch

namespace PredChain

/-- A single-node graph whose node matches no predicate shape (witness input). -/
def cgNoPredicates : CGraph :=
  [ ⟨.other, [], false, none⟩ ]

end PredChain

namespace SurvRate

/-- Concrete survivor-rate group state for the C10 witness: one filled slot,
three regions added. -/
def svExample : G1SurvRateGroup :=
  ⟨1, 3, [5], 5, [⟨[5]⟩]⟩

end SurvRate

namespace ExprClone

/-- Opcodes relevant to `AssertionPredicateBoolOpcodes::is_valid`
(predicates.hpp 587-611): the two OpaqueLoop* kinds, Bool/Cmp (class tests
collapsed to one opcode each), the fixed arithmetic allow-list, plus `conI`
and `otherN` for nodes outside the expression. -/
inductive EOp where
  | opaqueLoopInitN
  | opaqueLoopStrideN
  | boolN
  | cmpN
  | andL
  | orL
  | rshiftL
  | lshiftL
  | lshiftI
  | addL
  | addI
  | mulL
  | mulI
  | subL
  | subI
  | convI2L
  | castII
  | conI
  | otherN
  deriving DecidableEq

/-- A data node: opcode and ordered inputs (slot 0 is the control input,
possibly absent). `origin` is embedding instrumentation only: the id of the
node this one was copied from by `Node::clone` (`none` for all other nodes);
it lets the development count how often an original node was duplicated. -/
structure ENode where
  op : EOp
  ins : List (Option Nat)
  origin : Option Nat := none
  deriving DecidableEq

/-- A data graph: node ids are positions; `C->unique()` is the length. -/
abbrev EGraph := List ENode

/-- Node lookup (out-of-range ids behave as inert nodes). -/
def enode (g : EGraph) (i : Nat) : ENode :=
  (g.get? i).getD ⟨.otherN, [], none⟩

/-- `node->in(k)`. -/
def einn (g : EGraph) (i k : Nat) : Option Nat :=
  ((enode g i).ins.get? k).join

/-- `node->req()`. -/
def ereq (g : EGraph) (i : Nat) : Nat :=
  (enode g i).ins.length

/-- `AssertionPredicateBoolOpcodes::is_valid` applied to node `i`. -/
def valid_bool_opcode (g : EGraph) (i : Nat) : Bool :=
  match (enode g i).op with
  | .opaqueLoopInitN => true
  | .opaqueLoopStrideN => true
  | .boolN => true
  | .cmpN => true
  | .andL => true
  | .orL => true
  | .rshiftL => true
  | .lshiftL => true
  | .lshiftI => true
  | .addL => true
  | .addI => true
  | .mulL => true
  | .mulI => true
  | .subL => true
  | .subI => true
  | .convI2L => true
  | .castII => true
  | _ => false

/-- `Node::is_Opaque1` for the nodes reachable inside an Assertion Predicate
bool (the OpaqueLoop* kinds). -/
def opaque1_op (o : EOp) : Bool :=
  o = .opaqueLoopInitN || o = .opaqueLoopStrideN

/-- `node(i)->set_req(k, some v)`. -/
def set_req (g : EGraph) (i k v : Nat) : EGraph :=
  match g.get? i with
  | some nd => g.set i { nd with ins := nd.ins.set k (some v) }
  | none => g

/-- `PhaseIdealLoop::clone_and_register`: append a copy of node `i`; the new
node's id is the previous `C->unique()` (the list length). The `origin`
ghost field records the copied node. -/
def clone_and_register (g : EGraph) (i : Nat) : Nat × EGraph :=
  (g.length, g ++ [{ enode g i with origin := some i }])

/-- The two `TransformOpaqueLoopNodes` strategies exercised by the claims:
`CloneOpaqueLoopNodes` (used by `TemplateAssertionPredicateBool::clone`, with
its `CachedOpaqueLoopNodes` cache) and `RemoveOpaqueLoopNodes` (used by
`clone_remove_opaque_loop_nodes`, which returns the OpaqueLoop* node's own
input). -/
inductive Strat where
  | cloneNodes
  | removeNodes
  deriving DecidableEq

/-- Result of a transformation/cloning step: the node standing for the
processed expression part plus the updated graph and caches. -/
structure CloneRes where
  res : Nat
  g : EGraph
  cacheInit : Option Nat
  cacheStride : Option Nat
  deriving DecidableEq

/-- `CloneAssertionPredicateBool::transform_opaque_loop_node` dispatched on
the strategy: `CloneOpaqueLoopNodes` clones the OpaqueLoop* node at most once
per kind (`CachedOpaqueLoopNodes`), `RemoveOpaqueLoopNodes` returns its input
`in(1)`. -/
def transform_opaque_core (st : Strat) (g : EGraph) (cI cS : Option Nat)
    (cur : Nat) : CloneRes :=
  match st with
  | .removeNodes => ⟨(einn g cur 1).getD cur, g, cI, cS⟩
  | .cloneNodes =>
    if (enode g cur).op = EOp.opaqueLoopInitN then
      match cI with
      | some c => ⟨c, g, cI, cS⟩
      | none =>
          let p := clone_and_register g cur
          ⟨p.1, p.2, some p.1, cS⟩
    else
      match cS with
      | some c => ⟨c, g, cI, cS⟩
      | none =>
          let p := clone_and_register g cur
          ⟨p.1, p.2, cI, some p.1⟩

/-- `CloneAssertionPredicateBool::must_clone_top_node`: the new stack top `p`
must be cloned iff it is an original node (id below the allocation-counter
threshold `thr` captured before cloning) whose input at the stored index `k`
differs from the popped node's result `prev`. -/
def must_clone_top_node (g : EGraph) (thr p k prev : Nat) : Bool :=
  decide (p < thr) && decide (einn g p k ≠ some prev)

/-- `CloneAssertionPredicateBool::clone_top_node`: clone `p` and set `prev`
as its input at index `k`. -/
def clone_top_node (g : EGraph) (p k prev : Nat) : Nat × EGraph :=
  let c := clone_and_register g p
  (c.1, set_req c.2 c.1 k prev)

/-- The stack-top update of `CloneAssertionPredicateBool::pop_opaque_loop_node`
(after popping a transformed OpaqueLoop* node): clone the top if required,
otherwise wire the transformed node in directly
(`set_req_of_clone_to_parent`). -/
def pop_parent_after_opaque_node (g : EGraph) (thr p k prev : Nat) : Nat × EGraph :=
  if must_clone_top_node g thr p k prev then clone_top_node g p k prev
  else (p, set_req g p k prev)

/-- The stack-top update of `CloneAssertionPredicateBool::pop_node`: clone the
top if required; otherwise, if the popped node's result is itself a clone
(`is_cloned_node`, id at or above the threshold), rewire the top to it;
otherwise leave everything untouched. -/
def pop_parent_after_node (g : EGraph) (thr p k prev : Nat) : Nat × EGraph :=
  if must_clone_top_node g thr p k prev then clone_top_node g p k prev
  else if decide (thr ≤ prev) then (p, set_req g p k prev)
  else (p, g)

/-- The scan of `DFSStack::push_next_unvisited_input` from slot `k` (fuel is
the number of remaining slots): the first input slot holding a node with a
valid Assertion Predicate bool opcode, together with that input. -/
def push_next_scan (g : EGraph) (cur : Nat) : Nat → Nat → Option (Nat × Nat)
  | 0, _ => none
  | fuel+1, k =>
    match einn g cur k with
    | some j =>
        if valid_bool_opcode g j then some (k, j)
        else push_next_scan g cur fuel (k+1)
    | none => push_next_scan g cur fuel (k+1)

/-- `DFSStack::push_next_unvisited_input` starting at stored index `k`. -/
def push_next_unvisited_input (g : EGraph) (cur k : Nat) : Option (Nat × Nat) :=
  push_next_scan g cur (ereq g cur - k) k

/-- State of `CloneAssertionPredicateBool`: the graph, the DFS stack (top
first; each entry is a node id with its current input index) and the
`CachedOpaqueLoopNodes` cache. -/
structure MState where
  g : EGraph
  stk : List (Nat × Nat)
  cacheInit : Option Nat
  cacheStride : Option Nat
  deriving DecidableEq

/-- One iteration of the `while` loop in `CloneAssertionPredicateBool::clone`.
`.inl` continues; `.inr (some r, s)` is the loop exit with `current = r`;
`.inr (none, s)` marks states the C++ code excludes by assertion (an empty
stack, or an OpaqueLoop* node at the bottom of the stack). -/
def stepM (st : Strat) (thr : Nat) (s : MState) : MState ⊕ (Option Nat × MState) :=
  match s.stk with
  | [] => .inr (none, s)
  | (cur, idx) :: rest =>
    if opaque1_op (enode s.g cur).op then
      let tr := transform_opaque_core st s.g s.cacheInit s.cacheStride cur
      match rest with
      | [] => .inr (none, s)
      | (p, k) :: rest2 =>
          let pu := pop_parent_after_opaque_node tr.g thr p k tr.res
          .inl ⟨pu.2, (pu.1, k+1) :: rest2, tr.cacheInit, tr.cacheStride⟩
    else
      match push_next_unvisited_input s.g cur idx with
      | some si =>
          .inl { s with stk := (si.2, 1) :: (cur, si.1) :: rest }
      | none =>
          match rest with
          | [] => .inr (some cur, s)
          | (p, k) :: rest2 =>
              let pu := pop_parent_after_node s.g thr p k cur
              .inl ⟨pu.2, (pu.1, k+1) :: rest2, s.cacheInit, s.cacheStride⟩

/-- Iterate `stepM` for at most `n` steps. -/
def runSteps (st : Strat) (thr : Nat) : Nat → MState → MState ⊕ (Option Nat × MState)
  | 0, s => .inl s
  | n+1, s =>
    match stepM st thr s with
    | .inl s2 => runSteps st thr n s2
    | .inr r => .inr r

/-- `TemplateAssertionPredicateBool::clone` (strategy `cloneNodes`) and
`TemplateAssertionPredicateBool::clone_remove_opaque_loop_nodes` (strategy
`removeNodes`): run the DFS from the template bool; the threshold is the
allocation counter captured before cloning (`phase->C->unique()`), the cache
starts empty. Returns the resulting BoolNode id (or `none` if `fuel` did not
suffice or an asserted-impossible state was reached) and the final graph. -/
def clone_assertion_predicate_bool (st : Strat) (g : EGraph) (root fuel : Nat) :
    Option Nat × EGraph :=
  match runSteps st g.length fuel ⟨g, [(root, 1)], none, none⟩ with
  | .inl s => (none, s.g)
  | .inr (r, s) => (r, s.g)

mutual
/-- Shape specification of a Template Assertion Predicate bool expression as
a tree of graph node ids: leaves are the OpaqueLoop* nodes; an interior node
lists (input slot, subtree) pairs for exactly those of its inputs that have a
valid Assertion Predicate bool opcode. -/
inductive TSpec where
  | initLeaf (id : Nat) : TSpec
  | strideLeaf (id : Nat) : TSpec
  | interior (id : Nat) (children : TChildren) : TSpec
  deriving DecidableEq

/-- Children of an interior node, in strictly increasing slot order. -/
inductive TChildren where
  | nil : TChildren
  | cons (slot : Nat) (t : TSpec) (rest : TChildren) : TChildren
  deriving DecidableEq
end

/-- Root node id of a subtree. -/
def TSpec.rootId : TSpec → Nat
  | .initLeaf i => i
  | .strideLeaf i => i
  | .interior i _ => i

/-- Is `t` a leaf specification (an OpaqueLoop* node)? -/
def TSpec.isLeaf : TSpec → Bool
  | .initLeaf _ => true
  | .strideLeaf _ => true
  | .interior _ _ => false

/-- All slots in [a, b) of node `i` hold no valid-opcode input. -/
def slots_invalid (g : EGraph) (i a b : Nat) : Bool :=
  (List.range' a (b - a)).all (fun k =>
    match einn g i k with
    | some j => !valid_bool_opcode g j
    | none => true)


mutual
/-- Does the tree spec describe the valid-opcode closure of the graph at its
root? A leaf must be an OpaqueLoop* node of the matching kind whose input 1
exists and differs from itself; an interior node must carry a valid
non-OpaqueLoop* opcode and list exactly its valid-opcode input slots, in
increasing order; all ids must lie below the threshold. -/
def checkT (g : EGraph) (thr : Nat) : TSpec → Bool
  | .initLeaf i =>
      decide (i < thr) && ((enode g i).op = EOp.opaqueLoopInitN) &&
      (match einn g i 1 with
       | some x => decide (x ≠ i)
       | none => false)
  | .strideLeaf i =>
      decide (i < thr) && ((enode g i).op = EOp.opaqueLoopStrideN) &&
      (match einn g i 1 with
       | some x => decide (x ≠ i)
       | none => false)
  | .interior i ch =>
      decide (i < thr) && valid_bool_opcode g i &&
      !opaque1_op (enode g i).op &&
      checkCh g thr i 1 ch

/-- Check the children list against node `i` starting at slot `lo`. -/
def checkCh (g : EGraph) (thr i lo : Nat) : TChildren → Bool
  | .nil => slots_invalid g i lo (ereq g i)
  | .cons k t rest =>
      decide (lo ≤ k) && decide (k < ereq g i) &&
      slots_invalid g i lo k &&
      (einn g i k = some t.rootId) &&
      checkT g thr t &&
      checkCh g thr i (k+1) rest
end

mutual
/-- Does the subtree contain an OpaqueLoop* leaf? -/
def hasLeafT : TSpec → Bool
  | .initLeaf _ => true
  | .strideLeaf _ => true
  | .interior _ ch => hasLeafCh ch

def hasLeafCh : TChildren → Bool
  | .nil => false
  | .cons _ t rest => hasLeafT t || hasLeafCh rest
end

mutual
/-- Number of OpaqueLoopInit leaves. -/
def initCountT : TSpec → Nat
  | .initLeaf _ => 1
  | .strideLeaf _ => 0
  | .interior _ ch => initCountCh ch

def initCountCh : TChildren → Nat
  | .nil => 0
  | .cons _ t rest => initCountT t + initCountCh rest
end

mutual
/-- Number of OpaqueLoopStride leaves. -/
def strideCountT : TSpec → Nat
  | .initLeaf _ => 0
  | .strideLeaf _ => 1
  | .interior _ ch => strideCountCh ch

def strideCountCh : TChildren → Nat
  | .nil => 0
  | .cons _ t rest => strideCountT t + strideCountCh rest
end

mutual
/-- All node ids of the tree. -/
def treeIdsT : TSpec → List Nat
  | .initLeaf i => [i]
  | .strideLeaf i => [i]
  | .interior i ch => i :: treeIdsCh ch

def treeIdsCh : TChildren → List Nat
  | .nil => []
  | .cons _ t rest => treeIdsT t ++ treeIdsCh rest
end

mutual
/-- The tree nodes the algorithm duplicates: every node whose subtree
contains an OpaqueLoop* leaf — including the leaves themselves under the
clone strategy, excluding them under the remove strategy (their input is
wired in instead). -/
def pathListT (st : Strat) : TSpec → List Nat
  | .initLeaf i => if st = .cloneNodes then [i] else []
  | .strideLeaf i => if st = .cloneNodes then [i] else []
  | .interior i ch =>
      if hasLeafCh ch then i :: pathListCh st ch else []

def pathListCh (st : Strat) : TChildren → List Nat
  | .nil => []
  | .cons _ t rest => pathListT st t ++ pathListCh st rest
end

/-- Is `k` one of the listed child slots? -/
def slotInCh (k : Nat) : TChildren → Bool
  | .nil => false
  | .cons k2 _ rest => k = k2 || slotInCh k rest

/-- The input index stored with the parent after all children of the list
have been processed (one past the last child slot, or the start index for an
empty list). -/
def endSlot : TChildren → Nat → Nat
  | .nil, k0 => k0
  | .cons k _ rest, _ => endSlot rest (k+1)

/-- Does slot `k` of node `i` hold no valid-opcode input? -/
def invalidIn (g : EGraph) (i k : Nat) : Bool :=
  match einn g i k with
  | some j => !valid_bool_opcode g j
  | none => true

/-- The proposition behind `orig_inputs_below`. -/
def OrigOkP (g : EGraph) (thr : Nat) : Prop :=
  ∀ j, j < thr → ∀ k x, einn g j k = some x → x < thr

/-- The stack-top update the machine applies when popping the root of
subtree `t`: the OpaqueLoop* variant for leaves, the plain variant otherwise. -/
def popParentFor (t : TSpec) (g : EGraph) (thr p k prev : Nat) : Nat × EGraph :=
  if t.isLeaf then pop_parent_after_opaque_node g thr p k prev
  else pop_parent_after_node g thr p k prev

mutual
/-- Reference recursion mirroring the stack machine on a tree-shaped
expression: process subtree `t`, returning the node standing for its root
afterwards (the untouched original when nothing below was transformed). -/
def refCloneT (st : Strat) (thr : Nat) (g : EGraph) (cI cS : Option Nat) :
    TSpec → CloneRes
  | .initLeaf i => transform_opaque_core st g cI cS i
  | .strideLeaf i => transform_opaque_core st g cI cS i
  | .interior i ch => refCloneCh st thr g cI cS i ch

/-- Fold over the children of the current node (`cur` starts as the original
interior id and is replaced by its clone when one is made), applying the
machine's pop update after each child. -/
def refCloneCh (st : Strat) (thr : Nat) (g : EGraph) (cI cS : Option Nat)
    (cur : Nat) : TChildren → CloneRes
  | .nil => ⟨cur, g, cI, cS⟩
  | .cons k t rest =>
      let r := refCloneT st thr g cI cS t
      let pu := popParentFor t r.g thr cur k r.res
      refCloneCh st thr pu.2 r.cacheInit r.cacheStride pu.1 rest
end

/-- All original nodes (ids below `thr`) have all inputs below `thr`
(checked over the finite ranges, hence decidable). -/
def orig_inputs_below (g : EGraph) (thr : Nat) : Bool :=
  (List.range thr).all (fun j =>
    (List.range (ereq g j)).all (fun k =>
      match einn g j k with
      | some x => decide (x < thr)
      | none => true))

/-- Count of nodes in `l` recorded as clones of `x`. -/
def countOrigin (l : List ENode) (x : Nat) : Nat :=
  (l.filter (fun nd => nd.origin = some x)).length

mutual
/-- The final graph `g` mirrors subtree `t` (of the original graph `g0`) at
node `r`: when the subtree contains an OpaqueLoop* leaf, `r` is a fresh clone
(id at least `lo`, the graph length before the run) of the subtree root whose
listed child slots point at the mirrors of the children and whose other slots
are shared with the original node; otherwise `r` is the original root itself
(shared, not duplicated). A leaf's mirror is its fresh copy under the clone
strategy and its own input `in(1)` under the remove strategy (the
substitution the claim describes). -/
inductive MirrorsT (st : Strat) (g0 g : EGraph) (thr lo : Nat) : TSpec → Nat → Prop
  | initLeafClone (i r : Nat) :
      st = .cloneNodes → i < thr → thr ≤ r → lo ≤ r → r < g.length →
      (enode g r).op = EOp.opaqueLoopInitN →
      (enode g r).ins = (enode g0 i).ins →
      (enode g r).origin = some i →
      MirrorsT st g0 g thr lo (.initLeaf i) r
  | strideLeafClone (i r : Nat) :
      st = .cloneNodes → i < thr → thr ≤ r → lo ≤ r → r < g.length →
      (enode g r).op = EOp.opaqueLoopStrideN →
      (enode g r).ins = (enode g0 i).ins →
      (enode g r).origin = some i →
      MirrorsT st g0 g thr lo (.strideLeaf i) r
  | initLeafRemoved (i r : Nat) :
      st = .removeNodes → i < thr → einn g0 i 1 = some r →
      MirrorsT st g0 g thr lo (.initLeaf i) r
  | strideLeafRemoved (i r : Nat) :
      st = .removeNodes → i < thr → einn g0 i 1 = some r →
      MirrorsT st g0 g thr lo (.strideLeaf i) r
  | interiorShared (i : Nat) (ch : TChildren) :
      hasLeafCh ch = false →
      MirrorsT st g0 g thr lo (.interior i ch) i
  | interiorCloned (i r : Nat) (ch : TChildren) :
      hasLeafCh ch = true → i < thr →
      thr ≤ r → lo ≤ r → r < g.length →
      (enode g r).op = (enode g0 i).op →
      (enode g r).origin = some i →
      (enode g r).ins.length = (enode g0 i).ins.length →
      (∀ k, slotInCh k ch = false →
        (enode g r).ins.get? k = (enode g0 i).ins.get? k) →
      MirrorsCh st g0 g thr lo ch r →
      MirrorsT st g0 g thr lo (.interior i ch) r

/-- Every listed child slot of the clone `r` points at the mirror of the
corresponding subtree. -/
inductive MirrorsCh (st : Strat) (g0 g : EGraph) (thr lo : Nat) : TChildren → Nat → Prop
  | nil (r : Nat) : MirrorsCh st g0 g thr lo .nil r
  | cons (k : Nat) (t : TSpec) (rest : TChildren) (r rc : Nat) :
      einn g r k = some rc →
      MirrorsT st g0 g thr lo t rc →
      MirrorsCh st g0 g thr lo rest r →
      MirrorsCh st g0 g thr lo (.cons k t rest) r
end

/-- Postconditions of `refCloneT` on subtree `t`. -/
def PostT (st : Strat) (thr : Nat) (g : EGraph) (cI cS : Option Nat)
    (t : TSpec) (r : CloneRes) : Prop :=
  g.length ≤ r.g.length ∧
  (∀ j, j < g.length → r.g.get? j = g.get? j) ∧
  (∀ c, r.cacheInit = some c → thr ≤ c ∧ c < r.g.length) ∧
  (∀ c, r.cacheStride = some c → thr ≤ c ∧ c < r.g.length) ∧
  (hasLeafT t = false → r = ⟨t.rootId, g, cI, cS⟩) ∧
  (t.isLeaf = true → st = .removeNodes →
    einn g t.rootId 1 = some r.res ∧ r.g = g ∧
    r.cacheInit = cI ∧ r.cacheStride = cS) ∧
  (hasLeafT t = true → (st = .cloneNodes ∨ t.isLeaf = false) →
    thr ≤ r.res ∧ r.res < r.g.length)

/-- Postconditions of `refCloneCh` (fold over the children of the node
standing for original interior `i`, currently represented by `cur`, with
slots below `k0` already processed). -/
def PostCh (st : Strat) (thr : Nat) (g : EGraph) (cI cS : Option Nat)
    (i cur k0 : Nat) (ch : TChildren) (r : CloneRes) : Prop :=
  g.length ≤ r.g.length ∧
  (∀ j, j < g.length → j ≠ cur → r.g.get? j = g.get? j) ∧
  (cur < thr → r.g.get? cur = g.get? cur) ∧
  (∀ c, r.cacheInit = some c → thr ≤ c ∧ c < r.g.length) ∧
  (∀ c, r.cacheStride = some c → thr ≤ c ∧ c < r.g.length) ∧
  (hasLeafCh ch = false → r = ⟨cur, g, cI, cS⟩) ∧
  (r.res = cur ∨ (thr ≤ r.res ∧ r.res < r.g.length)) ∧
  (cur < thr → hasLeafCh ch = true → thr ≤ r.res ∧ r.res < r.g.length) ∧
  (∀ kk, endSlot ch k0 ≤ kk →
    (enode r.g r.res).ins.get? kk = (enode g i).ins.get? kk) ∧
  ereq r.g r.res = ereq g i

/-- One data-flow edge: `b` is an input of `a`. -/
def edgeTo (g : EGraph) (a b : Nat) : Prop :=
  ∃ k, einn g a k = some b

/-- Graph reachability along input edges. -/
def Reaches (g : EGraph) (a b : Nat) : Prop :=
  Relation.ReflTransGen (edgeTo g) a b

/-- No OpaqueLoop* node is reachable from `a`. -/
def NoOpaqueLoopReach (g : EGraph) (a : Nat) : Prop :=
  ∀ b, Reaches g a b → opaque1_op (enode g b).op = false

mutual
/-- Side inputs of the expression tree are safe: the input replacing a
removed OpaqueLoop* leaf, and every non-child-slot input of an interior node,
has no path to an OpaqueLoop* node in the original graph. -/
def SideSafeT (g : EGraph) : TSpec → Prop
  | .initLeaf i => ∀ x, einn g i 1 = some x → NoOpaqueLoopReach g x
  | .strideLeaf i => ∀ x, einn g i 1 = some x → NoOpaqueLoopReach g x
  | .interior i ch =>
      (∀ k x, slotInCh k ch = false → einn g i k = some x →
        NoOpaqueLoopReach g x) ∧ SideSafeCh g ch

def SideSafeCh (g : EGraph) : TChildren → Prop
  | .nil => True
  | .cons _ t rest => SideSafeT g t ∧ SideSafeCh g rest
end

/-- Concrete graph for the C1 counterexample: the Cmp node 1 uses the AddI
node 2 through BOTH of its inputs, so node 2 (which has a path to the
OpaqueLoopInit leaf 3) is reached twice by the DFS. Node 4 (ConI) and node 5
(the real init value) are outside the expression. Bool root is node 0. -/
def gShare : EGraph :=
  [ ⟨.boolN, [none, some 1], none⟩,
    ⟨.cmpN, [none, some 2, some 2], none⟩,
    ⟨.addI, [none, some 3, some 4], none⟩,
    ⟨.opaqueLoopInitN, [none, some 5], none⟩,
    ⟨.conI, [], none⟩,
    ⟨.otherN, [], none⟩ ]

/-- The machine run on `gShare` with the clone-only strategy. -/
def gShareRun : Option Nat × EGraph :=
  clone_assertion_predicate_bool .cloneNodes gShare 0 50

/-- Tree spec describing the DFS traversal of `gShare`: the shared AddI
node 2 is visited through both Cmp inputs, so it appears twice. -/
def tShare : TSpec :=
  .interior 0 (.cons 1
    (.interior 1
      (.cons 1 (.interior 2 (.cons 1 (.initLeaf 3) .nil))
      (.cons 2 (.interior 2 (.cons 1 (.initLeaf 3) .nil)) .nil)))
    .nil)

/-- Concrete tree-shaped template bool `(x + OpaqueLoopInit) < range` for the
C1/C8 witnesses: Bool 0 over Cmp 1 over AddI 2 over OpaqueLoopInit 3; the
shared, unrelated inputs are ConI 4 (attached to the AddI) and `range`
node 5 (second Cmp input, invalid opcode), with init value node 6. -/
def gTree : EGraph :=
  [ ⟨.boolN, [none, some 1], none⟩,
    ⟨.cmpN, [none, some 2, some 5], none⟩,
    ⟨.addI, [none, some 3, some 4], none⟩,
    ⟨.opaqueLoopInitN, [none, some 6], none⟩,
    ⟨.conI, [], none⟩,
    ⟨.otherN, [], none⟩,
    ⟨.otherN, [], none⟩ ]

/-- Tree spec of `gTree`'s bool expression. -/
def tTree : TSpec :=
  .interior 0 (.cons 1
    (.interior 1 (.cons 1
      (.interior 2 (.cons 1 (.initLeaf 3) .nil))
      .nil))
    .nil)

end ExprClone

/- ===================== Theorems ===================== -/

/-- `slots_invalid` read pointwise. -/
theorem slots_invalid_iff (g : ExprClone.EGraph) (i a b : Nat) :
    ExprClone.slots_invalid g i a b = true ↔
      ∀ k, a ≤ k → k < b → ExprClone.invalidIn g i k = true := by
  unfold ExprClone.slots_invalid ExprClone.invalidIn
  rw [List.all_eq_true]
  constructor
  · intro h k hak hkb
    have hm : k ∈ List.range' a (b - a) := by
      rw [List.mem_range']
      exact ⟨k - a, by omega, by omega⟩
    exact h k hm
  · intro h k hm
    rw [List.mem_range'] at hm
    obtain ⟨d, hd, hk⟩ := hm
    exact h k (by omega) (by omega)

/- Helper lemmas for the unswitching candidate walk. -/

theorem qualifies_gives_cand_props (g : Unswitch.LGraph) (n : Nat)
    (h : Unswitch.qualifies g n = true) : Unswitch.cand_props g (g.idom n) := by
  unfold Unswitch.qualifies at h
  cases hb : (g.node (g.idom n)).in1 with
  | none => simp [hb] at h
  | some b =>
    cases hc : (g.node b).in1 with
    | none => simp [hb, hc] at h
    | some c =>
      simp [hb, hc, Bool.and_eq_true] at h
      exact ⟨h.2.1, ⟨b, c, hb, h.2.2.1, hc, h.2.2.2.1, h.2.2.2.2.1⟩,
        by simpa using h.2.2.2.2.2⟩

theorem qualifies_iff_invariant_branch (g : Unswitch.LGraph) (n : Nat) :
    Unswitch.qualifies g n = true ↔
      (Unswitch.invariant_branch_at g n = true ∧
        (g.node (g.idom n)).isLoopExit = false) := by
  unfold Unswitch.qualifies Unswitch.invariant_branch_at
  cases hb : (g.node (g.idom n)).in1 with
  | none => simp [hb]
  | some b =>
    cases hc : (g.node b).in1 with
    | none => simp [hb, hc]
    | some c =>
      simp [hb, hc, Bool.and_eq_true]
      tauto

theorem find_loop_sound (g : Unswitch.LGraph) :
    ∀ fuel n cand, (∀ c, cand = some c → Unswitch.cand_props g c) →
      ∀ c, Unswitch.find_unswitching_candidate_loop g fuel n cand = some c →
        Unswitch.cand_props g c := by
  intro fuel
  induction fuel with
  | zero => intro n cand hc c h; exact hc c h
  | succ fuel ih =>
    intro n cand hc c h
    unfold Unswitch.find_unswitching_candidate_loop at h
    split at h
    · exact hc c h
    · refine ih _ _ ?_ c h
      intro c' hc'
      by_cases hqn : Unswitch.qualifies g n = true
      · simp [hqn] at hc'
        subst hc'
        exact qualifies_gives_cand_props g n hqn
      · simp [hqn] at hc'
        exact hc c' hc'

theorem find_loop_no_qualifies (g : Unswitch.LGraph)
    (hnoq : ∀ n, Unswitch.qualifies g n = false) :
    ∀ fuel n cand, Unswitch.find_unswitching_candidate_loop g fuel n cand = cand := by
  intro fuel
  induction fuel with
  | zero => intro n cand; rfl
  | succ fuel ih =>
    intro n cand
    unfold Unswitch.find_unswitching_candidate_loop
    split
    · rfl
    · simp [hnoq n, ih]

theorem getLast_cons_or (a : Nat) (l : List Nat) :
    (a :: l).getLast? = l.getLast?.or (some a) := by
  induction l generalizing a with
  | nil => rfl
  | cons b l ih =>
    rw [List.getLast?_cons_cons, ih b]
    cases l.getLast? <;> rfl

theorem find_loop_eq_matches (g : Unswitch.LGraph) : ∀ fuel n cand,
    Unswitch.find_unswitching_candidate_loop g fuel n cand =
      ((Unswitch.candidate_matches g fuel n).getLast?).or cand := by
  intro fuel
  induction fuel with
  | zero => intro n cand; rfl
  | succ fuel ih =>
    intro n cand
    unfold Unswitch.find_unswitching_candidate_loop Unswitch.candidate_matches
    split
    · rfl
    · by_cases hq : Unswitch.qualifies g n = true
      · simp only [hq, if_true]
        rw [ih, List.singleton_append, getLast_cons_or]
        cases (Unswitch.candidate_matches g fuel (g.idom n)).getLast? <;> rfl
      · simp only [Bool.not_eq_true] at hq
        simp only [hq, if_false, Bool.false_eq_true]
        rw [ih, List.nil_append]

theorem policy_false_of_no_candidate (s : Unswitch.UnswitchPolicyInput)
    (h : Unswitch.find_unswitching_candidate s.g s.fuel = none) :
    Unswitch.policy_unswitching s = false := by
  unfold Unswitch.policy_unswitching
  split_ifs with h1 h2 h3 h4 h5
  · rfl
  · rfl
  · rfl
  · rfl
  · rfl
  · exfalso
    rw [h] at h5
    simp at h5

/-- Claim C4: `policy_unswitching` returns false exactly when the
LoopUnswitching feature is disabled, the head is not a genuine Loop node, the
loop is a vectorization-only (unroll-only) counted loop, the unswitch counter
hit its cap (`unswitch_count + 1 > unswitch_max`), no unswitching candidate
exists, or the clone-size estimate does not fit the remaining node budget
(the external `may_require_nodes` check, which also covers an exhausted
node-count budget); and in particular it returns false whenever
`unswitch_count = unswitch_max`, regardless of candidate availability. -/
theorem c4_policy_unswitching_conditions (s : Unswitch.UnswitchPolicyInput) :
    (Unswitch.policy_unswitching s = true ↔
      (s.loopUnswitching = true ∧ s.headIsLoop = true ∧
       ¬(s.headIsCountedLoop = true ∧ s.isUnrollOnly = true) ∧
       s.unswitch_count + 1 ≤ s.unswitch_max ∧
       (Unswitch.find_unswitching_candidate s.g s.fuel).isSome = true ∧
       s.estLoopCloneSz ≤ s.nodeBudgetRemaining)) ∧
    (s.unswitch_count = s.unswitch_max → Unswitch.policy_unswitching s = false) := by
  constructor
  · simp only [Unswitch.policy_unswitching, Unswitch.may_require_nodes]
    split_ifs with h1 h2 h3 h4 h5
    · simp at h1; simp [h1]
    · simp at h2; simp [h2]
    · simp at h3; simp [h3.1, h3.2]
    · rw [false_iff]; rintro ⟨-, -, -, hle, -⟩; omega
    · rw [false_iff]; rintro ⟨-, -, -, -, hs, -⟩
      rw [Option.isNone_iff_eq_none] at h5; simp [h5] at hs
    · simp at h1 h2 h3
      have h4' : s.unswitch_count + 1 ≤ s.unswitch_max := by omega
      have h5' : (Unswitch.find_unswitching_candidate s.g s.fuel).isSome = true := by
        cases hf : Unswitch.find_unswitching_candidate s.g s.fuel with
        | none => rw [hf] at h5; simp at h5
        | some c => rfl
      constructor
      · intro hd
        refine ⟨h1, h2, ?_, h4', h5', by simpa using hd⟩
        rintro ⟨hc, hu⟩
        rw [h3 hc] at hu
        exact Bool.false_ne_true hu
      · rintro ⟨-, -, -, -, -, hr⟩
        simpa using hr
  · intro hcm
    simp only [Unswitch.policy_unswitching]
    split_ifs with h1 h2 h3 h4 h5 <;> first | rfl | (exfalso; omega)

/-- Witness for C4: at `unswitch_count = unswitch_max = 2` the policy
rejects the loop. -/
theorem c4_policy_unswitching_conditions_witness :
    Unswitch.policy_unswitching Unswitch.policyAtCap = false :=
  (c4_policy_unswitching_conditions Unswitch.policyAtCap).2 rfl

/-- Claim C5: `find_unswitching_candidate` only returns an If on an invariant
Bool-of-Cmp condition that does not exit the loop, and when every invariant
branch of the loop is a loop exit it returns null, so `policy_unswitching`
returns false. -/
theorem c5_unswitching_candidate_invariant_non_exiting
    (s : Unswitch.UnswitchPolicyInput) :
    (∀ c, Unswitch.find_unswitching_candidate s.g s.fuel = some c →
      Unswitch.cand_props s.g c) ∧
    ((∀ n, Unswitch.invariant_branch_at s.g n = true →
        (s.g.node (s.g.idom n)).isLoopExit = true) →
      Unswitch.find_unswitching_candidate s.g s.fuel = none ∧
      Unswitch.policy_unswitching s = false) := by
  constructor
  · intro c h
    exact find_loop_sound s.g s.fuel s.g.backControl none (by intro c' h'; cases h') c h
  · intro hexit
    have hnoq : ∀ n, Unswitch.qualifies s.g n = false := by
      intro n
      by_cases hq : Unswitch.qualifies s.g n = true
      · obtain ⟨hib, hexit'⟩ := (qualifies_iff_invariant_branch s.g n).mp hq
        rw [hexit n hib] at hexit'
        exact absurd hexit' (by simp)
      · simpa using hq
    have hnone : Unswitch.find_unswitching_candidate s.g s.fuel = none :=
      find_loop_no_qualifies s.g hnoq s.fuel s.g.backControl none
    exact ⟨hnone, policy_false_of_no_candidate s hnone⟩

theorem exit_only_all_exit :
    ∀ n, Unswitch.invariant_branch_at Unswitch.lgExitOnly n = true →
      (Unswitch.lgExitOnly.node (Unswitch.lgExitOnly.idom n)).isLoopExit = true := by
  intro n
  match n with
  | 0 => intro h; exact absurd h (by decide)
  | 1 => intro _; decide
  | 2 => intro h; exact absurd h (by decide)
  | 3 => intro h; exact absurd h (by decide)
  | 4 => intro h; exact absurd h (by decide)
  | (m+5) => intro h; exact Bool.noConfusion h

/-- Witness for C5: a loop whose only invariant branch exits yields no
candidate and the policy rejects unswitching. -/
theorem c5_unswitching_candidate_invariant_non_exiting_witness :
    Unswitch.find_unswitching_candidate Unswitch.lgExitOnly 6 = none ∧
    Unswitch.policy_unswitching Unswitch.policyExitOnly = false :=
  (c5_unswitching_candidate_invariant_non_exiting Unswitch.policyExitOnly).2
    exit_only_all_exit

/-- Claim C6: the returned unswitching candidate is exactly the If assigned
last during the upward immediate-dominator walk (the candidate variable is
overwritten on each match, so among several qualifying invariant non-exiting
branches the one encountered last — the qualifying branch nearest the loop
head along the dominator chain — wins). -/
theorem c6_unswitching_candidate_last_assignment_wins
    (g : Unswitch.LGraph) (fuel : Nat) :
    Unswitch.find_unswitching_candidate g fuel =
      (Unswitch.candidate_matches g fuel g.backControl).getLast? := by
  unfold Unswitch.find_unswitching_candidate
  rw [find_loop_eq_matches g fuel g.backControl none]
  cases (Unswitch.candidate_matches g fuel g.backControl).getLast? <;> rfl

/-- Witness for C6 on a loop with two qualifying candidates: the match list
is [2, 6] (in walk order) and the returned candidate is 6, the one assigned
last (nearest the loop head). -/
theorem c6_unswitching_candidate_last_assignment_wins_witness :
    Unswitch.find_unswitching_candidate Unswitch.lgTwoCandidates 6 =
      (Unswitch.candidate_matches Unswitch.lgTwoCandidates 6
        Unswitch.lgTwoCandidates.backControl).getLast? ∧
    Unswitch.find_unswitching_candidate Unswitch.lgTwoCandidates 6 = some 6 ∧
    Unswitch.candidate_matches Unswitch.lgTwoCandidates 6
      Unswitch.lgTwoCandidates.backControl = [2, 6] :=
  ⟨c6_unswitching_candidate_last_assignment_wins Unswitch.lgTwoCandidates 6,
    by decide, by decide⟩

theorem policy_true_gives_cap (s : Unswitch.UnswitchPolicyInput)
    (h : Unswitch.policy_unswitching s = true) :
    s.unswitch_count + 1 ≤ s.unswitch_max := by
  unfold Unswitch.policy_unswitching at h
  split_ifs at h with h1 h2 h3 h4 h5
  omega

theorem unswitch_step_preserves_cap (maxU : Nat) (c c' : Nat → Nat)
    (hstep : Unswitch.UnswitchStep maxU c c')
    (hinv : ∀ l, c l ≤ maxU) : ∀ l, c' l ≤ maxU := by
  cases hstep with
  | unswitch head headClone hpolicy =>
    intro l
    unfold Unswitch.set_unswitch_count
    simp only [Function.update_apply]
    split_ifs <;> first | omega | exact hinv l

/-- Claim C7: `do_unswitching` stores `c + 1` (the original head's
pre-transformation count plus one) into both the original (fast) head and the
cloned (slow) head; `policy_unswitching` only admits loops with
`unswitch_count + 1 ≤ unswitch_max`; and under steps guarded by that
admission no loop's unswitch count ever exceeds `unswitch_max`. -/
theorem c7_unswitch_count_increment_and_cap :
    (∀ (counts : Nat → Nat) (h h' : Nat),
      Unswitch.set_unswitch_count counts h h' h = counts h + 1 ∧
      Unswitch.set_unswitch_count counts h h' h' = counts h + 1) ∧
    (∀ s : Unswitch.UnswitchPolicyInput, Unswitch.policy_unswitching s = true →
      s.unswitch_count + 1 ≤ s.unswitch_max) ∧
    (∀ (maxU : Nat) (c0 c : Nat → Nat),
      Relation.ReflTransGen (Unswitch.UnswitchStep maxU) c0 c →
      (∀ l, c0 l ≤ maxU) → ∀ l, c l ≤ maxU) := by
  refine ⟨?_, policy_true_gives_cap, ?_⟩
  · intro counts h h'
    unfold Unswitch.set_unswitch_count
    simp [Function.update_apply]
  · intro maxU c0 c hsteps hinv
    induction hsteps with
    | refl => exact hinv
    | tail _ hstep ih => exact unswitch_step_preserves_cap maxU _ _ hstep ih

/-- Witness for C7: one guarded unswitch step from all-zero counts with cap 3
keeps every count within the cap. -/
theorem c7_unswitch_count_increment_and_cap_witness :
    ∀ l, Unswitch.set_unswitch_count (fun _ => 0) 0 1 l ≤ 3 :=
  c7_unswitch_count_increment_and_cap.2.2 3 (fun _ => 0)
    (Unswitch.set_unswitch_count (fun _ => 0) 0 1)
    (Relation.ReflTransGen.single
      (Unswitch.UnswitchStep.unswitch (fun _ => 0) 0 1 (by decide)))
    (fun _ => Nat.zero_le 3)

/-- Claim C9: when the loop entry has Parse Predicates and more than three
outputs, `can_clone` returns true iff twice the number of entry outputs whose
node index is at or above the first-slow-loop-node threshold equals the
entry's total output count minus one; and when `can_clone` is false the Parse
Predicate cloning is skipped, leaving the fast and slow loop entries at the
unswitch-If projections. -/
theorem c9_can_clone_parse_predicates (hasPP : Bool) (outs : List Nat)
    (firstSlow fe se : Nat) (cf cs : Nat → Nat) :
    (hasPP = true → 3 < outs.length →
      (Unswitch.can_clone hasPP outs firstSlow = true ↔
        Unswitch.count_slow_loop_nodes outs firstSlow * 2 = outs.length - 1)) ∧
    (Unswitch.can_clone hasPP outs firstSlow = false →
      Unswitch.create_parse_predicates
        (Unswitch.can_clone hasPP outs firstSlow) fe se cf cs = (fe, se)) := by
  constructor
  · intro h1 h2
    unfold Unswitch.can_clone
    rw [if_pos (by simp [h1, h2])]
    simp
  · intro h
    unfold Unswitch.create_parse_predicates
    rw [h]
    rfl

/-- Witness for C9: five entry outputs, two of them slow-loop nodes:
`2 * 2 = 5 - 1`, so cloning is allowed. -/
theorem c9_can_clone_parse_predicates_witness :
    Unswitch.can_clone true [0, 1, 2, 10, 11] 10 = true :=
  ((c9_can_clone_parse_predicates true [0, 1, 2, 10, 11] 10 0 0 id id).1
    rfl (by decide)).mpr (by decide)

/- Helper lemmas for C10. -/

theorem growLoop_spec :
    ∀ k (a : List Rat) (p : List SurvRate.TruncatedSeq) i num, num - i = k →
    (SurvRate.growLoop a p i num).1.length = a.length ∧
    (SurvRate.growLoop a p i num).2.length = p.length ∧
    (∀ j, j < i → (SurvRate.growLoop a p i num).1[j]? = a[j]? ∧
                  (SurvRate.growLoop a p i num).2[j]? = p[j]?) := by
  intro k
  induction k with
  | zero =>
    intro a p i num hk
    unfold SurvRate.growLoop
    rw [dif_neg (by omega)]
    exact ⟨rfl, rfl, fun j _ => ⟨rfl, rfl⟩⟩
  | succ k ih =>
    intro a p i num hk
    unfold SurvRate.growLoop
    rw [dif_pos (by omega)]
    by_cases h0 : i = 0
    · subst h0
      rw [if_pos rfl]
      refine ⟨?_, ?_, fun j hj => absurd hj (Nat.not_lt_zero j)⟩
      · rw [(ih _ _ (0+1) num (by omega)).1, List.length_set]
      · rw [(ih _ _ (0+1) num (by omega)).2.1, List.length_set]
    · rw [if_neg h0]
      refine ⟨?_, ?_, ?_⟩
      · rw [(ih _ _ (i+1) num (by omega)).1, List.length_set]
      · rw [(ih _ _ (i+1) num (by omega)).2.1, List.length_set]
      · intro j hj
        obtain ⟨hg1, hg2⟩ := (ih _ _ (i+1) num (by omega)).2.2 j (by omega)
        rw [hg1, hg2, List.getElem?_set_ne (by omega), List.getElem?_set_ne (by omega)]
        exact ⟨rfl, rfl⟩

theorem reallocList_length_eq {α : Type} (l : List α) (n : Nat) (d : α)
    (h : l.length ≤ n) : (SurvRate.reallocList l n d).length = n := by
  unfold SurvRate.reallocList
  rw [List.length_append, List.length_take, List.length_replicate]
  omega

theorem reallocList_getElem_lt {α : Type} (l : List α) (n : Nat) (d : α) (j : Nat)
    (h : j < l.length) (h2 : l.length ≤ n) :
    (SurvRate.reallocList l n d)[j]? = l[j]? := by
  unfold SurvRate.reallocList
  rw [List.getElem?_append_left (by rw [List.length_take]; omega),
    List.getElem?_take_of_lt (by omega)]

/-- Claim C10: `stop_adding_regions` is a no-op when
`_num_added_regions ≤ _stats_arrays_length`; otherwise it grows both stats
arrays to `_num_added_regions` entries, leaves every entry below the old
`_stats_arrays_length` unchanged, and sets `_stats_arrays_length` to
`_num_added_regions` (so it never decreases). -/
theorem c10_stop_adding_regions_frame (g : SurvRate.G1SurvRateGroup)
    (hlen1 : g.accumSurvRatePred.length = g.statsArraysLength)
    (hlen2 : g.survRatePredictors.length = g.statsArraysLength) :
    (g.numAddedRegions ≤ g.statsArraysLength → SurvRate.stop_adding_regions g = g) ∧
    (g.statsArraysLength < g.numAddedRegions →
      (SurvRate.stop_adding_regions g).accumSurvRatePred.length = g.numAddedRegions ∧
      (SurvRate.stop_adding_regions g).survRatePredictors.length = g.numAddedRegions ∧
      (∀ j, j < g.statsArraysLength →
        (SurvRate.stop_adding_regions g).accumSurvRatePred[j]? = g.accumSurvRatePred[j]? ∧
        (SurvRate.stop_adding_regions g).survRatePredictors[j]? = g.survRatePredictors[j]?) ∧
      (SurvRate.stop_adding_regions g).statsArraysLength = g.numAddedRegions ∧
      g.statsArraysLength ≤ (SurvRate.stop_adding_regions g).statsArraysLength) := by
  constructor
  · intro hle
    unfold SurvRate.stop_adding_regions
    rw [if_neg (by omega)]
  · intro hlt
    have hgrow := growLoop_spec (g.numAddedRegions - g.statsArraysLength)
      (SurvRate.reallocList g.accumSurvRatePred g.numAddedRegions 0)
      (SurvRate.reallocList g.survRatePredictors g.numAddedRegions ⟨[]⟩)
      g.statsArraysLength g.numAddedRegions rfl
    have hra := reallocList_length_eq g.accumSurvRatePred g.numAddedRegions 0 (by omega)
    have hrp := reallocList_length_eq g.survRatePredictors g.numAddedRegions
      (⟨[]⟩ : SurvRate.TruncatedSeq) (by omega)
    unfold SurvRate.stop_adding_regions
    rw [if_pos hlt]
    refine ⟨?_, ?_, ?_, rfl, by simp; omega⟩
    · simpa [hra] using hgrow.1
    · simpa [hrp] using hgrow.2.1
    · intro j hj
      obtain ⟨hg1, hg2⟩ := hgrow.2.2 j hj
      constructor
      · simp only [hg1]
        exact reallocList_getElem_lt _ _ _ j (by omega) (by omega)
      · simp only [hg2]
        exact reallocList_getElem_lt _ _ _ j (by omega) (by omega)

/-- Witness for C10: growing from one tracked region to three sets the array
length to 3 and preserves the old entry. -/
theorem c10_stop_adding_regions_frame_witness :
    (SurvRate.stop_adding_regions SurvRate.svExample).statsArraysLength = 3 :=
  ((c10_stop_adding_regions_frame SurvRate.svExample (by decide) (by decide)).2
    (by decide)).2.2.2.1

/- Helper lemmas for the predicate chain walks (C2, C3). -/

theorem template_entry_id (g : PredChain.CGraph) (fuel n : Nat)
    (h : (PredChain.cnode g n).op ≠ PredChain.COp.templateAssertionPredicateN) :
    PredChain.template_assertion_predicate_block_entry g fuel n = n := by
  cases fuel with
  | zero => rfl
  | succ fuel =>
    unfold PredChain.template_assertion_predicate_block_entry
    rw [if_neg (by simpa using h)]

theorem initialized_entry_id (g : PredChain.CGraph) (fuel n : Nat)
    (h : PredChain.InitializedAssertionPredicate.is_success_proj g n = false) :
    PredChain.initialized_assertion_predicate_block_entry g fuel n = n := by
  cases fuel with
  | zero => rfl
  | succ fuel =>
    unfold PredChain.initialized_assertion_predicate_block_entry
    rw [if_neg (by simp [h])]

theorem regular_entry_id (g : PredChain.CGraph) (reason : PredChain.DeoptReason)
    (fuel n : Nat)
    (h : PredChain.RuntimePredicate.is_success_proj_reason g n reason = false)
    (hp : PredChain.parse_predicate_is_success_proj g n = false) :
    PredChain.regular_predicate_block_entry g reason fuel n = n := by
  unfold PredChain.regular_predicate_block_entry PredChain.parse_predicate_entry
  rw [if_neg (by simp [hp])]
  cases fuel with
  | zero => rfl
  | succ fuel =>
    unfold PredChain.runtime_predicate_block_entry
    rw [if_neg (by simp [h])]

/-- Counterexample for C2 at a concrete chain: with a Template Assertion
Predicate (node 3, the loop entry) directly above a Parse Predicate
projection (node 2), the code's `Predicates` walk consumes the template in
the Assertion block first (encountered below the Regular Predicate blocks)
and then the Parse Predicate, ending at node 0 — whereas a walk in the
claimed order (Loop-Limit-Check, Profiled-Loop, Loop, then the Assertion
block above them) stops at node 2. The claimed encounter order is therefore
not the code's order. -/
theorem c2_predicates_block_order_counterexample :
    PredChain.predicates_entry PredChain.cg2 10 3 = 0 ∧
    PredChain.predicates_entry_claim_order PredChain.cg2 10 3 = 2 ∧
    (0 : Nat) ≠ 2 := by decide

/-- Claim C2 (amended): `Predicates(loopEntry)` walks upward and partitions
the nodes in this order of encounter from the loop entry: first the Assertion
block (Template sub-chain, then Initialized sub-chain), which sits closest to
the loop head *below* the three Regular Predicate blocks, then the
Loop-Limit-Check block, then the Profiled-Loop block, then the Loop block;
`entry()` returns the node above the last block and equals the constructor
argument when the entry node matches no recognized predicate shape. -/
theorem c2_predicates_block_order_amended (g : PredChain.CGraph) (fuel n : Nat)
    (htap : (PredChain.cnode g n).op ≠ PredChain.COp.templateAssertionPredicateN)
    (hiap : PredChain.InitializedAssertionPredicate.is_success_proj g n = false)
    (hpp : PredChain.parse_predicate_is_success_proj g n = false)
    (hrt : ∀ r, PredChain.RuntimePredicate.is_success_proj_reason g n r = false) :
    (∀ m, PredChain.predicates_entry g fuel m =
      PredChain.regular_predicate_block_entry g .predicate fuel
        (PredChain.regular_predicate_block_entry g .profile_predicate fuel
          (PredChain.regular_predicate_block_entry g .loop_limit_check fuel
            (PredChain.initialized_assertion_predicate_block_entry g fuel
              (PredChain.template_assertion_predicate_block_entry g fuel m))))) ∧
    PredChain.predicates_entry g fuel n = n := by
  constructor
  · intro m
    rfl
  · unfold PredChain.predicates_entry PredChain.assertion_predicate_block_entry
    rw [template_entry_id g fuel n htap, initialized_entry_id g fuel n hiap,
      regular_entry_id g _ fuel n (hrt _) hpp,
      regular_entry_id g _ fuel n (hrt _) hpp,
      regular_entry_id g _ fuel n (hrt _) hpp]

/-- Witness for C2: on a graph whose entry node matches no predicate shape,
the `Predicates` entry is the constructor argument itself. -/
theorem c2_predicates_block_order_amended_witness :
    PredChain.predicates_entry PredChain.cgNoPredicates 5 0 = 0 :=
  (c2_predicates_block_order_amended PredChain.cgNoPredicates 5 0
    (by decide) (by decide) (by decide)
    (by intro r; cases r <;> decide)).2

/-- Counterexample for C3 at a concrete folded If (constant bool input, only
the success projection left): `RuntimePredicate::is_success_proj` classifies
the projection as a Runtime Predicate, but
`InitializedAssertionPredicate::is_success_proj` returns false (it requires
both projections and the Halt node), so an If that was originally an
Initialized Assertion Predicate is *not* still classified as its originally
intended kind — contrary to the claim that both classifiers continue to
classify such a node as the originally intended predicate kind. -/
theorem c3_folded_if_classification_counterexample :
    PredChain.RuntimePredicate.is_success_proj PredChain.cg3 2 = true ∧
    PredChain.InitializedAssertionPredicate.is_success_proj PredChain.cg3 2 = false := by
  decide

/-- Claim C3 (amended): for an If whose bool input collapsed to a constant
and whose uncommon projection was already folded away (single surviving
success projection), `RuntimePredicate::is_success_proj` (both overloads)
classifies the projection as a Runtime Predicate — regardless of the
originally intended kind — while
`InitializedAssertionPredicate::is_success_proj` no longer matches (it
requires two surviving projections); the upward-walking iterators still do
not stop prematurely because the node is recognized (as a Runtime
Predicate, `PredicateEntryIterator::has_next` stays true). The constant-bool
special case of `InitializedAssertionPredicate::is_success_proj` applies
while both projections (and the Halt) survive. -/
theorem c3_folded_if_classification_amended (g : PredChain.CGraph) (n : Nat)
    (hproj : PredChain.RuntimePredicate.may_be_runtime_predicate_if g n = true)
    (hfold : PredChain.RuntimePredicate.is_being_folded_without_uncommon_proj g n = true) :
    PredChain.RuntimePredicate.is_success_proj g n = true ∧
    (∀ r, PredChain.RuntimePredicate.is_success_proj_reason g n r = true) ∧
    PredChain.predicate_entry_iterator_has_next g n = true ∧
    PredChain.InitializedAssertionPredicate.is_success_proj g n = false ∧
    (∀ m ifn, (PredChain.cnode g m).op = PredChain.COp.ifTrueN →
      PredChain.cin g m 0 = some ifn →
      PredChain.isIfClassOp (PredChain.cnode g ifn).op = true →
      PredChain.outEdges g ifn = 2 →
      PredChain.InitializedAssertionPredicate.has_opaque_or_con g ifn = true →
      PredChain.InitializedAssertionPredicate.has_halt g m = true →
      PredChain.InitializedAssertionPredicate.is_success_proj g m = true) := by
  have hrp : PredChain.RuntimePredicate.is_success_proj g n = true := by
    unfold PredChain.RuntimePredicate.is_success_proj
    rw [if_pos hproj, if_pos hfold]
  have hin0 : ∃ ifn, PredChain.cin g n 0 = some ifn := by
    unfold PredChain.RuntimePredicate.is_being_folded_without_uncommon_proj at hfold
    cases hx : PredChain.cin g n 0 with
    | none => rw [hx] at hfold; exact absurd hfold (by simp)
    | some ifn => exact ⟨ifn, rfl⟩
  refine ⟨hrp, ?_, ?_, ?_, ?_⟩
  · intro r
    unfold PredChain.RuntimePredicate.is_success_proj_reason
    rw [if_pos hproj, hfold, Bool.true_or]
  · unfold PredChain.predicate_entry_iterator_has_next
    have hip : PredChain.isIfProjOp (PredChain.cnode g n).op = true := by
      unfold PredChain.RuntimePredicate.may_be_runtime_predicate_if at hproj
      simp only [Bool.and_eq_true] at hproj
      exact hproj.1
    have hne : (PredChain.cnode g n).op ≠ PredChain.COp.templateAssertionPredicateN := by
      intro hx
      unfold PredChain.isIfProjOp at hip
      rw [hx] at hip
      simp at hip
    rw [if_neg (by simpa using hne), if_pos (by simpa using hip), hrp]
    simp
  · obtain ⟨ifn, hin⟩ := hin0
    unfold PredChain.RuntimePredicate.is_being_folded_without_uncommon_proj at hfold
    rw [hin] at hfold
    simp only [Bool.and_eq_true, decide_eq_true_eq] at hfold
    have hout : PredChain.outEdges g ifn = 1 := hfold.2
    unfold PredChain.InitializedAssertionPredicate.is_success_proj
    by_cases htrue : (PredChain.cnode g n).op = PredChain.COp.ifTrueN
    · rw [if_pos htrue, hin]
      simp only []
      rw [if_neg ?_]
      simp only [Bool.and_eq_true, decide_eq_true_eq]
      rintro ⟨-, h2⟩
      omega
    · rw [if_neg htrue]
  · intro m ifn hm hin hcls hout hcon hhalt
    unfold PredChain.InitializedAssertionPredicate.is_success_proj
    rw [if_pos hm, hin]
    simp only []
    rw [if_pos (by simp [hcls, hout]), hcon, hhalt]
    rfl

/-- Witness for C3: the concrete folded If of `cg3` is classified as a
Runtime Predicate success projection. -/
theorem c3_folded_if_classification_amended_witness :
    PredChain.RuntimePredicate.is_success_proj PredChain.cg3 2 = true ∧
    PredChain.predicate_entry_iterator_has_next PredChain.cg3 2 = true :=
  ⟨(c3_folded_if_classification_amended PredChain.cg3 2 (by decide) (by decide)).1,
   (c3_folded_if_classification_amended PredChain.cg3 2 (by decide) (by decide)).2.2.1⟩

/- Helper lemmas for the Assertion Predicate bool clone machine (C1, C8). -/

open ExprClone

theorem runSteps_trans (st : Strat) (thr : Nat) :
    ∀ (a : Nat) (b : Nat) (s s2 : MState) (X : MState ⊕ (Option Nat × MState)),
      runSteps st thr a s = .inl s2 → runSteps st thr b s2 = X →
      runSteps st thr (a + b) s = X := by
  intro a
  induction a with
  | zero =>
    intro b s s2 X h1 h2
    cases h1
    simpa using h2
  | succ a ih =>
    intro b s s2 X h1 h2
    have hab : a + 1 + b = (a + b) + 1 := by omega
    rw [hab]
    unfold runSteps at h1 ⊢
    cases hs : stepM st thr s with
    | inl s3 =>
      rw [hs] at h1
      exact ih b s3 s2 X h1 h2
    | inr r =>
      rw [hs] at h1
      cases h1

theorem set_req_length (g : EGraph) (i k v : Nat) :
    (set_req g i k v).length = g.length := by
  unfold set_req
  cases g.get? i with
  | none => rfl
  | some nd => simp

theorem set_req_get_ne (g : EGraph) (i k v j : Nat) (h : j ≠ i) :
    (set_req g i k v).get? j = g.get? j := by
  unfold set_req
  cases g.get? i with
  | none => rfl
  | some nd => exact List.get?_set_ne _ _ (fun hx => h hx.symm)

theorem append_get_lt (g : EGraph) (nd : ENode) (j : Nat) (h : j < g.length) :
    (g ++ [nd]).get? j = g.get? j := by
  rw [List.get?_eq_getElem?, List.get?_eq_getElem?, List.getElem?_append_left h]

theorem append_get_len (g : EGraph) (nd : ENode) :
    (g ++ [nd]).get? g.length = some nd := by
  rw [List.get?_eq_getElem?]
  rw [List.getElem?_append_right (by omega)]
  simp

theorem enode_congr (g g' : EGraph) (j : Nat) (h : g'.get? j = g.get? j) :
    enode g' j = enode g j := by
  unfold enode
  rw [h]

theorem einn_congr (g g' : EGraph) (j : Nat) (h : g'.get? j = g.get? j) (k : Nat) :
    einn g' j k = einn g j k := by
  unfold einn
  rw [enode_congr g g' j h]

theorem ereq_congr (g g' : EGraph) (j : Nat) (h : g'.get? j = g.get? j) :
    ereq g' j = ereq g j := by
  unfold ereq
  rw [enode_congr g g' j h]

theorem clone_top_fst (g : EGraph) (p k prev : Nat) :
    (clone_top_node g p k prev).1 = g.length := rfl

theorem clone_top_length (g : EGraph) (p k prev : Nat) :
    (clone_top_node g p k prev).2.length = g.length + 1 := by
  unfold clone_top_node clone_and_register
  rw [set_req_length]
  simp

theorem clone_top_get_lt (g : EGraph) (p k prev j : Nat) (h : j < g.length) :
    (clone_top_node g p k prev).2.get? j = g.get? j := by
  unfold clone_top_node clone_and_register
  rw [set_req_get_ne _ _ _ _ _ (by omega), append_get_lt _ _ _ h]

theorem clone_top_node_at (g : EGraph) (p k prev : Nat) :
    enode (clone_top_node g p k prev).2 g.length =
      ⟨(enode g p).op, (enode g p).ins.set k (some prev), some p⟩ := by
  unfold clone_top_node clone_and_register set_req
  simp only []
  rw [append_get_len]
  simp only []
  unfold enode
  rw [List.get?_set_eq_of_lt]
  · simp
  · rw [List.length_append]
    simp

theorem push_next_scan_none (g : EGraph) (cur : Nat) :
    ∀ fuel k, (∀ kk, k ≤ kk → kk < k + fuel → invalidIn g cur kk = true) →
      push_next_scan g cur fuel k = none := by
  intro fuel
  induction fuel with
  | zero => intro k h; rfl
  | succ fuel ih =>
    intro k h
    unfold push_next_scan
    have hk := h k (by omega) (by omega)
    unfold invalidIn at hk
    cases he : einn g cur k with
    | none => exact ih (k+1) (fun kk h1 h2 => h kk (by omega) (by omega))
    | some j =>
      rw [he] at hk
      simp at hk
      simp only [hk, Bool.false_eq_true, if_false]
      exact ih (k+1) (fun kk h1 h2 => h kk (by omega) (by omega))

theorem push_next_scan_found (g : EGraph) (cur : Nat) :
    ∀ fuel k kf c, k ≤ kf → kf < k + fuel →
      (∀ kk, k ≤ kk → kk < kf → invalidIn g cur kk = true) →
      einn g cur kf = some c → valid_bool_opcode g c = true →
      push_next_scan g cur fuel k = some (kf, c) := by
  intro fuel
  induction fuel with
  | zero => intro k kf c h1 h2; omega
  | succ fuel ih =>
    intro k kf c h1 h2 hinv he hv
    unfold push_next_scan
    by_cases hek : k = kf
    · subst hek
      simp only [he, hv, if_true]
    · have hk := hinv k (by omega) (by omega)
      unfold invalidIn at hk
      cases he2 : einn g cur k with
      | none =>
        simp only []
        exact ih (k+1) kf c (by omega) (by omega)
          (fun kk ha hb => hinv kk (by omega) hb) he hv
      | some j =>
        rw [he2] at hk
        simp at hk
        simp only [hk, Bool.false_eq_true, if_false]
        exact ih (k+1) kf c (by omega) (by omega)
          (fun kk ha hb => hinv kk (by omega) hb) he hv

theorem push_next_none (g : EGraph) (cur k : Nat)
    (h : ∀ kk, k ≤ kk → kk < ereq g cur → invalidIn g cur kk = true) :
    push_next_unvisited_input g cur k = none := by
  unfold push_next_unvisited_input
  apply push_next_scan_none
  intro kk h1 h2
  exact h kk h1 (by omega)

theorem push_next_found (g : EGraph) (cur k kf c : Nat)
    (h1 : k ≤ kf) (h2 : kf < ereq g cur)
    (hinv : ∀ kk, k ≤ kk → kk < kf → invalidIn g cur kk = true)
    (he : einn g cur kf = some c) (hv : valid_bool_opcode g c = true) :
    push_next_unvisited_input g cur k = some (kf, c) := by
  unfold push_next_unvisited_input
  exact push_next_scan_found g cur _ k kf c h1 (by omega) hinv he hv

theorem orig_inputs_below_iff (g : EGraph) (thr : Nat) :
    orig_inputs_below g thr = true ↔ OrigOkP g thr := by
  unfold orig_inputs_below OrigOkP
  rw [List.all_eq_true]
  constructor
  · intro h j hj k x he
    have hji := h j (List.mem_range.mpr hj)
    rw [List.all_eq_true] at hji
    by_cases hk : k < ereq g j
    · have := hji k (List.mem_range.mpr hk)
      rw [he] at this
      simpa using this
    · exfalso
      unfold einn at he
      rw [List.get?_eq_getElem?] at he
      have : (enode g j).ins[k]? = none := by
        rw [List.getElem?_eq_none]
        unfold ereq at hk
        omega
      rw [this] at he
      cases he
  · intro h j hj
    rw [List.all_eq_true]
    intro k hk
    cases he : einn g j k with
    | none => rfl
    | some x =>
      simp only []
      exact decide_eq_true (h j (List.mem_range.mp hj) k x he)

theorem valid_congr (g g' : EGraph) (j : Nat) (h : g'.get? j = g.get? j) :
    valid_bool_opcode g' j = valid_bool_opcode g j := by
  unfold valid_bool_opcode
  rw [enode_congr g g' j h]

theorem invalidIn_congr (g g' : EGraph) (thr i : Nat)
    (hpres : ∀ j, j < thr → g'.get? j = g.get? j)
    (horig : OrigOkP g thr) (hi : i < thr) (k : Nat) :
    invalidIn g' i k = invalidIn g i k := by
  unfold invalidIn
  rw [einn_congr g g' i (hpres i hi) k]
  cases he : einn g i k with
  | none => rfl
  | some x =>
    simp only []
    rw [valid_congr g g' x (hpres x (horig i hi k x he))]

mutual
theorem checkT_stable (g g' : EGraph) (thr : Nat)
    (hpres : ∀ j, j < thr → g'.get? j = g.get? j)
    (horig : OrigOkP g thr) :
    ∀ t : TSpec, checkT g thr t = true → checkT g' thr t = true := by
  intro t
  match t with
  | .initLeaf i =>
    intro h
    unfold checkT at h ⊢
    simp only [Bool.and_eq_true] at h ⊢
    obtain ⟨⟨h1, h2⟩, h3⟩ := h
    have hi : i < thr := by simpa using h1
    rw [enode_congr g g' i (hpres i hi), einn_congr g g' i (hpres i hi)]
    exact ⟨⟨h1, h2⟩, h3⟩
  | .strideLeaf i =>
    intro h
    unfold checkT at h ⊢
    simp only [Bool.and_eq_true] at h ⊢
    obtain ⟨⟨h1, h2⟩, h3⟩ := h
    have hi : i < thr := by simpa using h1
    rw [enode_congr g g' i (hpres i hi), einn_congr g g' i (hpres i hi)]
    exact ⟨⟨h1, h2⟩, h3⟩
  | .interior i ch =>
    intro h
    unfold checkT at h ⊢
    simp only [Bool.and_eq_true] at h ⊢
    obtain ⟨⟨⟨h1, h2⟩, h3⟩, h4⟩ := h
    have hi : i < thr := by simpa using h1
    rw [valid_congr g g' i (hpres i hi), enode_congr g g' i (hpres i hi)]
    exact ⟨⟨⟨h1, h2⟩, h3⟩, checkCh_stable g g' thr hpres horig i hi 1 ch h4⟩

theorem checkCh_stable (g g' : EGraph) (thr : Nat)
    (hpres : ∀ j, j < thr → g'.get? j = g.get? j)
    (horig : OrigOkP g thr) (i : Nat) (hi : i < thr) :
    ∀ (lo : Nat) (ch : TChildren), checkCh g thr i lo ch = true →
      checkCh g' thr i lo ch = true := by
  intro lo ch
  match ch with
  | .nil =>
    intro h
    unfold checkCh at h ⊢
    rw [slots_invalid_iff] at h ⊢
    rw [ereq_congr g g' i (hpres i hi)]
    intro k hk1 hk2
    rw [invalidIn_congr g g' thr i hpres horig hi k]
    exact h k hk1 hk2
  | .cons k t rest =>
    intro h
    unfold checkCh at h ⊢
    simp only [Bool.and_eq_true] at h ⊢
    obtain ⟨⟨⟨⟨⟨h1, h2⟩, h3⟩, h4⟩, h5⟩, h6⟩ := h
    refine ⟨⟨⟨⟨⟨h1, ?_⟩, ?_⟩, ?_⟩, checkT_stable g g' thr hpres horig t h5⟩,
      checkCh_stable g g' thr hpres horig i hi (k+1) rest h6⟩
    · rw [ereq_congr g g' i (hpres i hi)]
      exact h2
    · rw [slots_invalid_iff] at h3 ⊢
      intro kk hk1 hk2
      rw [invalidIn_congr g g' thr i hpres horig hi kk]
      exact h3 kk hk1 hk2
    · rw [einn_congr g g' i (hpres i hi)]
      exact h4
end

-- extraction lemmas
theorem checkT_root_lt (g : EGraph) (thr : Nat) (t : TSpec)
    (h : checkT g thr t = true) : t.rootId < thr := by
  cases t with
  | initLeaf i =>
    unfold checkT at h
    simp only [Bool.and_eq_true] at h
    simpa using h.1.1
  | strideLeaf i =>
    unfold checkT at h
    simp only [Bool.and_eq_true] at h
    simpa using h.1.1
  | interior i ch =>
    unfold checkT at h
    simp only [Bool.and_eq_true] at h
    simpa using h.1.1.1

theorem checkT_init_facts (g : EGraph) (thr i : Nat)
    (h : checkT g thr (.initLeaf i) = true) :
    i < thr ∧ (enode g i).op = EOp.opaqueLoopInitN ∧
      ∃ x, einn g i 1 = some x ∧ x ≠ i := by
  unfold checkT at h
  simp only [Bool.and_eq_true] at h
  obtain ⟨⟨h1, h2⟩, h3⟩ := h
  refine ⟨by simpa using h1, by simpa using h2, ?_⟩
  cases he : einn g i 1 with
  | none => rw [he] at h3; cases h3
  | some x =>
    rw [he] at h3
    exact ⟨x, rfl, by simpa using h3⟩

theorem checkT_stride_facts (g : EGraph) (thr i : Nat)
    (h : checkT g thr (.strideLeaf i) = true) :
    i < thr ∧ (enode g i).op = EOp.opaqueLoopStrideN ∧
      ∃ x, einn g i 1 = some x ∧ x ≠ i := by
  unfold checkT at h
  simp only [Bool.and_eq_true] at h
  obtain ⟨⟨h1, h2⟩, h3⟩ := h
  refine ⟨by simpa using h1, by simpa using h2, ?_⟩
  cases he : einn g i 1 with
  | none => rw [he] at h3; cases h3
  | some x =>
    rw [he] at h3
    exact ⟨x, rfl, by simpa using h3⟩

theorem checkT_interior_facts (g : EGraph) (thr i : Nat) (ch : TChildren)
    (h : checkT g thr (.interior i ch) = true) :
    i < thr ∧ valid_bool_opcode g i = true ∧
      opaque1_op (enode g i).op = false ∧ checkCh g thr i 1 ch = true := by
  unfold checkT at h
  simp only [Bool.and_eq_true] at h
  exact ⟨by simpa using h.1.1.1, h.1.1.2, by simpa using h.1.2, h.2⟩

theorem checkCh_cons_facts (g : EGraph) (thr i lo k : Nat) (t : TSpec)
    (rest : TChildren) (h : checkCh g thr i lo (.cons k t rest) = true) :
    lo ≤ k ∧ k < ereq g i ∧ slots_invalid g i lo k = true ∧
      einn g i k = some t.rootId ∧ checkT g thr t = true ∧
      checkCh g thr i (k+1) rest = true := by
  unfold checkCh at h
  simp only [Bool.and_eq_true] at h
  obtain ⟨⟨⟨⟨⟨h1, h2⟩, h3⟩, h4⟩, h5⟩, h6⟩ := h
  exact ⟨by simpa using h1, by simpa using h2, h3, by simpa using h4, h5, h6⟩

theorem set_req_node_at (g : EGraph) (cur k v : Nat) (h : cur < g.length) :
    enode (set_req g cur k v) cur =
      ⟨(enode g cur).op, (enode g cur).ins.set k (some v), (enode g cur).origin⟩ := by
  unfold set_req
  cases hg : g.get? cur with
  | none =>
    exfalso
    rw [List.get?_eq_getElem?, List.getElem?_eq_none_iff] at hg
    omega
  | some nd =>
    unfold enode
    rw [List.get?_set_eq_of_lt _ (by simpa using h), hg]
    simp

theorem origOk_stable (g g' : EGraph) (thr : Nat)
    (hpres : ∀ j, j < thr → g'.get? j = g.get? j)
    (horig : OrigOkP g thr) : OrigOkP g' thr := by
  intro j hj k x he
  rw [einn_congr g g' j (hpres j hj)] at he
  exact horig j hj k x he

theorem leaf_hasLeaf (t : TSpec) (h : t.isLeaf = true) : hasLeafT t = true := by
  cases t with
  | initLeaf i => rfl
  | strideLeaf i => rfl
  | interior i ch => cases h

theorem must_clone_true_intro (g : EGraph) (thr p k prev : Nat)
    (h1 : p < thr) (h2 : einn g p k ≠ some prev) :
    must_clone_top_node g thr p k prev = true := by
  unfold must_clone_top_node
  simp [h1, h2]

theorem must_clone_false_of_ge (g : EGraph) (thr p k prev : Nat)
    (h : thr ≤ p) : must_clone_top_node g thr p k prev = false := by
  unfold must_clone_top_node
  simp
  omega

theorem popParentFor_clone (t : TSpec) (g : EGraph) (thr p k prev : Nat)
    (h : must_clone_top_node g thr p k prev = true) :
    popParentFor t g thr p k prev = clone_top_node g p k prev := by
  unfold popParentFor pop_parent_after_opaque_node pop_parent_after_node
  cases t.isLeaf <;> simp [h]

theorem popParentFor_set (t : TSpec) (g : EGraph) (thr p k prev : Nat)
    (h : must_clone_top_node g thr p k prev = false)
    (h2 : t.isLeaf = true ∨ thr ≤ prev) :
    popParentFor t g thr p k prev = (p, set_req g p k prev) := by
  unfold popParentFor pop_parent_after_opaque_node pop_parent_after_node
  cases h2 with
  | inl hl => simp [hl, h]
  | inr hr =>
    cases hl : t.isLeaf <;> simp [h, hr]

theorem popParentFor_noop (t : TSpec) (g : EGraph) (thr p k prev : Nat)
    (h : must_clone_top_node g thr p k prev = false)
    (h2 : t.isLeaf = false) (h3 : prev < thr) :
    popParentFor t g thr p k prev = (p, g) := by
  unfold popParentFor pop_parent_after_opaque_node pop_parent_after_node
  rw [h2]
  simp [h]
  omega

theorem checkT_leaf_in1_ne (g : EGraph) (thr : Nat) (t : TSpec)
    (hct : checkT g thr t = true) (hleaf : t.isLeaf = true)
    (x : Nat) (hx : einn g t.rootId 1 = some x) : x ≠ t.rootId := by
  cases t with
  | initLeaf i =>
    obtain ⟨_, _, y, hy, hyne⟩ := checkT_init_facts g thr i hct
    rw [show TSpec.rootId (.initLeaf i) = i from rfl] at hx
    rw [hy] at hx
    cases hx
    exact hyne
  | strideLeaf i =>
    obtain ⟨_, _, y, hy, hyne⟩ := checkT_stride_facts g thr i hct
    rw [show TSpec.rootId (.strideLeaf i) = i from rfl] at hx
    rw [hy] at hx
    cases hx
    exact hyne
  | interior i ch => cases hleaf

mutual
theorem refCloneT_post (st : Strat) (thr : Nat) :
    ∀ (t : TSpec) (g : EGraph) (cI cS : Option Nat),
      checkT g thr t = true → OrigOkP g thr → thr ≤ g.length →
      (∀ c, cI = some c → thr ≤ c ∧ c < g.length) →
      (∀ c, cS = some c → thr ≤ c ∧ c < g.length) →
      PostT st thr g cI cS t (refCloneT st thr g cI cS t) := by
  intro t g cI cS hck horig hthr hcI hcS
  match t with
  | .initLeaf i =>
    obtain ⟨hi, hop, x, hx, hxne⟩ := checkT_init_facts g thr i hck
    cases st with
    | removeNodes =>
      have hr : refCloneT .removeNodes thr g cI cS (.initLeaf i) = ⟨x, g, cI, cS⟩ := by
        unfold refCloneT transform_opaque_core
        rw [hx]
        rfl
      rw [hr]
      unfold PostT
      refine ⟨le_refl _, fun j hj => rfl, hcI, hcS, ?_, ?_, ?_⟩
      · intro h; simp [hasLeafT] at h
      · intro _ _
        exact ⟨hx, rfl, rfl, rfl⟩
      · intro _ h
        rcases h with h | h
        · cases h
        · simp [TSpec.isLeaf] at h
    | cloneNodes =>
      cases hc : cI with
      | some c =>
        rw [hc] at hcI
        have hr : refCloneT .cloneNodes thr g (some c) cS (.initLeaf i) =
            ⟨c, g, some c, cS⟩ := by
          unfold refCloneT transform_opaque_core
          simp only []
          rw [if_pos hop]
        rw [hr]
        unfold PostT
        refine ⟨le_refl _, fun j hj => rfl, hcI, hcS, ?_, ?_, ?_⟩
        · intro h; simp [hasLeafT] at h
        · intro _ h; cases h
        · intro _ _
          exact hcI c rfl
      | none =>
        rw [hc] at hcI
        have hr : refCloneT .cloneNodes thr g none cS (.initLeaf i) =
            ⟨g.length, g ++ [⟨(enode g i).op, (enode g i).ins, some i⟩],
              some g.length, cS⟩ := by
          unfold refCloneT transform_opaque_core
          simp only []
          rw [if_pos hop]
          rfl
        rw [hr]
        unfold PostT
        refine ⟨?_, ?_, ?_, ?_, ?_, ?_, ?_⟩
        · simp
        · intro j hj
          exact append_get_lt g _ j hj
        · intro c hcc
          cases hcc
          refine ⟨hthr, ?_⟩
          simp
        · intro c hcc
          obtain ⟨h1, h2⟩ := hcS c hcc
          refine ⟨h1, ?_⟩
          simp
          omega
        · intro h; simp [hasLeafT] at h
        · intro _ h; cases h
        · intro _ _
          refine ⟨hthr, ?_⟩
          simp
  | .strideLeaf i =>
    obtain ⟨hi, hop, x, hx, hxne⟩ := checkT_stride_facts g thr i hck
    cases st with
    | removeNodes =>
      have hr : refCloneT .removeNodes thr g cI cS (.strideLeaf i) = ⟨x, g, cI, cS⟩ := by
        unfold refCloneT transform_opaque_core
        rw [hx]
        rfl
      rw [hr]
      unfold PostT
      refine ⟨le_refl _, fun j hj => rfl, hcI, hcS, ?_, ?_, ?_⟩
      · intro h; simp [hasLeafT] at h
      · intro _ _
        exact ⟨hx, rfl, rfl, rfl⟩
      · intro _ h
        rcases h with h | h
        · cases h
        · simp [TSpec.isLeaf] at h
    | cloneNodes =>
      cases hc : cS with
      | some c =>
        rw [hc] at hcS
        have hr : refCloneT .cloneNodes thr g cI (some c) (.strideLeaf i) =
            ⟨c, g, cI, some c⟩ := by
          unfold refCloneT transform_opaque_core
          simp only []
          rw [if_neg (by rw [hop]; exact fun h => absurd h (by decide))]
        rw [hr]
        unfold PostT
        refine ⟨le_refl _, fun j hj => rfl, hcI, hcS, ?_, ?_, ?_⟩
        · intro h; simp [hasLeafT] at h
        · intro _ h; cases h
        · intro _ _
          exact hcS c rfl
      | none =>
        rw [hc] at hcS
        have hr : refCloneT .cloneNodes thr g cI none (.strideLeaf i) =
            ⟨g.length, g ++ [⟨(enode g i).op, (enode g i).ins, some i⟩],
              cI, some g.length⟩ := by
          unfold refCloneT transform_opaque_core
          simp only []
          rw [if_neg (by rw [hop]; exact fun h => absurd h (by decide))]
          rfl
        rw [hr]
        unfold PostT
        refine ⟨?_, ?_, ?_, ?_, ?_, ?_, ?_⟩
        · simp
        · intro j hj
          exact append_get_lt g _ j hj
        · intro c hcc
          obtain ⟨h1, h2⟩ := hcI c hcc
          refine ⟨h1, ?_⟩
          simp
          omega
        · intro c hcc
          cases hcc
          refine ⟨hthr, ?_⟩
          simp
        · intro h; simp [hasLeafT] at h
        · intro _ h; cases h
        · intro _ _
          refine ⟨hthr, ?_⟩
          simp
  | .interior i ch =>
    obtain ⟨hi, hval, hnop, hch⟩ := checkT_interior_facts g thr i ch hck
    have hpost := refCloneCh_post st thr ch g cI cS i i 1 hch horig hthr hi hcI hcS
      (Or.inl rfl) (fun kk _ => rfl) rfl
    obtain ⟨p1, p2, p3, p4, p5, p6, p7, p8, p9, p10⟩ := hpost
    have hr : refCloneT st thr g cI cS (.interior i ch) =
        refCloneCh st thr g cI cS i ch := rfl
    rw [hr]
    unfold PostT
    refine ⟨p1, ?_, p4, p5, ?_, ?_, ?_⟩
    · intro j hj
      by_cases hji : j = i
      · subst hji
        exact p3 hi
      · exact p2 j hj hji
    · intro h
      have h2 : hasLeafCh ch = false := by simpa [hasLeafT] using h
      exact p6 h2
    · intro h; simp [TSpec.isLeaf] at h
    · intro hlf _
      have h2 : hasLeafCh ch = true := by simpa [hasLeafT] using hlf
      exact p8 hi h2

theorem refCloneCh_post (st : Strat) (thr : Nat) :
    ∀ (ch : TChildren) (g : EGraph) (cI cS : Option Nat) (i cur k0 : Nat),
      checkCh g thr i k0 ch = true → OrigOkP g thr → thr ≤ g.length →
      i < thr →
      (∀ c, cI = some c → thr ≤ c ∧ c < g.length) →
      (∀ c, cS = some c → thr ≤ c ∧ c < g.length) →
      (cur = i ∨ (thr ≤ cur ∧ cur < g.length)) →
      (∀ kk, k0 ≤ kk → (enode g cur).ins.get? kk = (enode g i).ins.get? kk) →
      ereq g cur = ereq g i →
      PostCh st thr g cI cS i cur k0 ch (refCloneCh st thr g cI cS cur ch) := by
  intro ch g cI cS i cur k0 hck horig hthr hi hcI hcS hcur hagree hereq
  match ch with
  | .nil =>
    have hr : refCloneCh st thr g cI cS cur .nil = ⟨cur, g, cI, cS⟩ := rfl
    rw [hr]
    unfold PostCh
    refine ⟨le_refl _, fun j hj _ => rfl, fun _ => rfl, hcI, hcS, fun _ => rfl,
      Or.inl rfl, ?_, ?_, hereq⟩
    · intro _ h; simp [hasLeafCh] at h
    · intro kk hkk
      exact hagree kk hkk
  | .cons k t rest =>
    obtain ⟨hlo, hklt, hsl, hin, hct, hcrest⟩ :=
      checkCh_cons_facts g thr i k0 k t rest hck
    have hroot := checkT_root_lt g thr t hct
    have hicur : cur < g.length := by
      rcases hcur with hc | hc
      · omega
      · exact hc.2
    have hrfl : refCloneCh st thr g cI cS cur (.cons k t rest) =
        refCloneCh st thr
          (popParentFor t (refCloneT st thr g cI cS t).g thr cur k
            (refCloneT st thr g cI cS t).res).2
          (refCloneT st thr g cI cS t).cacheInit
          (refCloneT st thr g cI cS t).cacheStride
          (popParentFor t (refCloneT st thr g cI cS t).g thr cur k
            (refCloneT st thr g cI cS t).res).1 rest := rfl
    have hpt := refCloneT_post st thr t g cI cS hct horig hthr hcI hcS
    unfold PostT at hpt
    obtain ⟨t1, t2, t3, t4, t5, t6, t7⟩ := hpt
    rw [hrfl]
    cases hlf : hasLeafT t with
    | false =>
      have hre : refCloneT st thr g cI cS t = ⟨t.rootId, g, cI, cS⟩ := t5 hlf
      rw [hre]
      show PostCh st thr g cI cS i cur k0 (.cons k t rest)
        (refCloneCh st thr (popParentFor t g thr cur k t.rootId).2 cI cS
          (popParentFor t g thr cur k t.rootId).1 rest)
      have hleaf : t.isLeaf = false := by
        cases hv : t.isLeaf with
        | false => rfl
        | true => rw [leaf_hasLeaf t hv] at hlf; cases hlf
      have hmc : must_clone_top_node g thr cur k t.rootId = false := by
        rcases hcur with hc | hc
        · rw [hc]
          unfold must_clone_top_node
          simp [hin]
        · exact must_clone_false_of_ge g thr cur k t.rootId hc.1
      rw [popParentFor_noop t g thr cur k t.rootId hmc hleaf hroot]
      show PostCh st thr g cI cS i cur k0 (.cons k t rest)
        (refCloneCh st thr g cI cS cur rest)
      have hrest := refCloneCh_post st thr rest g cI cS i cur (k+1) hcrest horig
        hthr hi hcI hcS hcur (fun kk hkk => hagree kk (by omega)) hereq
      unfold PostCh at hrest ⊢
      obtain ⟨r1, r2, r3, r4, r5, r6, r7, r8, r9, r10⟩ := hrest
      refine ⟨r1, r2, r3, r4, r5, ?_, r7, ?_, ?_, r10⟩
      · intro h
        exact r6 (by simpa [hasLeafCh, hlf] using h)
      · intro hclt hlc
        exact r8 hclt (by simpa [hasLeafCh, hlf] using hlc)
      · intro kk hkk
        exact r9 kk hkk
    | true =>
      rcases hcur with hc | hc
      · subst hc
        have hipres : (refCloneT st thr g cI cS t).g.get? cur = g.get? cur :=
          t2 cur hicur
        have hinr : einn (refCloneT st thr g cI cS t).g cur k = some t.rootId := by
          rw [einn_congr g (refCloneT st thr g cI cS t).g cur hipres k]
          exact hin
        have hne : t.rootId ≠ (refCloneT st thr g cI cS t).res := by
          cases st with
          | cloneNodes =>
            have h7 := t7 hlf (Or.inl rfl)
            omega
          | removeNodes =>
            cases hleaf : t.isLeaf with
            | false =>
              have h7 := t7 hlf (Or.inr hleaf)
              omega
            | true =>
              obtain ⟨h61, h62, h63, h64⟩ := t6 hleaf rfl
              exact (checkT_leaf_in1_ne g thr t hct hleaf _ h61).symm
        have hmc : must_clone_top_node (refCloneT st thr g cI cS t).g thr cur k
            (refCloneT st thr g cI cS t).res = true := by
          refine must_clone_true_intro _ thr cur k _ hi ?_
          rw [hinr]
          exact fun hcon => hne (Option.some.inj hcon)
        rw [popParentFor_clone t (refCloneT st thr g cI cS t).g thr cur k
          (refCloneT st thr g cI cS t).res hmc]
        show PostCh st thr g cI cS cur cur k0 (.cons k t rest)
          (refCloneCh st thr
            (clone_top_node (refCloneT st thr g cI cS t).g cur k
              (refCloneT st thr g cI cS t).res).2
            (refCloneT st thr g cI cS t).cacheInit
            (refCloneT st thr g cI cS t).cacheStride
            (refCloneT st thr g cI cS t).g.length rest)
        have hg1len : (clone_top_node (refCloneT st thr g cI cS t).g cur k
            (refCloneT st thr g cI cS t).res).2.length =
            (refCloneT st thr g cI cS t).g.length + 1 :=
          clone_top_length _ cur k _
        have hg1pres : ∀ j, j < (refCloneT st thr g cI cS t).g.length →
            (clone_top_node (refCloneT st thr g cI cS t).g cur k
              (refCloneT st thr g cI cS t).res).2.get? j =
            (refCloneT st thr g cI cS t).g.get? j :=
          fun j hj => clone_top_get_lt _ cur k _ j hj
        have hpres2 : ∀ j, j < thr →
            (clone_top_node (refCloneT st thr g cI cS t).g cur k
              (refCloneT st thr g cI cS t).res).2.get? j = g.get? j := by
          intro j hj
          rw [hg1pres j (by omega), t2 j (by omega)]
        have hnode : enode (clone_top_node (refCloneT st thr g cI cS t).g cur k
              (refCloneT st thr g cI cS t).res).2
            (refCloneT st thr g cI cS t).g.length =
            ⟨(enode g cur).op, (enode g cur).ins.set k
              (some (refCloneT st thr g cI cS t).res), some cur⟩ := by
          rw [clone_top_node_at]
          rw [enode_congr g (refCloneT st thr g cI cS t).g cur hipres]
        have hrest := refCloneCh_post st thr rest
          (clone_top_node (refCloneT st thr g cI cS t).g cur k
            (refCloneT st thr g cI cS t).res).2
          (refCloneT st thr g cI cS t).cacheInit
          (refCloneT st thr g cI cS t).cacheStride
          cur ((refCloneT st thr g cI cS t).g.length) (k+1)
          (checkCh_stable g _ thr hpres2 horig cur hi (k+1) rest hcrest)
          (origOk_stable g _ thr hpres2 horig)
          (by omega)
          hi
          (fun c hcc => by have := t3 c hcc; omega)
          (fun c hcc => by have := t4 c hcc; omega)
          (Or.inr ⟨by omega, by omega⟩)
          (fun kk hkk => by
            rw [hnode]
            simp only []
            rw [List.get?_set_ne _ _ (by omega : k ≠ kk)]
            rw [enode_congr g _ cur (hpres2 cur hi)])
          (by
            unfold ereq
            rw [hnode]
            simp only []
            rw [List.length_set]
            rw [enode_congr g _ cur (hpres2 cur hi)])
        unfold PostCh at hrest ⊢
        obtain ⟨r1, r2, r3, r4, r5, r6, r7, r8, r9, r10⟩ := hrest
        refine ⟨?_, ?_, ?_, r4, r5, ?_, ?_, ?_, ?_, ?_⟩
        · omega
        · intro j hj hji
          rw [r2 j (by omega) (by omega), hg1pres j (by omega), t2 j (by omega)]
        · intro hilt
          rw [r2 cur (by omega) (by omega), hg1pres cur (by omega),
            t2 cur (by omega)]
        · intro h
          simp [hasLeafCh, hlf] at h
        · rcases r7 with h | h
          · refine Or.inr ⟨?_, ?_⟩
            · rw [h]; omega
            · rw [h]; omega
          · exact Or.inr ⟨h.1, h.2⟩
        · intro _ _
          rcases r7 with h | h
          · exact ⟨by rw [h]; omega, by rw [h]; omega⟩
          · exact ⟨h.1, h.2⟩
        · intro kk hkk
          rw [r9 kk hkk, enode_congr g _ cur (hpres2 cur hi)]
        · rw [r10, ereq_congr g _ cur (hpres2 cur hi)]
      · have hcurpres : (refCloneT st thr g cI cS t).g.get? cur = g.get? cur :=
          t2 cur hc.2
        have hmc : must_clone_top_node (refCloneT st thr g cI cS t).g thr cur k
            (refCloneT st thr g cI cS t).res = false :=
          must_clone_false_of_ge _ thr cur k _ hc.1
        have h2 : t.isLeaf = true ∨ thr ≤ (refCloneT st thr g cI cS t).res := by
          cases hleaf : t.isLeaf with
          | true => exact Or.inl rfl
          | false => exact Or.inr (t7 hlf (Or.inr hleaf)).1
        rw [popParentFor_set t (refCloneT st thr g cI cS t).g thr cur k
          (refCloneT st thr g cI cS t).res hmc h2]
        show PostCh st thr g cI cS i cur k0 (.cons k t rest)
          (refCloneCh st thr
            (set_req (refCloneT st thr g cI cS t).g cur k
              (refCloneT st thr g cI cS t).res)
            (refCloneT st thr g cI cS t).cacheInit
            (refCloneT st thr g cI cS t).cacheStride cur rest)
        have hg1len : (set_req (refCloneT st thr g cI cS t).g cur k
            (refCloneT st thr g cI cS t).res).length =
            (refCloneT st thr g cI cS t).g.length := set_req_length _ cur k _
        have hg1pres : ∀ j, j ≠ cur →
            (set_req (refCloneT st thr g cI cS t).g cur k
              (refCloneT st thr g cI cS t).res).get? j =
            (refCloneT st thr g cI cS t).g.get? j :=
          fun j hj => set_req_get_ne _ cur k _ j hj
        have hpres2 : ∀ j, j < thr →
            (set_req (refCloneT st thr g cI cS t).g cur k
              (refCloneT st thr g cI cS t).res).get? j = g.get? j := by
          intro j hj
          rw [hg1pres j (by omega), t2 j (by omega)]
        have hnode : enode (set_req (refCloneT st thr g cI cS t).g cur k
              (refCloneT st thr g cI cS t).res) cur =
            ⟨(enode g cur).op, (enode g cur).ins.set k
              (some (refCloneT st thr g cI cS t).res),
              (enode g cur).origin⟩ := by
          rw [set_req_node_at _ cur k _ (by omega)]
          rw [enode_congr g (refCloneT st thr g cI cS t).g cur hcurpres]
        have hrest := refCloneCh_post st thr rest
          (set_req (refCloneT st thr g cI cS t).g cur k
            (refCloneT st thr g cI cS t).res)
          (refCloneT st thr g cI cS t).cacheInit
          (refCloneT st thr g cI cS t).cacheStride
          i cur (k+1)
          (checkCh_stable g _ thr hpres2 horig i hi (k+1) rest hcrest)
          (origOk_stable g _ thr hpres2 horig)
          (by omega)
          hi
          (fun c hcc => by have := t3 c hcc; omega)
          (fun c hcc => by have := t4 c hcc; omega)
          (Or.inr ⟨hc.1, by omega⟩)
          (fun kk hkk => by
            rw [hnode]
            simp only []
            rw [List.get?_set_ne _ _ (by omega : k ≠ kk)]
            rw [hagree kk (by omega)]
            rw [enode_congr g _ i (hpres2 i hi)])
          (by
            unfold ereq
            rw [hnode]
            simp only []
            rw [List.length_set]
            rw [enode_congr g _ i (hpres2 i hi)]
            exact hereq)
        unfold PostCh at hrest ⊢
        obtain ⟨r1, r2, r3, r4, r5, r6, r7, r8, r9, r10⟩ := hrest
        refine ⟨?_, ?_, ?_, r4, r5, ?_, r7, ?_, ?_, ?_⟩
        · omega
        · intro j hj hji
          rw [r2 j (by omega) hji, hg1pres j hji, t2 j (by omega)]
        · intro hclt
          exact absurd hclt (by omega)
        · intro h
          simp [hasLeafCh, hlf] at h
        · intro hclt _
          exact absurd hclt (by omega)
        · intro kk hkk
          rw [r9 kk hkk, enode_congr g _ i (hpres2 i hi)]
        · rw [r10, ereq_congr g _ i (hpres2 i hi)]
end

theorem einn_agree (g : EGraph) (cur i kk : Nat)
    (h : (enode g cur).ins.get? kk = (enode g i).ins.get? kk) :
    einn g cur kk = einn g i kk := by
  unfold einn
  rw [h]

theorem invalidIn_agree (g : EGraph) (cur i kk : Nat)
    (h : (enode g cur).ins.get? kk = (enode g i).ins.get? kk) :
    invalidIn g cur kk = invalidIn g i kk := by
  unfold invalidIn
  rw [einn_agree g cur i kk h]

theorem einn_some_get (g : EGraph) (i k v : Nat) (h : einn g i k = some v) :
    (enode g i).ins.get? k = some (some v) := by
  unfold einn at h
  cases he : (enode g i).ins.get? k with
  | none => rw [he] at h; cases h
  | some o =>
    rw [he] at h
    cases o with
    | none => cases h
    | some w => cases h; rfl

theorem checkT_valid_root (g : EGraph) (thr : Nat) (t : TSpec)
    (h : checkT g thr t = true) : valid_bool_opcode g t.rootId = true := by
  cases t with
  | initLeaf i =>
    obtain ⟨_, hop, _⟩ := checkT_init_facts g thr i h
    unfold valid_bool_opcode
    show (match (enode g i).op with
      | EOp.opaqueLoopInitN => true | EOp.opaqueLoopStrideN => true
      | EOp.boolN => true | EOp.cmpN => true | EOp.andL => true
      | EOp.orL => true | EOp.rshiftL => true | EOp.lshiftL => true
      | EOp.lshiftI => true | EOp.addL => true | EOp.addI => true
      | EOp.mulL => true | EOp.mulI => true | EOp.subL => true
      | EOp.subI => true | EOp.convI2L => true | EOp.castII => true
      | _ => false) = true
    rw [hop]
  | strideLeaf i =>
    obtain ⟨_, hop, _⟩ := checkT_stride_facts g thr i h
    unfold valid_bool_opcode
    show (match (enode g i).op with
      | EOp.opaqueLoopInitN => true | EOp.opaqueLoopStrideN => true
      | EOp.boolN => true | EOp.cmpN => true | EOp.andL => true
      | EOp.orL => true | EOp.rshiftL => true | EOp.lshiftL => true
      | EOp.lshiftI => true | EOp.addL => true | EOp.addI => true
      | EOp.mulL => true | EOp.mulI => true | EOp.subL => true
      | EOp.subI => true | EOp.convI2L => true | EOp.castII => true
      | _ => false) = true
    rw [hop]
  | interior i ch =>
    exact (checkT_interior_facts g thr i ch h).2.1

theorem opaque_of_init (g : EGraph) (i : Nat)
    (h : (enode g i).op = EOp.opaqueLoopInitN) :
    opaque1_op (enode g i).op = true := by
  unfold opaque1_op
  rw [h]
  rfl

theorem opaque_of_stride (g : EGraph) (i : Nat)
    (h : (enode g i).op = EOp.opaqueLoopStrideN) :
    opaque1_op (enode g i).op = true := by
  unfold opaque1_op
  rw [h]
  rfl

theorem slot_lt_not_in (g : EGraph) (thr i : Nat) :
    ∀ (lo : Nat) (ch : TChildren), checkCh g thr i lo ch = true →
      ∀ kk, kk < lo → slotInCh kk ch = false := by
  intro lo ch
  match ch with
  | .nil => intro _ kk _; rfl
  | .cons k t rest =>
    intro h kk hkk
    obtain ⟨h1, _, _, _, _, h6⟩ := checkCh_cons_facts g thr i lo k t rest h
    unfold slotInCh
    have hne : decide (kk = k) = false := by
      simp
      omega
    rw [hne, Bool.false_or]
    exact slot_lt_not_in g thr i (k+1) rest h6 kk (by omega)

mutual
theorem pathListT_nil (st : Strat) : ∀ t : TSpec, hasLeafT t = false →
    pathListT st t = [] := by
  intro t h
  match t with
  | .initLeaf i => simp [hasLeafT] at h
  | .strideLeaf i => simp [hasLeafT] at h
  | .interior i ch =>
    have h2 : hasLeafCh ch = false := by simpa [hasLeafT] using h
    unfold pathListT
    rw [h2]
    rfl

theorem pathListCh_nil (st : Strat) : ∀ ch : TChildren, hasLeafCh ch = false →
    pathListCh st ch = [] := by
  intro ch h
  match ch with
  | .nil => rfl
  | .cons k t rest =>
    unfold hasLeafCh at h
    simp only [Bool.or_eq_false_iff] at h
    unfold pathListCh
    rw [pathListT_nil st t h.1, pathListCh_nil st rest h.2]
    rfl
end

theorem countOrigin_append (a b : List ENode) (x : Nat) :
    countOrigin (a ++ b) x = countOrigin a x + countOrigin b x := by
  unfold countOrigin
  rw [List.filter_append, List.length_append]

theorem countOrigin_set (l : List ENode) :
    ∀ (c : Nat) (nd nd2 : ENode), l.get? c = some nd →
      nd2.origin = nd.origin →
      ∀ x, countOrigin (l.set c nd2) x = countOrigin l x := by
  induction l with
  | nil => intro c nd nd2 h; cases h
  | cons hd tl ih =>
    intro c nd nd2 h ho x
    cases c with
    | zero =>
      cases h
      unfold countOrigin
      rw [List.set_cons_zero]
      rw [List.filter_cons, List.filter_cons, ho]
      cases hdec : (decide (hd.origin = some x)) <;> simp [hdec]
    | succ c =>
      unfold countOrigin
      rw [List.set_cons_succ]
      rw [List.filter_cons, List.filter_cons]
      have htl := ih c nd nd2 (by simpa using h) ho x
      unfold countOrigin at htl
      cases hdec : (hd.origin = some x : Bool) <;> simp [htl]

theorem countOrigin_set_req (g : EGraph) (c k v : Nat) (x : Nat) :
    countOrigin (set_req g c k v) x = countOrigin g x := by
  unfold set_req
  cases hg : g.get? c with
  | none => rfl
  | some nd =>
    simp only []
    exact countOrigin_set g c nd ⟨nd.op, nd.ins.set k (some v), nd.origin⟩ hg rfl x

theorem countOrigin_singleton (nd : ENode) (p x : Nat) (h : nd.origin = some p) :
    countOrigin [nd] x = if x = p then 1 else 0 := by
  unfold countOrigin
  rw [List.filter_singleton]
  rw [h]
  by_cases hx : x = p
  · subst hx
    simp
  · rw [if_neg hx]
    have hd : (decide ((some p : Option Nat) = some x)) = false := by
      simp
      exact fun hc => hx hc.symm
    rw [hd]
    rfl

theorem countOrigin_clone (g : EGraph) (p : Nat) (x : Nat) :
    countOrigin (clone_and_register g p).2 x =
      countOrigin g x + (if x = p then 1 else 0) := by
  unfold clone_and_register
  simp only []
  rw [countOrigin_append, countOrigin_singleton _ p x rfl]

theorem countOrigin_clone_top (g : EGraph) (p k prev : Nat) (x : Nat) :
    countOrigin (clone_top_node g p k prev).2 x =
      countOrigin g x + (if x = p then 1 else 0) := by
  unfold clone_top_node
  simp only []
  rw [countOrigin_set_req, countOrigin_clone]

mutual
theorem mirrorsT_mono (st : Strat) (g0 g0' g g' : EGraph) (thr lo lo' : Nat)
    (h0 : ∀ j, j < thr → g0'.get? j = g0.get? j)
    (hG : ∀ j, lo ≤ j → j < g.length → g'.get? j = g.get? j)
    (hlen : g.length ≤ g'.length)
    (hlo : lo' ≤ lo) :
    ∀ (t : TSpec) (r : Nat), MirrorsT st g0 g thr lo t r →
      MirrorsT st g0' g' thr lo' t r := by
  intro t r h
  match t with
  | .initLeaf i =>
    cases h with
    | initLeafClone _ _ hst hi hthr2 hlo2 hr hop hins ho =>
      have hpres := hG r hlo2 hr
      refine .initLeafClone i r hst hi hthr2 (by omega) (by omega) ?_ ?_ ?_
      · rw [enode_congr g g' r hpres]
        exact hop
      · rw [enode_congr g g' r hpres, enode_congr g0 g0' i (h0 i hi)]
        exact hins
      · rw [enode_congr g g' r hpres]
        exact ho
    | initLeafRemoved _ _ hst hi hin =>
      refine .initLeafRemoved i r hst hi ?_
      rw [einn_congr g0 g0' i (h0 i hi)]
      exact hin
  | .strideLeaf i =>
    cases h with
    | strideLeafClone _ _ hst hi hthr2 hlo2 hr hop hins ho =>
      have hpres := hG r hlo2 hr
      refine .strideLeafClone i r hst hi hthr2 (by omega) (by omega) ?_ ?_ ?_
      · rw [enode_congr g g' r hpres]
        exact hop
      · rw [enode_congr g g' r hpres, enode_congr g0 g0' i (h0 i hi)]
        exact hins
      · rw [enode_congr g g' r hpres]
        exact ho
    | strideLeafRemoved _ _ hst hi hin =>
      refine .strideLeafRemoved i r hst hi ?_
      rw [einn_congr g0 g0' i (h0 i hi)]
      exact hin
  | .interior i ch =>
    cases h with
    | interiorShared _ _ hnl => exact .interiorShared _ _ hnl
    | interiorCloned _ _ _ hl hi hthr2 hlo2 hr hop ho hlen2 hside hch =>
      have hpres := hG r hlo2 hr
      refine .interiorCloned i r ch hl hi hthr2 (by omega) (by omega) ?_ ?_ ?_ ?_
        (mirrorsCh_mono st g0 g0' g g' thr lo lo' h0 hG hlen hlo ch r hpres hch)
      · rw [enode_congr g g' r hpres, enode_congr g0 g0' i (h0 i hi)]
        exact hop
      · rw [enode_congr g g' r hpres]
        exact ho
      · rw [enode_congr g g' r hpres, enode_congr g0 g0' i (h0 i hi)]
        exact hlen2
      · intro k hk
        rw [enode_congr g g' r hpres, enode_congr g0 g0' i (h0 i hi)]
        exact hside k hk

theorem mirrorsCh_mono (st : Strat) (g0 g0' g g' : EGraph) (thr lo lo' : Nat)
    (h0 : ∀ j, j < thr → g0'.get? j = g0.get? j)
    (hG : ∀ j, lo ≤ j → j < g.length → g'.get? j = g.get? j)
    (hlen : g.length ≤ g'.length)
    (hlo : lo' ≤ lo) :
    ∀ (ch : TChildren) (r : Nat), g'.get? r = g.get? r →
      MirrorsCh st g0 g thr lo ch r →
      MirrorsCh st g0' g' thr lo' ch r := by
  intro ch r hrp h
  match ch with
  | .nil => exact .nil r
  | .cons k t rest =>
    cases h with
    | cons _ _ _ _ rc hedge hmt hmrest =>
      refine .cons k t rest r rc ?_
        (mirrorsT_mono st g0 g0' g g' thr lo lo' h0 hG hlen hlo t rc hmt)
        (mirrorsCh_mono st g0 g0' g g' thr lo lo' h0 hG hlen hlo rest r hrp hmrest)
      rw [einn_congr g g' r hrp]
      exact hedge
end

theorem child_step_cases (st : Strat) (thr : Nat) (g : EGraph) (cI cS : Option Nat)
    (i cur k0 k : Nat) (t : TSpec) (rest : TChildren)
    (r : CloneRes) (pu : Nat × EGraph)
    (hr : r = refCloneT st thr g cI cS t)
    (hpu : pu = popParentFor t r.g thr cur k r.res)
    (hck : checkCh g thr i k0 (.cons k t rest) = true)
    (horig : OrigOkP g thr) (hthr : thr ≤ g.length) (hi : i < thr)
    (hcI : ∀ c, cI = some c → thr ≤ c ∧ c < g.length)
    (hcS : ∀ c, cS = some c → thr ≤ c ∧ c < g.length)
    (hcur : cur = i ∨ (thr ≤ cur ∧ cur < g.length))
    (hagree : ∀ kk, k0 ≤ kk →
      (enode g cur).ins.get? kk = (enode g i).ins.get? kk)
    (hereq : ereq g cur = ereq g i) :
    checkCh pu.2 thr i (k+1) rest = true ∧
    OrigOkP pu.2 thr ∧
    thr ≤ pu.2.length ∧
    (∀ c, r.cacheInit = some c → thr ≤ c ∧ c < pu.2.length) ∧
    (∀ c, r.cacheStride = some c → thr ≤ c ∧ c < pu.2.length) ∧
    (pu.1 = i ∨ (thr ≤ pu.1 ∧ pu.1 < pu.2.length)) ∧
    (∀ kk, k+1 ≤ kk →
      (enode pu.2 pu.1).ins.get? kk = (enode pu.2 i).ins.get? kk) ∧
    ereq pu.2 pu.1 = ereq pu.2 i ∧
    (∀ j, j < thr → pu.2.get? j = g.get? j) ∧
    (enode pu.2 pu.1).op = (enode g cur).op ∧
    g.length ≤ pu.2.length ∧
    r.g.length ≤ pu.2.length ∧
    g.length ≤ r.g.length ∧
    (∀ j, g.length ≤ j → j < r.g.length → pu.2.get? j = r.g.get? j) ∧
    (∀ j, j < g.length → r.g.get? j = g.get? j) ∧
    ((hasLeafT t = false ∧ r = ⟨t.rootId, g, cI, cS⟩ ∧ pu = (cur, g)) ∨
     (hasLeafT t = true ∧ cur = i ∧ pu.1 = r.g.length ∧
        pu.2 = (clone_top_node r.g cur k r.res).2 ∧
        enode pu.2 pu.1 =
          ⟨(enode g cur).op, (enode g cur).ins.set k (some r.res), some cur⟩) ∨
     (hasLeafT t = true ∧ thr ≤ cur ∧ pu = (cur, set_req r.g cur k r.res) ∧
        enode pu.2 pu.1 =
          ⟨(enode g cur).op, (enode g cur).ins.set k (some r.res),
            (enode g cur).origin⟩)) := by
  subst hr
  obtain ⟨hlo, hklt, hsl, hin, hct, hcrest⟩ :=
    checkCh_cons_facts g thr i k0 k t rest hck
  have hroot := checkT_root_lt g thr t hct
  have hicur : cur < g.length := by
    rcases hcur with hc | hc
    · omega
    · exact hc.2
  have hpt := refCloneT_post st thr t g cI cS hct horig hthr hcI hcS
  unfold PostT at hpt
  obtain ⟨t1, t2, t3, t4, t5, t6, t7⟩ := hpt
  cases hlf : hasLeafT t with
  | false =>
    have hre : refCloneT st thr g cI cS t = ⟨t.rootId, g, cI, cS⟩ := t5 hlf
    have hleaf : t.isLeaf = false := by
      cases hv : t.isLeaf with
      | false => rfl
      | true => rw [leaf_hasLeaf t hv] at hlf; cases hlf
    have hmc : must_clone_top_node g thr cur k t.rootId = false := by
      rcases hcur with hc | hc
      · rw [hc]
        unfold must_clone_top_node
        simp [hin]
      · exact must_clone_false_of_ge g thr cur k t.rootId hc.1
    have hpu2 : pu = (cur, g) := by
      rw [hpu, hre]
      exact popParentFor_noop t g thr cur k t.rootId hmc hleaf hroot
    rw [hpu2, hre]
    refine ⟨hcrest, horig, hthr, ?_, ?_, hcur,
      (fun kk hkk => hagree kk (by omega)), hereq,
      (fun j hj => rfl), rfl, le_refl _, le_refl _, le_refl _,
      (fun j h1 h2 => rfl), (fun j hj => rfl),
      Or.inl ⟨rfl, rfl, rfl⟩⟩
    · intro c hcc
      exact hcI c hcc
    · intro c hcc
      exact hcS c hcc
  | true =>
    rcases hcur with hc | hc
    · subst hc
      have hipres : (refCloneT st thr g cI cS t).g.get? cur = g.get? cur :=
        t2 cur hicur
      have hinr : einn (refCloneT st thr g cI cS t).g cur k = some t.rootId := by
        rw [einn_congr g (refCloneT st thr g cI cS t).g cur hipres k]
        exact hin
      have hne : t.rootId ≠ (refCloneT st thr g cI cS t).res := by
        cases st with
        | cloneNodes =>
          have h7 := t7 hlf (Or.inl rfl)
          omega
        | removeNodes =>
          cases hleaf : t.isLeaf with
          | false =>
            have h7 := t7 hlf (Or.inr hleaf)
            omega
          | true =>
            obtain ⟨h61, h62, h63, h64⟩ := t6 hleaf rfl
            exact (checkT_leaf_in1_ne g thr t hct hleaf _ h61).symm
      have hmc : must_clone_top_node (refCloneT st thr g cI cS t).g thr cur k
          (refCloneT st thr g cI cS t).res = true := by
        refine must_clone_true_intro _ thr cur k _ hi ?_
        rw [hinr]
        exact fun hcon => hne (Option.some.inj hcon)
      have hpu2 : pu = clone_top_node (refCloneT st thr g cI cS t).g cur k
          (refCloneT st thr g cI cS t).res := by
        rw [hpu]
        exact popParentFor_clone t (refCloneT st thr g cI cS t).g thr cur k
          (refCloneT st thr g cI cS t).res hmc
      have hfst : (clone_top_node (refCloneT st thr g cI cS t).g cur k
          (refCloneT st thr g cI cS t).res).1 =
          (refCloneT st thr g cI cS t).g.length := rfl
      have hg1len := clone_top_length (refCloneT st thr g cI cS t).g cur k
        (refCloneT st thr g cI cS t).res
      have hg1pres := fun j hj => clone_top_get_lt (refCloneT st thr g cI cS t).g
        cur k (refCloneT st thr g cI cS t).res j hj
      have hpres2 : ∀ j, j < thr →
          (clone_top_node (refCloneT st thr g cI cS t).g cur k
            (refCloneT st thr g cI cS t).res).2.get? j = g.get? j := by
        intro j hj
        rw [hg1pres j (by omega), t2 j (by omega)]
      have hnode : enode (clone_top_node (refCloneT st thr g cI cS t).g cur k
            (refCloneT st thr g cI cS t).res).2
          ((refCloneT st thr g cI cS t).g.length) =
          ⟨(enode g cur).op, (enode g cur).ins.set k
            (some (refCloneT st thr g cI cS t).res), some cur⟩ := by
        rw [clone_top_node_at]
        rw [enode_congr g (refCloneT st thr g cI cS t).g cur hipres]
      rw [hpu2, hfst]
      refine ⟨?_, ?_, by omega, ?_, ?_, Or.inr ⟨by omega, by omega⟩,
        ?_, ?_, hpres2, ?_, by omega, by omega, t1, ?_, t2,
        Or.inr (Or.inl ⟨rfl, rfl, hfst, rfl, hnode⟩)⟩
      · exact checkCh_stable g _ thr hpres2 horig cur hi (k+1) rest hcrest
      · exact origOk_stable g _ thr hpres2 horig
      · intro c hcc
        have := t3 c hcc
        omega
      · intro c hcc
        have := t4 c hcc
        omega
      · intro kk hkk
        rw [hnode]
        simp only []
        rw [List.get?_set_ne _ _ (by omega : k ≠ kk)]
        rw [enode_congr g _ cur (hpres2 cur hi)]
      · unfold ereq
        rw [hnode]
        simp only []
        rw [List.length_set]
        rw [enode_congr g _ cur (hpres2 cur hi)]
      · rw [hnode]
      · intro j h1 h2
        exact hg1pres j h2
    · have hcurpres : (refCloneT st thr g cI cS t).g.get? cur = g.get? cur :=
        t2 cur hc.2
      have hmc : must_clone_top_node (refCloneT st thr g cI cS t).g thr cur k
          (refCloneT st thr g cI cS t).res = false :=
        must_clone_false_of_ge _ thr cur k _ hc.1
      have h2 : t.isLeaf = true ∨ thr ≤ (refCloneT st thr g cI cS t).res := by
        cases hleaf : t.isLeaf with
        | true => exact Or.inl rfl
        | false => exact Or.inr (t7 hlf (Or.inr hleaf)).1
      have hpu2 : pu = (cur, set_req (refCloneT st thr g cI cS t).g cur k
          (refCloneT st thr g cI cS t).res) := by
        rw [hpu]
        exact popParentFor_set t (refCloneT st thr g cI cS t).g thr cur k
          (refCloneT st thr g cI cS t).res hmc h2
      have hg1len := set_req_length (refCloneT st thr g cI cS t).g cur k
        (refCloneT st thr g cI cS t).res
      have hg1pres : ∀ j, j ≠ cur →
          (set_req (refCloneT st thr g cI cS t).g cur k
            (refCloneT st thr g cI cS t).res).get? j =
          (refCloneT st thr g cI cS t).g.get? j :=
        fun j hj => set_req_get_ne _ cur k _ j hj
      have hpres2 : ∀ j, j < thr →
          (set_req (refCloneT st thr g cI cS t).g cur k
            (refCloneT st thr g cI cS t).res).get? j = g.get? j := by
        intro j hj
        rw [hg1pres j (by omega), t2 j (by omega)]
      have hnode : enode (set_req (refCloneT st thr g cI cS t).g cur k
            (refCloneT st thr g cI cS t).res) cur =
          ⟨(enode g cur).op, (enode g cur).ins.set k
            (some (refCloneT st thr g cI cS t).res),
            (enode g cur).origin⟩ := by
        rw [set_req_node_at _ cur k _ (by omega)]
        rw [enode_congr g (refCloneT st thr g cI cS t).g cur hcurpres]
      have hpufst : pu.1 = cur := by rw [hpu2]
      have hpusnd : pu.2 = set_req (refCloneT st thr g cI cS t).g cur k
          (refCloneT st thr g cI cS t).res := by rw [hpu2]
      rw [hpufst, hpusnd]
      refine ⟨?_, ?_, by omega, ?_, ?_, Or.inr ⟨hc.1, by omega⟩,
        ?_, ?_, hpres2, ?_, by omega, by omega, t1, ?_, t2,
        Or.inr (Or.inr ⟨rfl, hc.1, hpu2, hnode⟩)⟩
      · exact checkCh_stable g _ thr hpres2 horig i hi (k+1) rest hcrest
      · exact origOk_stable g _ thr hpres2 horig
      · intro c hcc
        have := t3 c hcc
        omega
      · intro c hcc
        have := t4 c hcc
        omega
      · intro kk hkk
        rw [hnode]
        simp only []
        rw [List.get?_set_ne _ _ (by omega : k ≠ kk)]
        rw [hagree kk (by omega)]
        rw [enode_congr g _ i (hpres2 i hi)]
      · unfold ereq
        rw [hnode]
        simp only []
        rw [List.length_set]
        rw [enode_congr g _ i (hpres2 i hi)]
        exact hereq
      · rw [hnode]
      · intro j h1 h2
        exact hg1pres j (by omega)

theorem stepM_opaque_pop (st : Strat) (thr : Nat) (g : EGraph)
    (cur idx p k : Nat) (rest : List (Nat × Nat)) (cI cS : Option Nat)
    (hop : opaque1_op (enode g cur).op = true) :
    stepM st thr ⟨g, (cur, idx) :: (p, k) :: rest, cI, cS⟩ =
      .inl ⟨(pop_parent_after_opaque_node
              (transform_opaque_core st g cI cS cur).g thr p k
              (transform_opaque_core st g cI cS cur).res).2,
            ((pop_parent_after_opaque_node
              (transform_opaque_core st g cI cS cur).g thr p k
              (transform_opaque_core st g cI cS cur).res).1, k+1) :: rest,
            (transform_opaque_core st g cI cS cur).cacheInit,
            (transform_opaque_core st g cI cS cur).cacheStride⟩ := by
  unfold stepM
  simp only []
  rw [hop]
  rfl

theorem stepM_push (st : Strat) (thr : Nat) (g : EGraph)
    (cur idx : Nat) (rest2 : List (Nat × Nat)) (cI cS : Option Nat)
    (si : Nat × Nat)
    (hop : opaque1_op (enode g cur).op = false)
    (hpush : push_next_unvisited_input g cur idx = some si) :
    stepM st thr ⟨g, (cur, idx) :: rest2, cI, cS⟩ =
      .inl ⟨g, (si.2, 1) :: (cur, si.1) :: rest2, cI, cS⟩ := by
  unfold stepM
  simp only []
  rw [hop]
  simp only [Bool.false_eq_true, if_false]
  rw [hpush]

theorem stepM_pop_plain (st : Strat) (thr : Nat) (g : EGraph)
    (cur idx p k : Nat) (rest : List (Nat × Nat)) (cI cS : Option Nat)
    (hop : opaque1_op (enode g cur).op = false)
    (hpush : push_next_unvisited_input g cur idx = none) :
    stepM st thr ⟨g, (cur, idx) :: (p, k) :: rest, cI, cS⟩ =
      .inl ⟨(pop_parent_after_node g thr p k cur).2,
            ((pop_parent_after_node g thr p k cur).1, k+1) :: rest, cI, cS⟩ := by
  unfold stepM
  simp only []
  rw [hop]
  simp only [Bool.false_eq_true, if_false]
  rw [hpush]

theorem stepM_exit (st : Strat) (thr : Nat) (g : EGraph)
    (cur idx : Nat) (cI cS : Option Nat)
    (hop : opaque1_op (enode g cur).op = false)
    (hpush : push_next_unvisited_input g cur idx = none) :
    stepM st thr ⟨g, [(cur, idx)], cI, cS⟩ =
      .inr (some cur, ⟨g, [(cur, idx)], cI, cS⟩) := by
  unfold stepM
  simp only []
  rw [hop]
  simp only [Bool.false_eq_true, if_false]
  rw [hpush]

theorem runSteps_one (st : Strat) (thr : Nat) (s s2 : MState)
    (h : stepM st thr s = .inl s2) :
    runSteps st thr 1 s = .inl s2 := by
  unfold runSteps
  rw [h]
  rfl

theorem runSteps_inr_mono (st : Strat) (thr : Nat) :
    ∀ (n : Nat) (s : MState) (X : Option Nat × MState),
      runSteps st thr n s = .inr X →
      ∀ m, n ≤ m → runSteps st thr m s = .inr X := by
  intro n
  induction n with
  | zero => intro s X h; cases h
  | succ n ih =>
    intro s X h m hm
    unfold runSteps at h
    cases m with
    | zero => omega
    | succ m =>
      unfold runSteps
      cases hs : stepM st thr s with
      | inl s2 =>
        rw [hs] at h
        simp only [] at h ⊢
        exact ih s2 X h m (by omega)
      | inr r =>
        rw [hs] at h
        simp only [] at h ⊢
        exact h

mutual
theorem runT_ref (st : Strat) (thr : Nat) :
    ∀ (t : TSpec) (g : EGraph) (cI cS : Option Nat) (p k : Nat)
      (rest : List (Nat × Nat)),
      checkT g thr t = true → OrigOkP g thr → thr ≤ g.length →
      (∀ c, cI = some c → thr ≤ c ∧ c < g.length) →
      (∀ c, cS = some c → thr ≤ c ∧ c < g.length) →
      ∃ n, runSteps st thr n ⟨g, (t.rootId, 1) :: (p, k) :: rest, cI, cS⟩ =
        .inl ⟨(popParentFor t (refCloneT st thr g cI cS t).g thr p k
                (refCloneT st thr g cI cS t).res).2,
              ((popParentFor t (refCloneT st thr g cI cS t).g thr p k
                (refCloneT st thr g cI cS t).res).1, k+1) :: rest,
              (refCloneT st thr g cI cS t).cacheInit,
              (refCloneT st thr g cI cS t).cacheStride⟩ := by
  intro t g cI cS p k rest hck horig hthr hcI hcS
  match t with
  | .initLeaf i =>
    obtain ⟨hi, hop, x, hx, hxne⟩ := checkT_init_facts g thr i hck
    exact ⟨1, runSteps_one st thr _ _
      (stepM_opaque_pop st thr g i 1 p k rest cI cS (opaque_of_init g i hop))⟩
  | .strideLeaf i =>
    obtain ⟨hi, hop, x, hx, hxne⟩ := checkT_stride_facts g thr i hck
    exact ⟨1, runSteps_one st thr _ _
      (stepM_opaque_pop st thr g i 1 p k rest cI cS (opaque_of_stride g i hop))⟩
  | .interior i ch =>
    obtain ⟨hi, hval, hnop, hch⟩ := checkT_interior_facts g thr i ch hck
    exact runCh_ref st thr ch g cI cS i i 1 p k rest hch horig hthr hi hcI hcS
      (Or.inl rfl) (fun kk _ => rfl) rfl hnop

theorem runCh_ref (st : Strat) (thr : Nat) :
    ∀ (ch : TChildren) (g : EGraph) (cI cS : Option Nat) (i cur k0 p k : Nat)
      (rest : List (Nat × Nat)),
      checkCh g thr i k0 ch = true → OrigOkP g thr → thr ≤ g.length → i < thr →
      (∀ c, cI = some c → thr ≤ c ∧ c < g.length) →
      (∀ c, cS = some c → thr ≤ c ∧ c < g.length) →
      (cur = i ∨ (thr ≤ cur ∧ cur < g.length)) →
      (∀ kk, k0 ≤ kk →
        (enode g cur).ins.get? kk = (enode g i).ins.get? kk) →
      ereq g cur = ereq g i →
      opaque1_op (enode g cur).op = false →
      ∃ n, runSteps st thr n ⟨g, (cur, k0) :: (p, k) :: rest, cI, cS⟩ =
        .inl ⟨(pop_parent_after_node (refCloneCh st thr g cI cS cur ch).g thr p k
                (refCloneCh st thr g cI cS cur ch).res).2,
              ((pop_parent_after_node (refCloneCh st thr g cI cS cur ch).g thr p k
                (refCloneCh st thr g cI cS cur ch).res).1, k+1) :: rest,
              (refCloneCh st thr g cI cS cur ch).cacheInit,
              (refCloneCh st thr g cI cS cur ch).cacheStride⟩ := by
  intro ch g cI cS i cur k0 p k rest hck horig hthr hi hcI hcS hcur hagree hereq hopq
  match ch with
  | .nil =>
    have hsi : slots_invalid g i k0 (ereq g i) = true := hck
    rw [slots_invalid_iff] at hsi
    have hpush : push_next_unvisited_input g cur k0 = none := by
      refine push_next_none g cur k0 ?_
      intro kk h1 h2
      rw [invalidIn_agree g cur i kk (hagree kk h1)]
      rw [hereq] at h2
      exact hsi kk h1 h2
    exact ⟨1, runSteps_one st thr _ _
      (stepM_pop_plain st thr g cur k0 p k rest cI cS hopq hpush)⟩
  | .cons k1 t1 rest1 =>
    obtain ⟨hlo, hklt, hsl, hin, hct, hcrest⟩ :=
      checkCh_cons_facts g thr i k0 k1 t1 rest1 hck
    have hv : valid_bool_opcode g t1.rootId = true := checkT_valid_root g thr t1 hct
    have heinncur : einn g cur k1 = some t1.rootId := by
      rw [einn_agree g cur i k1 (hagree k1 hlo)]
      exact hin
    rw [slots_invalid_iff] at hsl
    have hpush : push_next_unvisited_input g cur k0 = some (k1, t1.rootId) := by
      refine push_next_found g cur k0 k1 t1.rootId hlo ?_ ?_ heinncur hv
      · rw [hereq]
        exact hklt
      · intro kk h1 h2
        rw [invalidIn_agree g cur i kk (hagree kk h1)]
        exact hsl kk h1 h2
    have s1 := stepM_push st thr g cur k0 ((p, k) :: rest) cI cS (k1, t1.rootId)
      hopq hpush
    obtain ⟨n1, h1⟩ := runT_ref st thr t1 g cI cS cur k1 ((p, k) :: rest)
      hct horig hthr hcI hcS
    obtain ⟨hS1, hS2, hS3, hS4, hS5, hS6, hS7, hS8, hS9, hS10, hS11, hS12,
      hS13, hS14, hS15, hbr⟩ :=
      child_step_cases st thr g cI cS i cur k0 k1 t1 rest1
        (refCloneT st thr g cI cS t1)
        (popParentFor t1 (refCloneT st thr g cI cS t1).g thr cur k1
          (refCloneT st thr g cI cS t1).res)
        rfl rfl hck horig hthr hi hcI hcS hcur hagree hereq
    have hopq2 : opaque1_op (enode
        (popParentFor t1 (refCloneT st thr g cI cS t1).g thr cur k1
          (refCloneT st thr g cI cS t1).res).2
        (popParentFor t1 (refCloneT st thr g cI cS t1).g thr cur k1
          (refCloneT st thr g cI cS t1).res).1).op = false := by
      rw [hS10]
      exact hopq
    obtain ⟨n2, h2⟩ := runCh_ref st thr rest1
      (popParentFor t1 (refCloneT st thr g cI cS t1).g thr cur k1
        (refCloneT st thr g cI cS t1).res).2
      (refCloneT st thr g cI cS t1).cacheInit
      (refCloneT st thr g cI cS t1).cacheStride
      i
      (popParentFor t1 (refCloneT st thr g cI cS t1).g thr cur k1
        (refCloneT st thr g cI cS t1).res).1
      (k1+1) p k rest
      hS1 hS2 hS3 hi hS4 hS5 hS6 hS7 hS8 hopq2
    refine ⟨(1 + n1) + n2, ?_⟩
    have h12 := runSteps_trans st thr 1 n1
      ⟨g, (cur, k0) :: (p, k) :: rest, cI, cS⟩
      ⟨g, (t1.rootId, 1) :: (cur, k1) :: (p, k) :: rest, cI, cS⟩
      _ (runSteps_one st thr _ _ s1) h1
    exact runSteps_trans st thr (1 + n1) n2
      ⟨g, (cur, k0) :: (p, k) :: rest, cI, cS⟩ _ _ h12 h2
end

theorem runRoot_ref (st : Strat) (thr : Nat) :
    ∀ (ch : TChildren) (g : EGraph) (cI cS : Option Nat) (i cur k0 : Nat),
      checkCh g thr i k0 ch = true → OrigOkP g thr → thr ≤ g.length → i < thr →
      (∀ c, cI = some c → thr ≤ c ∧ c < g.length) →
      (∀ c, cS = some c → thr ≤ c ∧ c < g.length) →
      (cur = i ∨ (thr ≤ cur ∧ cur < g.length)) →
      (∀ kk, k0 ≤ kk →
        (enode g cur).ins.get? kk = (enode g i).ins.get? kk) →
      ereq g cur = ereq g i →
      opaque1_op (enode g cur).op = false →
      ∃ n, runSteps st thr n ⟨g, [(cur, k0)], cI, cS⟩ =
        .inr (some (refCloneCh st thr g cI cS cur ch).res,
          ⟨(refCloneCh st thr g cI cS cur ch).g,
           [((refCloneCh st thr g cI cS cur ch).res, endSlot ch k0)],
           (refCloneCh st thr g cI cS cur ch).cacheInit,
           (refCloneCh st thr g cI cS cur ch).cacheStride⟩) := by
  intro ch g cI cS i cur k0 hck horig hthr hi hcI hcS hcur hagree hereq hopq
  match ch with
  | .nil =>
    have hsi : slots_invalid g i k0 (ereq g i) = true := hck
    rw [slots_invalid_iff] at hsi
    have hpush : push_next_unvisited_input g cur k0 = none := by
      refine push_next_none g cur k0 ?_
      intro kk h1 h2
      rw [invalidIn_agree g cur i kk (hagree kk h1)]
      rw [hereq] at h2
      exact hsi kk h1 h2
    refine ⟨1, ?_⟩
    unfold runSteps
    rw [stepM_exit st thr g cur k0 cI cS hopq hpush]
    rfl
  | .cons k1 t1 rest1 =>
    obtain ⟨hlo, hklt, hsl, hin, hct, hcrest⟩ :=
      checkCh_cons_facts g thr i k0 k1 t1 rest1 hck
    have hv : valid_bool_opcode g t1.rootId = true := checkT_valid_root g thr t1 hct
    have heinncur : einn g cur k1 = some t1.rootId := by
      rw [einn_agree g cur i k1 (hagree k1 hlo)]
      exact hin
    rw [slots_invalid_iff] at hsl
    have hpush : push_next_unvisited_input g cur k0 = some (k1, t1.rootId) := by
      refine push_next_found g cur k0 k1 t1.rootId hlo ?_ ?_ heinncur hv
      · rw [hereq]
        exact hklt
      · intro kk h1 h2
        rw [invalidIn_agree g cur i kk (hagree kk h1)]
        exact hsl kk h1 h2
    have s1 := stepM_push st thr g cur k0 [] cI cS (k1, t1.rootId) hopq hpush
    obtain ⟨n1, h1⟩ := runT_ref st thr t1 g cI cS cur k1 [] hct horig hthr hcI hcS
    obtain ⟨hS1, hS2, hS3, hS4, hS5, hS6, hS7, hS8, hS9, hS10, hS11, hS12,
      hS13, hS14, hS15, hbr⟩ :=
      child_step_cases st thr g cI cS i cur k0 k1 t1 rest1
        (refCloneT st thr g cI cS t1)
        (popParentFor t1 (refCloneT st thr g cI cS t1).g thr cur k1
          (refCloneT st thr g cI cS t1).res)
        rfl rfl hck horig hthr hi hcI hcS hcur hagree hereq
    have hopq2 : opaque1_op (enode
        (popParentFor t1 (refCloneT st thr g cI cS t1).g thr cur k1
          (refCloneT st thr g cI cS t1).res).2
        (popParentFor t1 (refCloneT st thr g cI cS t1).g thr cur k1
          (refCloneT st thr g cI cS t1).res).1).op = false := by
      rw [hS10]
      exact hopq
    obtain ⟨n2, h2⟩ := runRoot_ref st thr rest1
      (popParentFor t1 (refCloneT st thr g cI cS t1).g thr cur k1
        (refCloneT st thr g cI cS t1).res).2
      (refCloneT st thr g cI cS t1).cacheInit
      (refCloneT st thr g cI cS t1).cacheStride
      i
      (popParentFor t1 (refCloneT st thr g cI cS t1).g thr cur k1
        (refCloneT st thr g cI cS t1).res).1
      (k1+1)
      hS1 hS2 hS3 hi hS4 hS5 hS6 hS7 hS8 hopq2
    refine ⟨(1 + n1) + n2, ?_⟩
    have h12 := runSteps_trans st thr 1 n1
      ⟨g, [(cur, k0)], cI, cS⟩
      ⟨g, (t1.rootId, 1) :: [(cur, k1)], cI, cS⟩
      _ (runSteps_one st thr _ _ s1) h1
    exact runSteps_trans st thr (1 + n1) n2
      ⟨g, [(cur, k0)], cI, cS⟩ _ _ h12 h2

theorem clone_run_eq (st : Strat) (g : EGraph) (i : Nat) (ch : TChildren)
    (hck : checkT g g.length (.interior i ch) = true)
    (horig : OrigOkP g g.length) :
    ∃ fuel, ∀ f, fuel ≤ f →
      clone_assertion_predicate_bool st g i f =
        (some (refCloneT st g.length g none none (.interior i ch)).res,
         (refCloneT st g.length g none none (.interior i ch)).g) := by
  obtain ⟨hi, hval, hnop, hch⟩ := checkT_interior_facts g g.length i ch hck
  obtain ⟨n, hrun⟩ := runRoot_ref st g.length ch g none none i i 1 hch horig
    (le_refl _) hi (fun c hc => by cases hc) (fun c hc => by cases hc)
    (Or.inl rfl) (fun kk _ => rfl) rfl hnop
  refine ⟨n, ?_⟩
  intro f hf
  have hrun2 := runSteps_inr_mono st g.length n _ _ hrun f hf
  unfold clone_assertion_predicate_bool
  rw [hrun2]
  rfl

mutual
theorem refCloneT_props (st : Strat) (thr : Nat) :
    ∀ (t : TSpec) (g : EGraph) (cI cS : Option Nat),
      checkT g thr t = true → OrigOkP g thr → thr ≤ g.length →
      (∀ c, cI = some c → thr ≤ c ∧ c < g.length) →
      (∀ c, cS = some c → thr ≤ c ∧ c < g.length) →
      (cI = none ∨ initCountT t = 0) →
      (cS = none ∨ strideCountT t = 0) →
      initCountT t ≤ 1 → strideCountT t ≤ 1 →
      (∀ x, countOrigin (refCloneT st thr g cI cS t).g x =
        countOrigin g x + (pathListT st t).count x) ∧
      (initCountT t = 0 → (refCloneT st thr g cI cS t).cacheInit = cI) ∧
      (strideCountT t = 0 → (refCloneT st thr g cI cS t).cacheStride = cS) ∧
      MirrorsT st g (refCloneT st thr g cI cS t).g thr g.length t
        (refCloneT st thr g cI cS t).res := by
  intro t g cI cS hck horig hthr hcI hcS hvI hvS h1i h1s
  match t with
  | .initLeaf i =>
    obtain ⟨hi, hop, x, hx, hxne⟩ := checkT_init_facts g thr i hck
    cases st with
    | removeNodes =>
      have hr : refCloneT .removeNodes thr g cI cS (.initLeaf i) =
          ⟨x, g, cI, cS⟩ := by
        unfold refCloneT transform_opaque_core
        rw [hx]
        rfl
      rw [hr]
      refine ⟨?_, fun _ => rfl, fun _ => rfl, ?_⟩
      · intro x'
        have hp : pathListT .removeNodes (.initLeaf i) = [] := by
          unfold pathListT
          simp
        rw [hp]
        simp
      · exact .initLeafRemoved i x rfl hi hx
    | cloneNodes =>
      have hcnone : cI = none := by
        rcases hvI with h | h
        · exact h
        · simp [initCountT] at h
      subst hcnone
      have hr : refCloneT .cloneNodes thr g none cS (.initLeaf i) =
          ⟨g.length, g ++ [⟨(enode g i).op, (enode g i).ins, some i⟩],
            some g.length, cS⟩ := by
        unfold refCloneT transform_opaque_core
        simp only []
        rw [if_pos hop]
        rfl
      rw [hr]
      refine ⟨?_, ?_, fun _ => rfl, ?_⟩
      · intro x'
        have hp : pathListT .cloneNodes (.initLeaf i) = [i] := by
          unfold pathListT
          simp
        rw [hp]
        simp only []
        rw [countOrigin_append, countOrigin_singleton _ i x' rfl]
        by_cases hxi : x' = i
        · subst hxi
          simp
        · rw [if_neg hxi, List.count_singleton']
          rw [if_neg (fun hc => hxi hc.symm)]
      · intro h
        simp [initCountT] at h
      · refine .initLeafClone i g.length rfl hi hthr (le_refl _) (by simp) ?_ ?_ ?_
        · unfold enode
          rw [append_get_len]
          simp only [Option.getD_some]
          exact hop
        · unfold enode
          rw [append_get_len]
          rfl
        · unfold enode
          rw [append_get_len]
          rfl
  | .strideLeaf i =>
    obtain ⟨hi, hop, x, hx, hxne⟩ := checkT_stride_facts g thr i hck
    cases st with
    | removeNodes =>
      have hr : refCloneT .removeNodes thr g cI cS (.strideLeaf i) =
          ⟨x, g, cI, cS⟩ := by
        unfold refCloneT transform_opaque_core
        rw [hx]
        rfl
      rw [hr]
      refine ⟨?_, fun _ => rfl, fun _ => rfl, ?_⟩
      · intro x'
        have hp : pathListT .removeNodes (.strideLeaf i) = [] := by
          unfold pathListT
          simp
        rw [hp]
        simp
      · exact .strideLeafRemoved i x rfl hi hx
    | cloneNodes =>
      have hcnone : cS = none := by
        rcases hvS with h | h
        · exact h
        · simp [strideCountT] at h
      subst hcnone
      have hr : refCloneT .cloneNodes thr g cI none (.strideLeaf i) =
          ⟨g.length, g ++ [⟨(enode g i).op, (enode g i).ins, some i⟩],
            cI, some g.length⟩ := by
        unfold refCloneT transform_opaque_core
        simp only []
        rw [if_neg (by rw [hop]; exact fun h => absurd h (by decide))]
        rfl
      rw [hr]
      refine ⟨?_, fun _ => rfl, ?_, ?_⟩
      · intro x'
        have hp : pathListT .cloneNodes (.strideLeaf i) = [i] := by
          unfold pathListT
          simp
        rw [hp]
        simp only []
        rw [countOrigin_append, countOrigin_singleton _ i x' rfl]
        by_cases hxi : x' = i
        · subst hxi
          simp
        · rw [if_neg hxi, List.count_singleton']
          rw [if_neg (fun hc => hxi hc.symm)]
      · intro h
        simp [strideCountT] at h
      · refine .strideLeafClone i g.length rfl hi hthr (le_refl _) (by simp) ?_ ?_ ?_
        · unfold enode
          rw [append_get_len]
          simp only [Option.getD_some]
          exact hop
        · unfold enode
          rw [append_get_len]
          rfl
        · unfold enode
          rw [append_get_len]
          rfl
  | .interior i ch =>
    obtain ⟨hi, hval, hnop, hch⟩ := checkT_interior_facts g thr i ch hck
    have hCh := refCloneCh_props st thr ch g cI cS i i 1 hch horig hthr hi hcI hcS
      (Or.inl rfl) (fun kk _ => rfl) rfl hvI hvS h1i h1s
    obtain ⟨P1, P2, P3, P4, P5, P6, P7⟩ := hCh
    have hPost := refCloneCh_post st thr ch g cI cS i i 1 hch horig hthr hi hcI hcS
      (Or.inl rfl) (fun kk _ => rfl) rfl
    unfold PostCh at hPost
    obtain ⟨q1, q2, q3, q4, q5, q6, q7, q8, q9, q10⟩ := hPost
    have hrT : refCloneT st thr g cI cS (.interior i ch) =
        refCloneCh st thr g cI cS i ch := rfl
    rw [hrT]
    refine ⟨?_, P2, P3, ?_⟩
    · intro x
      rw [P1 x]
      cases hlc : hasLeafCh ch with
      | false =>
        have hp : pathListT st (.interior i ch) = [] := by
          unfold pathListT
          rw [hlc]
          rfl
        rw [hp, pathListCh_nil st ch hlc]
        rw [if_neg (by simp [hlc])]
        simp
      | true =>
        have hp : pathListT st (.interior i ch) = i :: pathListCh st ch := by
          unfold pathListT
          rw [hlc]
          rfl
        rw [hp, List.count_cons]
        by_cases hxi : x = i
        · subst hxi
          rw [if_pos ⟨rfl, rfl, rfl⟩]
          simp
          omega
        · rw [if_neg (by intro hcon; exact hxi hcon.2.2)]
          have hb : (i == x) = false := by
            simp
            exact fun hc => hxi hc.symm
          rw [hb]
          simp
    · cases hlc : hasLeafCh ch with
      | false =>
        have hid := q6 hlc
        rw [hid]
        exact .interiorShared i ch hlc
      | true =>
        obtain ⟨hP6a, hP6b, hP6c, hP6d, hP6e⟩ := P6 rfl hlc
        refine .interiorCloned i _ ch hlc hi hP6c hP6e hP6d hP6a hP6b ?_ ?_ P4
        · have := q10
          unfold ereq at this
          exact this
        · intro kk hkk
          exact P5 kk hkk

theorem refCloneCh_props (st : Strat) (thr : Nat) :
    ∀ (ch : TChildren) (g : EGraph) (cI cS : Option Nat) (i cur k0 : Nat),
      checkCh g thr i k0 ch = true → OrigOkP g thr → thr ≤ g.length → i < thr →
      (∀ c, cI = some c → thr ≤ c ∧ c < g.length) →
      (∀ c, cS = some c → thr ≤ c ∧ c < g.length) →
      (cur = i ∨ (thr ≤ cur ∧ cur < g.length)) →
      (∀ kk, k0 ≤ kk →
        (enode g cur).ins.get? kk = (enode g i).ins.get? kk) →
      ereq g cur = ereq g i →
      (cI = none ∨ initCountCh ch = 0) →
      (cS = none ∨ strideCountCh ch = 0) →
      initCountCh ch ≤ 1 → strideCountCh ch ≤ 1 →
      (∀ x, countOrigin (refCloneCh st thr g cI cS cur ch).g x =
        countOrigin g x + (pathListCh st ch).count x +
        (if cur = i ∧ hasLeafCh ch = true ∧ x = i then 1 else 0)) ∧
      (initCountCh ch = 0 → (refCloneCh st thr g cI cS cur ch).cacheInit = cI) ∧
      (strideCountCh ch = 0 →
        (refCloneCh st thr g cI cS cur ch).cacheStride = cS) ∧
      MirrorsCh st g (refCloneCh st thr g cI cS cur ch).g thr g.length ch
        (refCloneCh st thr g cI cS cur ch).res ∧
      (∀ kk, slotInCh kk ch = false →
        (enode (refCloneCh st thr g cI cS cur ch).g
          (refCloneCh st thr g cI cS cur ch).res).ins.get? kk =
        (enode g cur).ins.get? kk) ∧
      (cur = i → hasLeafCh ch = true →
        (enode (refCloneCh st thr g cI cS cur ch).g
          (refCloneCh st thr g cI cS cur ch).res).op = (enode g i).op ∧
        (enode (refCloneCh st thr g cI cS cur ch).g
          (refCloneCh st thr g cI cS cur ch).res).origin = some i ∧
        thr ≤ (refCloneCh st thr g cI cS cur ch).res ∧
        (refCloneCh st thr g cI cS cur ch).res <
          (refCloneCh st thr g cI cS cur ch).g.length ∧
        g.length ≤ (refCloneCh st thr g cI cS cur ch).res) ∧
      (thr ≤ cur → (refCloneCh st thr g cI cS cur ch).res = cur ∧
        (enode (refCloneCh st thr g cI cS cur ch).g cur).op =
          (enode g cur).op ∧
        (enode (refCloneCh st thr g cI cS cur ch).g cur).origin =
          (enode g cur).origin) := by
  intro ch g cI cS i cur k0 hck horig hthr hi hcI hcS hcur hagree hereq hvI hvS h1i h1s
  match ch with
  | .nil =>
    have hr : refCloneCh st thr g cI cS cur .nil = ⟨cur, g, cI, cS⟩ := rfl
    rw [hr]
    refine ⟨?_, fun _ => rfl, fun _ => rfl, .nil cur, fun kk _ => rfl, ?_, ?_⟩
    · intro x
      rw [if_neg (by intro hcon; exact absurd hcon.2.1 (by simp [hasLeafCh]))]
      simp [pathListCh]
    · intro _ h2
      simp [hasLeafCh] at h2
    · intro _
      exact ⟨rfl, rfl, rfl⟩
  | .cons k1 t1 rest1 =>
    obtain ⟨hlo, hklt, hsl, hin, hct, hcrest⟩ :=
      checkCh_cons_facts g thr i k0 k1 t1 rest1 hck
    have hicur : cur < g.length := by
      rcases hcur with hc | hc
      · omega
      · exact hc.2
    have hicEq : initCountCh (.cons k1 t1 rest1) =
        initCountT t1 + initCountCh rest1 := rfl
    have hscEq : strideCountCh (.cons k1 t1 rest1) =
        strideCountT t1 + strideCountCh rest1 := rfl
    have hvI1 : cI = none ∨ initCountT t1 = 0 := by
      rcases hvI with h | h
      · exact Or.inl h
      · right
        omega
    have hvS1 : cS = none ∨ strideCountT t1 = 0 := by
      rcases hvS with h | h
      · exact Or.inl h
      · right
        omega
    have hT := refCloneT_props st thr t1 g cI cS hct horig hthr hcI hcS hvI1 hvS1
      (by omega) (by omega)
    obtain ⟨T1, T2, T3, T4⟩ := hT
    have hPt := refCloneT_post st thr t1 g cI cS hct horig hthr hcI hcS
    unfold PostT at hPt
    obtain ⟨t1len, t1pres, _, _, t1id, _, _⟩ := hPt
    obtain ⟨hS1, hS2, hS3, hS4, hS5, hS6, hS7, hS8, hS9, hS10, hS11, hS12,
      hS13, hS14, hS15, hbr⟩ :=
      child_step_cases st thr g cI cS i cur k0 k1 t1 rest1
        (refCloneT st thr g cI cS t1)
        (popParentFor t1 (refCloneT st thr g cI cS t1).g thr cur k1
          (refCloneT st thr g cI cS t1).res)
        rfl rfl hck horig hthr hi hcI hcS hcur hagree hereq
    set r1 : CloneRes := refCloneT st thr g cI cS t1 with hr1def
    set pu : Nat × EGraph := popParentFor t1 r1.g thr cur k1 r1.res with hpudef
    have hvIr : r1.cacheInit = none ∨ initCountCh rest1 = 0 := by
      by_cases hz : initCountT t1 = 0
      · rw [T2 hz]
        rcases hvI with h | h
        · exact Or.inl h
        · right
          omega
      · right
        omega
    have hvSr : r1.cacheStride = none ∨ strideCountCh rest1 = 0 := by
      by_cases hz : strideCountT t1 = 0
      · rw [T3 hz]
        rcases hvS with h | h
        · exact Or.inl h
        · right
          omega
      · right
        omega
    have hR := refCloneCh_props st thr rest1 pu.2 r1.cacheInit r1.cacheStride
      i pu.1 (k1+1) hS1 hS2 hS3 hi hS4 hS5 hS6 hS7 hS8 hvIr hvSr
      (by omega) (by omega)
    obtain ⟨R1, R2, R3, R4, R5, R6, R7⟩ := hR
    have hPr := refCloneCh_post st thr rest1 pu.2 r1.cacheInit r1.cacheStride
      i pu.1 (k1+1) hS1 hS2 hS3 hi hS4 hS5 hS6 hS7 hS8
    unfold PostCh at hPr
    obtain ⟨p1, p2, p3, p4, p5, p6, p7, p8, p9, p10⟩ := hPr
    have hrfl : refCloneCh st thr g cI cS cur (.cons k1 t1 rest1) =
        refCloneCh st thr pu.2 r1.cacheInit r1.cacheStride pu.1 rest1 := by
      rw [hpudef, hr1def]
      rfl
    rw [hrfl]
    have hpune : ∀ j, g.length ≤ j → j < r1.g.length → j ≠ pu.1 := by
      intro j h1 h2
      rcases hbr with ⟨_, _, hpueq⟩ | ⟨_, _, hp1, _, _⟩ | ⟨_, hge, hpueq, _⟩
      · have : pu.1 = cur := by rw [hpueq]
        omega
      · omega
      · have : pu.1 = cur := by rw [hpueq]
        rcases hcur with hc | hc
        · omega
        · omega
    have hGpres : ∀ j, g.length ≤ j → j < r1.g.length →
        (refCloneCh st thr pu.2 r1.cacheInit r1.cacheStride pu.1 rest1).g.get? j =
        r1.g.get? j := by
      intro j h1 h2
      rw [p2 j (by omega) (hpune j h1 h2)]
      exact hS14 j h1 h2
    have hMt1 : MirrorsT st g
        (refCloneCh st thr pu.2 r1.cacheInit r1.cacheStride pu.1 rest1).g
        thr g.length t1 r1.res :=
      mirrorsT_mono st g g r1.g _ thr g.length g.length
        (fun j hj => rfl) hGpres (by omega) (le_refl _) t1 r1.res T4
    have hMrest : MirrorsCh st g
        (refCloneCh st thr pu.2 r1.cacheInit r1.cacheStride pu.1 rest1).g
        thr g.length rest1
        (refCloneCh st thr pu.2 r1.cacheInit r1.cacheStride pu.1 rest1).res :=
      mirrorsCh_mono st pu.2 g _ _ thr pu.2.length g.length
        (fun j hj => (hS9 j hj).symm) (fun j _ _ => rfl) (le_refl _) hS11
        rest1 _ rfl R4
    have hknotin : slotInCh k1 rest1 = false :=
      slot_lt_not_in pu.2 thr i (k1+1) rest1 hS1 k1 (by omega)
    have hklt2 : k1 < (enode g cur).ins.length := by
      have : ereq g cur = (enode g cur).ins.length := rfl
      omega
    have hwire : (enode
        (refCloneCh st thr pu.2 r1.cacheInit r1.cacheStride pu.1 rest1).g
        (refCloneCh st thr pu.2 r1.cacheInit r1.cacheStride pu.1 rest1).res).ins.get?
          k1 = some (some r1.res) := by
      rw [R5 k1 hknotin]
      rcases hbr with ⟨hlfF, hr1eq, hpueq⟩ | ⟨_, _, _, _, hnd⟩ | ⟨_, _, _, hnd⟩
      · have hp1 : pu.1 = cur := by rw [hpueq]
        have hp2 : pu.2 = g := by rw [hpueq]
        have hr1res : r1.res = t1.rootId := by rw [hr1eq]
        rw [hp1, hp2, hagree k1 hlo, hr1res]
        exact einn_some_get g i k1 t1.rootId hin
      · rw [hnd]
        simp only []
        exact List.get?_set_eq_of_lt _ hklt2
      · rw [hnd]
        simp only []
        exact List.get?_set_eq_of_lt _ hklt2
    refine ⟨?_, ?_, ?_, ?_, ?_, ?_, ?_⟩
    · intro x
      rw [R1 x]
      have hLcons : hasLeafCh (.cons k1 t1 rest1) =
          (hasLeafT t1 || hasLeafCh rest1) := rfl
      have hpc : pathListCh st (.cons k1 t1 rest1) =
          pathListT st t1 ++ pathListCh st rest1 := rfl
      rw [hpc, List.count_append]
      rcases hbr with ⟨hlfF, hr1eq, hpueq⟩ | ⟨hlfT, hceq, hp1, hp2, hnd⟩ |
        ⟨hlfT, hge, hpueq, hnd⟩
      · have hp1 : pu.1 = cur := by rw [hpueq]
        have hp2 : pu.2 = g := by rw [hpueq]
        have hplnil : pathListT st t1 = [] := pathListT_nil st t1 hlfF
        rw [hp2, hplnil, hp1, hLcons, hlfF, Bool.false_or]
        rw [List.count_nil]
        omega
      · have hcnt : countOrigin pu.2 x = countOrigin g x +
            (pathListT st t1).count x + (if x = cur then 1 else 0) := by
          rw [hp2, countOrigin_clone_top, T1 x]
        rw [hcnt]
        have hextraR : (if pu.1 = i ∧ hasLeafCh rest1 = true ∧ x = i
            then 1 else 0) = 0 := by
          rw [if_neg]
          intro hcon
          have := hcon.1
          omega
        rw [hextraR]
        have hextraG : (if cur = i ∧ hasLeafCh (.cons k1 t1 rest1) = true ∧ x = i
            then 1 else 0) = (if x = i then 1 else 0) := by
          by_cases hxi : x = i
          · simp [hceq, hxi, hLcons, hlfT]
          · simp [hxi]
        rw [hextraG, hceq]
        omega
      · have hp1 : pu.1 = cur := by rw [hpueq]
        have hp2 : pu.2 = set_req r1.g cur k1 r1.res := by rw [hpueq]
        have hcnt : countOrigin pu.2 x = countOrigin g x +
            (pathListT st t1).count x := by
          rw [hp2, countOrigin_set_req, T1 x]
        rw [hcnt]
        have hextraR : (if pu.1 = i ∧ hasLeafCh rest1 = true ∧ x = i
            then 1 else 0) = 0 := by
          rw [if_neg]
          intro hcon
          rw [hp1] at hcon
          omega
        have hextraG : (if cur = i ∧ hasLeafCh (.cons k1 t1 rest1) = true ∧ x = i
            then 1 else 0) = 0 := by
          rw [if_neg]
          intro hcon
          omega
        rw [hextraR, hextraG]
        omega
    · intro h
      rw [hicEq] at h
      rw [R2 (by omega), T2 (by omega)]
    · intro h
      rw [hscEq] at h
      rw [R3 (by omega), T3 (by omega)]
    · refine .cons k1 t1 rest1 _ r1.res ?_ hMt1 hMrest
      unfold einn
      rw [hwire]
      rfl
    · intro kk hkni
      have hkk : decide (kk = k1) = false ∧ slotInCh kk rest1 = false := by
        unfold slotInCh at hkni
        simpa [Bool.or_eq_false_iff] using hkni
      have hkne : kk ≠ k1 := by simpa using hkk.1
      rw [R5 kk hkk.2]
      rcases hbr with ⟨hlfF, hr1eq, hpueq⟩ | ⟨_, _, _, _, hnd⟩ | ⟨_, _, _, hnd⟩
      · have hp1 : pu.1 = cur := by rw [hpueq]
        have hp2 : pu.2 = g := by rw [hpueq]
        rw [hp1, hp2]
      · rw [hnd]
        simp only []
        exact List.get?_set_ne _ _ (fun hx => hkne hx.symm)
      · rw [hnd]
        simp only []
        exact List.get?_set_ne _ _ (fun hx => hkne hx.symm)
    · intro hceq hlc
      cases hlfv : hasLeafT t1 with
      | true =>
        rcases hbr with ⟨hlfF, _, _⟩ | ⟨_, _, hp1, hp2, hnd⟩ | ⟨_, hge, _, _⟩
        · rw [hlfv] at hlfF
          cases hlfF
        · have hthrpu : thr ≤ pu.1 := by omega
          obtain ⟨hres, hop2, horg2⟩ := R7 hthrpu
          refine ⟨?_, ?_, ?_, ?_, ?_⟩
          · rw [hres, hop2, hS10, hceq]
          · rw [hres, horg2, hnd]
            simp only []
            rw [hceq]
          · omega
          · have hpu1lt : pu.1 < pu.2.length := by
              rcases hS6 with h | h
              · omega
              · exact h.2
            omega
          · omega
        · rw [hceq] at hge
          omega
      | false =>
        have hlrest : hasLeafCh rest1 = true := by
          have : hasLeafCh (.cons k1 t1 rest1) = (hasLeafT t1 || hasLeafCh rest1) := rfl
          rw [this, hlfv, Bool.false_or] at hlc
          exact hlc
        rcases hbr with ⟨hlfF, hr1eq, hpueq⟩ | ⟨hlfT, _, _, _, _⟩ | ⟨hlfT, _, _, _⟩
        · have hp1 : pu.1 = cur := by rw [hpueq]
          have hp2 : pu.2 = g := by rw [hpueq]
          have hP6 := R6 (by rw [hp1, hceq]) hlrest
          obtain ⟨ha, hb, hc, hd, he⟩ := hP6
          refine ⟨?_, hb, hc, hd, ?_⟩
          · rw [ha, enode_congr g pu.2 i (hS9 i hi)]
          · have hlen2 : pu.2.length = g.length := by rw [hp2]
            omega
        · rw [hlfv] at hlfT
          cases hlfT
        · rw [hlfv] at hlfT
          cases hlfT
    · intro hge
      have hne2 : ¬(cur = i) := by omega
      rcases hbr with ⟨hlfF, hr1eq, hpueq⟩ | ⟨_, hceq, _, _, _⟩ | ⟨_, _, hpueq, hnd⟩
      · have hp1 : pu.1 = cur := by rw [hpueq]
        have hp2 : pu.2 = g := by rw [hpueq]
        have hthrpu : thr ≤ pu.1 := by omega
        obtain ⟨hres, hop2, horg2⟩ := R7 hthrpu
        refine ⟨hres.trans hp1, ?_, ?_⟩
        · have heq2 : enode (refCloneCh st thr pu.2 r1.cacheInit
              r1.cacheStride pu.1 rest1).g cur = enode (refCloneCh st thr pu.2
              r1.cacheInit r1.cacheStride pu.1 rest1).g pu.1 := by
            rw [hp1]
          rw [heq2, hop2]
          rw [show enode pu.2 pu.1 = enode g cur from by rw [hp1, hp2]]
        · have heq2 : enode (refCloneCh st thr pu.2 r1.cacheInit
              r1.cacheStride pu.1 rest1).g cur = enode (refCloneCh st thr pu.2
              r1.cacheInit r1.cacheStride pu.1 rest1).g pu.1 := by
            rw [hp1]
          rw [heq2, horg2]
          rw [show enode pu.2 pu.1 = enode g cur from by rw [hp1, hp2]]
      · exact absurd hceq hne2
      · have hp1 : pu.1 = cur := by rw [hpueq]
        have hthrpu : thr ≤ pu.1 := by omega
        obtain ⟨hres, hop2, horg2⟩ := R7 hthrpu
        refine ⟨hres.trans hp1, ?_, ?_⟩
        · have heq2 : enode (refCloneCh st thr pu.2 r1.cacheInit
              r1.cacheStride pu.1 rest1).g cur = enode (refCloneCh st thr pu.2
              r1.cacheInit r1.cacheStride pu.1 rest1).g pu.1 := by
            rw [hp1]
          rw [heq2, hop2, hnd]
        · have heq2 : enode (refCloneCh st thr pu.2 r1.cacheInit
              r1.cacheStride pu.1 rest1).g cur = enode (refCloneCh st thr pu.2
              r1.cacheInit r1.cacheStride pu.1 rest1).g pu.1 := by
            rw [hp1]
          rw [heq2, horg2, hnd]
end

theorem reach_below_thr (g gfin : EGraph) (thr : Nat)
    (hpres : ∀ j, j < thr → gfin.get? j = g.get? j)
    (horig : OrigOkP g thr) (x : Nat) (hx : x < thr) :
    ∀ b, Reaches gfin x b → Reaches g x b ∧ b < thr := by
  intro b h
  induction h with
  | refl => exact ⟨Relation.ReflTransGen.refl, hx⟩
  | tail hstep hedge ih =>
    obtain ⟨hr, hc⟩ := ih
    obtain ⟨k, hk⟩ := hedge
    rw [einn_congr g gfin _ (hpres _ hc) k] at hk
    refine ⟨Relation.ReflTransGen.tail hr ⟨k, hk⟩, horig _ hc k _ hk⟩

theorem no_opaque_transfer (g gfin : EGraph) (thr : Nat)
    (hpres : ∀ j, j < thr → gfin.get? j = g.get? j)
    (horig : OrigOkP g thr) (x : Nat) (hx : x < thr)
    (h : NoOpaqueLoopReach g x) : NoOpaqueLoopReach gfin x := by
  intro b hb
  obtain ⟨hgb, hbt⟩ := reach_below_thr g gfin thr hpres horig x hx b hb
  rw [enode_congr g gfin b (hpres b hbt)]
  exact h b hgb

theorem no_opaque_step (g : EGraph) (a : Nat)
    (hself : opaque1_op (enode g a).op = false)
    (hins : ∀ k x, einn g a k = some x → NoOpaqueLoopReach g x) :
    NoOpaqueLoopReach g a := by
  intro b hb
  rcases Relation.ReflTransGen.cases_head hb with hba | ⟨c, hedge, hreach⟩
  · rw [← hba]
    exact hself
  · obtain ⟨k, hk⟩ := hedge
    exact hins k c hk b hreach

mutual
theorem no_leaf_reach_safe_T (g : EGraph) (thr : Nat) :
    ∀ (t : TSpec), checkT g thr t = true → SideSafeT g t →
      hasLeafT t = false → NoOpaqueLoopReach g t.rootId := by
  intro t hck hsafe hlf
  match t with
  | .initLeaf i => simp [hasLeafT] at hlf
  | .strideLeaf i => simp [hasLeafT] at hlf
  | .interior i ch =>
    obtain ⟨hi, hval, hnop, hch⟩ := checkT_interior_facts g thr i ch hck
    obtain ⟨hside, hchsafe⟩ := hsafe
    have hlc : hasLeafCh ch = false := by simpa [hasLeafT] using hlf
    refine no_opaque_step g i hnop ?_
    intro k x hk
    cases hin : slotInCh k ch with
    | false => exact hside k x hin hk
    | true => exact no_leaf_reach_safe_Ch g thr i 1 ch hch hchsafe hlc k x hk hin

theorem no_leaf_reach_safe_Ch (g : EGraph) (thr : Nat) :
    ∀ (i lo : Nat) (ch : TChildren), checkCh g thr i lo ch = true →
      SideSafeCh g ch → hasLeafCh ch = false →
      ∀ k x, einn g i k = some x → slotInCh k ch = true →
        NoOpaqueLoopReach g x := by
  intro i lo ch hck hsafe hlf k x hk hin
  match ch with
  | .nil => cases hin
  | .cons k1 t1 rest1 =>
    obtain ⟨hlo, hklt, hsl, hin1, hct, hcrest⟩ :=
      checkCh_cons_facts g thr i lo k1 t1 rest1 hck
    obtain ⟨hsafe1, hsafer⟩ := hsafe
    have hlf2 : hasLeafT t1 = false ∧ hasLeafCh rest1 = false := by
      simpa [hasLeafCh, Bool.or_eq_false_iff] using hlf
    unfold slotInCh at hin
    by_cases hkk : k = k1
    · subst hkk
      rw [hin1] at hk
      cases hk
      exact no_leaf_reach_safe_T g thr t1 hct hsafe1 hlf2.1
    · have hin2 : slotInCh k rest1 = true := by
        have hd : decide (k = k1) = false := by
          simp
          exact hkk
        rw [hd, Bool.false_or] at hin
        exact hin
      exact no_leaf_reach_safe_Ch g thr i (k1+1) rest1 hcrest hsafer hlf2.2
        k x hk hin2
end

mutual
theorem mirrorsT_no_opaque (g gfin : EGraph) (thr lo : Nat)
    (horig : OrigOkP g thr)
    (hpres : ∀ j, j < thr → gfin.get? j = g.get? j) :
    ∀ (t : TSpec) (r : Nat), checkT g thr t = true → SideSafeT g t →
      MirrorsT .removeNodes g gfin thr lo t r →
      NoOpaqueLoopReach gfin r := by
  intro t r hck hsafe hm
  match t with
  | .initLeaf i =>
    cases hm with
    | initLeafClone _ _ hst => cases hst
    | initLeafRemoved _ _ _ hi hin =>
      refine no_opaque_transfer g gfin thr hpres horig r (horig i hi 1 r hin) ?_
      exact hsafe r hin
  | .strideLeaf i =>
    cases hm with
    | strideLeafClone _ _ hst => cases hst
    | strideLeafRemoved _ _ _ hi hin =>
      refine no_opaque_transfer g gfin thr hpres horig r (horig i hi 1 r hin) ?_
      exact hsafe r hin
  | .interior i ch =>
    obtain ⟨hi, hval, hnop, hch⟩ := checkT_interior_facts g thr i ch hck
    obtain ⟨hside, hchsafe⟩ := hsafe
    cases hm with
    | interiorShared _ _ hlc =>
      refine no_opaque_transfer g gfin thr hpres horig r hi ?_
      exact no_leaf_reach_safe_T g thr (.interior r ch) hck ⟨hside, hchsafe⟩
        (by simpa [hasLeafT] using hlc)
    | interiorCloned _ _ _ hlc hi2 hthr2 hlo2 hr hop ho hlen2 hslots hmch =>
      refine no_opaque_step gfin r ?_ ?_
      · rw [hop]
        exact hnop
      · intro k x hk
        cases hin : slotInCh k ch with
        | true =>
          exact mirrorsCh_no_opaque g gfin thr lo horig hpres ch r 1 i hch
            hchsafe hmch k x hin hk
        | false =>
          have hek : einn gfin r k = einn g i k := by
            unfold einn
            rw [hslots k hin]
          rw [hek] at hk
          refine no_opaque_transfer g gfin thr hpres horig x
            (horig i hi k x hk) ?_
          exact hside k x hin hk

theorem mirrorsCh_no_opaque (g gfin : EGraph) (thr lo : Nat)
    (horig : OrigOkP g thr)
    (hpres : ∀ j, j < thr → gfin.get? j = g.get? j) :
    ∀ (ch : TChildren) (r lo2 i : Nat), checkCh g thr i lo2 ch = true →
      SideSafeCh g ch →
      MirrorsCh .removeNodes g gfin thr lo ch r →
      ∀ k x, slotInCh k ch = true → einn gfin r k = some x →
        NoOpaqueLoopReach gfin x := by
  intro ch r lo2 i hck hsafe hm k x hin hk
  match ch with
  | .nil => cases hin
  | .cons k1 t1 rest1 =>
    obtain ⟨hlo, hklt, hsl, hin1, hct, hcrest⟩ :=
      checkCh_cons_facts g thr i lo2 k1 t1 rest1 hck
    obtain ⟨hsafe1, hsafer⟩ := hsafe
    cases hm with
    | cons _ _ _ _ rc hedge hmt hmrest =>
      unfold slotInCh at hin
      by_cases hkk : k = k1
      · subst hkk
        rw [hedge] at hk
        cases hk
        exact mirrorsT_no_opaque g gfin thr lo horig hpres t1 x hct hsafe1 hmt
      · have hin2 : slotInCh k rest1 = true := by
          have hd : decide (k = k1) = false := by
            simp
            exact hkk
          rw [hd, Bool.false_or] at hin
          exact hin
        exact mirrorsCh_no_opaque g gfin thr lo horig hpres rest1 r (k1+1) i
          hcrest hsafer hmrest k x hin2 hk
end

mutual
theorem pathListT_sublist (st : Strat) : ∀ t : TSpec,
    (pathListT st t).Sublist (treeIdsT t) := by
  intro t
  match t with
  | .initLeaf i =>
    unfold pathListT treeIdsT
    by_cases hst : st = .cloneNodes
    · rw [if_pos hst]
    · rw [if_neg hst]
      exact List.nil_sublist _
  | .strideLeaf i =>
    unfold pathListT treeIdsT
    by_cases hst : st = .cloneNodes
    · rw [if_pos hst]
    · rw [if_neg hst]
      exact List.nil_sublist _
  | .interior i ch =>
    unfold pathListT treeIdsT
    cases hlc : hasLeafCh ch with
    | false =>
      rw [if_neg (by simp [hlc])]
      exact List.nil_sublist _
    | true =>
      rw [if_pos (by simp [hlc])]
      exact List.Sublist.cons₂ i (pathListCh_sublist st ch)

theorem pathListCh_sublist (st : Strat) : ∀ ch : TChildren,
    (pathListCh st ch).Sublist (treeIdsCh ch) := by
  intro ch
  match ch with
  | .nil => exact List.nil_sublist _
  | .cons k t rest =>
    unfold pathListCh treeIdsCh
    exact List.Sublist.append (pathListT_sublist st t) (pathListCh_sublist st rest)
end

theorem nodup_count (l : List Nat) (h : l.Nodup) (x : Nat) :
    l.count x = if x ∈ l then 1 else 0 := by
  by_cases hm : x ∈ l
  · rw [if_pos hm]
    exact List.count_eq_one_of_mem h hm
  · rw [if_neg hm]
    exact List.count_eq_zero_of_not_mem hm

theorem no_opaque_of_nil_ins (g : EGraph) (x : Nat)
    (hop : opaque1_op (enode g x).op = false)
    (hins : (enode g x).ins = []) : NoOpaqueLoopReach g x := by
  refine no_opaque_step g x hop ?_
  intro k y hk
  unfold einn at hk
  rw [hins] at hk
  cases hk

/-- C1 (amended): with the clone-only strategy on a checker-valid template
bool expression whose nodes are each reachable from the Bool root along a
single DFS path (tree shape, distinct ids) and which holds at most one
OpaqueLoop* node per kind, the run terminates and every node on a path to an
OpaqueLoop* leaf gains exactly one clone (tracked through the ghost origin
field), every other node gains none, all original nodes are preserved
unchanged, and the returned node mirrors the original expression with the
off-path inputs shared. -/
theorem c1_clone_exactly_once_amended (g : EGraph) (i : Nat) (ch : TChildren)
    (hck : checkT g g.length (.interior i ch) = true)
    (horig : orig_inputs_below g g.length = true)
    (hnodup : (treeIdsT (.interior i ch)).Nodup)
    (h1i : initCountT (.interior i ch) ≤ 1)
    (h1s : strideCountT (.interior i ch) ≤ 1) :
    ∃ fuel r gfin, (∀ f, fuel ≤ f →
        clone_assertion_predicate_bool .cloneNodes g i f = (some r, gfin)) ∧
      (∀ j, j < g.length → gfin.get? j = g.get? j) ∧
      (∀ x, countOrigin gfin x = countOrigin g x +
        (if x ∈ pathListT .cloneNodes (.interior i ch) then 1 else 0)) ∧
      MirrorsT .cloneNodes g gfin g.length g.length (.interior i ch) r := by
  have horigP := (orig_inputs_below_iff g g.length).mp horig
  obtain ⟨fuel, hrun⟩ := clone_run_eq .cloneNodes g i ch hck horigP
  have hPt := refCloneT_post .cloneNodes g.length (.interior i ch) g none none
    hck horigP (le_refl _) (fun c hc => by cases hc) (fun c hc => by cases hc)
  unfold PostT at hPt
  obtain ⟨_, tpres, _, _, _, _, _⟩ := hPt
  obtain ⟨T1, T2, T3, T4⟩ := refCloneT_props .cloneNodes g.length
    (.interior i ch) g none none hck horigP (le_refl _)
    (fun c hc => by cases hc) (fun c hc => by cases hc)
    (Or.inl rfl) (Or.inl rfl) h1i h1s
  refine ⟨fuel, _, _, hrun, tpres, ?_, T4⟩
  intro x
  rw [T1 x]
  have hnd : (pathListT .cloneNodes (.interior i ch)).Nodup :=
    hnodup.sublist (pathListT_sublist .cloneNodes (.interior i ch))
  rw [nodup_count _ hnd x]

/-- C1 counterexample: on the DAG `gShare` the Cmp node reaches the shared
AddI node 2 through two inputs, so the clone-only run duplicates node 2 once
per DFS path — twice, not "exactly once" — even though node 2 lies on a path
to the OpaqueLoopInit leaf and the shape is accepted by the opcode checker. -/
theorem c1_clone_exactly_once_counterexample :
    checkT gShare gShare.length tShare = true ∧
    (clone_assertion_predicate_bool .cloneNodes gShare 0 50).1 = some 10 ∧
    countOrigin gShare 2 = 0 ∧
    countOrigin (clone_assertion_predicate_bool .cloneNodes gShare 0 50).2 2 =
      2 := by
  exact ⟨by decide, by decide, by decide, by decide⟩

/-- C8: `clone_remove_opaque_loop_nodes` (the remove strategy) on a
checker-valid template bool whose only opaque leaf is `OpaqueLoopInit` and
whose side inputs have no path to an OpaqueLoop* node produces the
substitution result: the machine halts with a node that mirrors the original
expression with each OpaqueLoop* leaf replaced by its own input `in(1)`
(and interior path nodes cloned), the original nodes are untouched, and no
OpaqueLoopInit/OpaqueLoopStride node is reachable from the returned node. -/
theorem c8_remove_opaque_substitution (g : EGraph) (i : Nat) (ch : TChildren)
    (hck : checkT g g.length (.interior i ch) = true)
    (horig : orig_inputs_below g g.length = true)
    (h1i : initCountT (.interior i ch) ≤ 1)
    (h1s : strideCountT (.interior i ch) = 0)
    (hsafe : SideSafeT g (.interior i ch)) :
    ∃ fuel r gfin, (∀ f, fuel ≤ f →
        clone_assertion_predicate_bool .removeNodes g i f = (some r, gfin)) ∧
      (∀ j, j < g.length → gfin.get? j = g.get? j) ∧
      MirrorsT .removeNodes g gfin g.length g.length (.interior i ch) r ∧
      NoOpaqueLoopReach gfin r := by
  have horigP := (orig_inputs_below_iff g g.length).mp horig
  obtain ⟨fuel, hrun⟩ := clone_run_eq .removeNodes g i ch hck horigP
  have hPt := refCloneT_post .removeNodes g.length (.interior i ch) g none none
    hck horigP (le_refl _) (fun c hc => by cases hc) (fun c hc => by cases hc)
  unfold PostT at hPt
  obtain ⟨_, tpres, _, _, _, _, _⟩ := hPt
  obtain ⟨T1, T2, T3, T4⟩ := refCloneT_props .removeNodes g.length
    (.interior i ch) g none none hck horigP (le_refl _)
    (fun c hc => by cases hc) (fun c hc => by cases hc)
    (Or.inl rfl) (Or.inl rfl) h1i (by omega)
  refine ⟨fuel, _, _, hrun, tpres, T4, ?_⟩
  exact mirrorsT_no_opaque g _ g.length g.length horigP tpres
    (.interior i ch) _ hck hsafe T4

theorem c1_clone_exactly_once_amended_witness :
    checkT gTree gTree.length tTree = true ∧
    (∃ fuel r gfin, (∀ f, fuel ≤ f →
        clone_assertion_predicate_bool .cloneNodes gTree 0 f = (some r, gfin)) ∧
      (∀ j, j < gTree.length → gfin.get? j = gTree.get? j) ∧
      (∀ x, countOrigin gfin x = countOrigin gTree x +
        (if x ∈ pathListT .cloneNodes tTree then 1 else 0)) ∧
      MirrorsT .cloneNodes gTree gfin gTree.length gTree.length tTree r) :=
  ⟨by decide,
   c1_clone_exactly_once_amended gTree 0
     (.cons 1 (.interior 1 (.cons 1
       (.interior 2 (.cons 1 (.initLeaf 3) .nil)) .nil)) .nil)
     (by decide) (by decide) (by decide) (by decide) (by decide)⟩

theorem c8_remove_opaque_substitution_witness :
    checkT gTree gTree.length tTree = true ∧
    (∃ fuel r gfin, (∀ f, fuel ≤ f →
        clone_assertion_predicate_bool .removeNodes gTree 0 f = (some r, gfin)) ∧
      (∀ j, j < gTree.length → gfin.get? j = gTree.get? j) ∧
      MirrorsT .removeNodes gTree gfin gTree.length gTree.length tTree r ∧
      NoOpaqueLoopReach gfin r) := by
  refine ⟨by decide, c8_remove_opaque_substitution gTree 0
    (.cons 1 (.interior 1 (.cons 1
      (.interior 2 (.cons 1 (.initLeaf 3) .nil)) .nil)) .nil)
    (by decide) (by decide) (by decide) (by decide) ?_⟩
  refine ⟨?_, ⟨?_, ⟨?_, ⟨?_, trivial⟩⟩, trivial⟩, trivial⟩
  · intro k x hsl he
    match k with
    | 0 =>
      rw [show einn gTree 0 0 = none from rfl] at he
      cases he
    | 1 => exact absurd hsl (by decide)
    | (k+2) =>
      rw [show einn gTree 0 (k+2) = none from rfl] at he
      cases he
  · intro k x hsl he
    match k with
    | 0 =>
      rw [show einn gTree 1 0 = none from rfl] at he
      cases he
    | 1 => exact absurd hsl (by decide)
    | 2 =>
      rw [show einn gTree 1 2 = some 5 from rfl] at he
      cases he
      exact no_opaque_of_nil_ins gTree 5 (by decide) rfl
    | (k+3) =>
      rw [show einn gTree 1 (k+3) = none from rfl] at he
      cases he
  · intro k x hsl he
    match k with
    | 0 =>
      rw [show einn gTree 2 0 = none from rfl] at he
      cases he
    | 1 => exact absurd hsl (by decide)
    | 2 =>
      rw [show einn gTree 2 2 = some 4 from rfl] at he
      cases he
      exact no_opaque_of_nil_ins gTree 4 (by decide) rfl
    | (k+3) =>
      rw [show einn gTree 2 (k+3) = none from rfl] at he
      cases he
  · intro x hx
    rw [show einn gTree 3 1 = some 6 from rfl] at hx
    cases hx
    exact no_opaque_of_nil_ins gTree 6 (by decide) rfl
